import Mathlib

/-! Symbol ingestion core, workflow stores and resolvers, HTTP API, mocks.

A shallow embedding of the symbol-ingestion core of the code-intelligence
store (package `lsifstore`).  The Go functions `constructSymbolLookupTable`,
`NewSCIPWriter`, `InsertDocument`, `Flush`, `Transact`, `Done` and
`WithTransaction` are exercised by `insert_test.go` but their bodies are not
part of the source tree at hand, so they are modelled from the specification,
with the behaviour asserted by the tests taken as binding wherever the tests
fix it.

The namespaces after it embed code that is in the source tree: the workflow
and saved search stores (`Database`), the workflow resolvers (`Resolvers`),
the middleware and error handler of the HTTP API (`Httpapi`), the term
stemmer (`Keyword`) and the generated mock (`InsightsStore`).  Packages
outside the source tree that this code calls are parameters of the
definitions.
-/

namespace Lsifstore

/-! ## Symbol grammar parser -/

/-- The quoting character of the symbol grammar (U+0060). -/
def backtick : Char := Char.ofNat 96

/-- The top-level field separator. -/
def space : Char := ' '

/-- The namespace separator inside a descriptor. -/
def slash : Char := '/'

/-- Modelled from the spec: the ParseError of spec §4.1 (the parser is not in
the source tree), with one case for each of the two ways a symbol name is
rejected. -/
inductive ParseError where
  | tooFewFields
  | unterminatedQuote
  deriving DecidableEq, Repr

/-- Modelled from the spec: the segment types of a DescriptorNode (spec §3):
scheme, manager, package-name, package-version, descriptor-suffix-component.
The type declaration is not in the source tree. -/
inductive SegmentType where
  | scheme
  | manager
  | packageName
  | packageVersion
  | descriptorSuffixComponent
  deriving DecidableEq, Repr

/-- Modelled from the spec: one parsed segment, a (segmentType,
segmentQuality, name) triple (spec §4.1). -/
structure Segment where
  segmentType : SegmentType
  segmentQuality : Option String
  name : String
  deriving DecidableEq, Repr

/-- Modelled from the spec: the result of the parser, which is not in the
source tree: the four leading fields of a symbol name and the descriptor,
divided into namespace and suffix as `TestConstructSymbolLookupTable` shows
it. -/
structure ExplodedSymbol where
  scheme : List Char
  manager : List Char
  packageName : List Char
  packageVersion : List Char
  descriptorNamespace : List Char
  descriptorSuffix : List Char
  deriving DecidableEq, Repr

/-- Modelled from the spec: the scanning of one top-level field (the parser is
not in the source tree).  Reads characters up to the first space that is not
inside a backtick-quoted span.  Returns the field, the input after that space
(`none` when the input ended first) and whether the scan ended inside a
quoted span. -/
def takeField : Bool → List Char → List Char × Option (List Char) × Bool
  | q, [] => ([], none, q)
  | q, c :: cs =>
    if c = backtick then
      let r := takeField (!q) cs
      (c :: r.1, r.2.1, r.2.2)
    else if c = space ∧ q = false then
      ([], some cs, false)
    else
      let r := takeField q cs
      (c :: r.1, r.2.1, r.2.2)

/-- Modelled from the spec: whether a scan that starts in quoting state `q`
ends inside a quoted span (unterminated quoting). -/
def endsQuoted : Bool → List Char → Bool
  | q, [] => q
  | q, c :: cs => endsQuoted (if c = backtick then !q else q) cs

/-- Modelled from the spec: the division of a descriptor into namespace and
suffix, as `TestConstructSymbolLookupTable` fixes it: the namespace runs up to
and including the last slash outside backtick quoting, the suffix is the
rest.  The first argument is the quoting state at the start. -/
def splitDescriptor : Bool → List Char → List Char × List Char
  | _, [] => ([], [])
  | q, c :: cs =>
    let r := splitDescriptor (if c = backtick then !q else q) cs
    if r.1 ≠ [] then (c :: r.1, r.2)
    else if c = slash ∧ q = false then ([c], r.2)
    else ([], c :: r.2)

/-- The error of a field scan that reached the end of the input. -/
def fieldError (q : Bool) : ParseError :=
  if q then ParseError.unterminatedQuote else ParseError.tooFewFields

/-- Modelled from the spec: the symbol grammar parser (spec §4.1; the Go
parser is not in the source tree).  Four space-delimited fields, then the
descriptor, which is the whole remainder.  Fails when fewer than five fields
are present or a backtick quote is not closed.  The descriptor is divided
into namespace and suffix and not at its dots: the test expects the single
name `foo.bar.ident#`. -/
def parseChars (s : List Char) : Except ParseError ExplodedSymbol :=
  match takeField false s with
  | (_, none, q) => .error (fieldError q)
  | (f1, some r1, _) =>
    match takeField false r1 with
    | (_, none, q) => .error (fieldError q)
    | (f2, some r2, _) =>
      match takeField false r2 with
      | (_, none, q) => .error (fieldError q)
      | (f3, some r3, _) =>
        match takeField false r3 with
        | (_, none, q) => .error (fieldError q)
        | (f4, some d, _) =>
          if endsQuoted false d then .error ParseError.unterminatedQuote
          else
            let r := splitDescriptor false d
            .ok ⟨f1, f2, f3, f4, r.1, r.2⟩

/-- Modelled from the spec: the parser of spec §4.1 on a symbol name string. -/
def parseSymbol (s : String) : Except ParseError ExplodedSymbol :=
  parseChars s.data

/-- Modelled from the spec: the structural segment sequence of a parsed
symbol (spec §4.1), scheme first, six segments as the test expects.  The spec
names one segment type for the parts of the descriptor and does not say when a
quality is present; it is absent on every segment here. -/
def ExplodedSymbol.segments (p : ExplodedSymbol) : List Segment :=
  [ ⟨SegmentType.scheme, none, String.mk p.scheme⟩,
    ⟨SegmentType.manager, none, String.mk p.manager⟩,
    ⟨SegmentType.packageName, none, String.mk p.packageName⟩,
    ⟨SegmentType.packageVersion, none, String.mk p.packageVersion⟩,
    ⟨SegmentType.descriptorSuffixComponent, none, String.mk p.descriptorNamespace⟩,
    ⟨SegmentType.descriptorSuffixComponent, none, String.mk p.descriptorSuffix⟩ ]

/-- Re-joining the parsed fields with their original separators: a space
after each of the first four fields, nothing between namespace and suffix. -/
def ExplodedSymbol.join (p : ExplodedSymbol) : List Char :=
  p.scheme ++ space :: (p.manager ++ space :: (p.packageName ++ space ::
    (p.packageVersion ++ space :: (p.descriptorNamespace ++ p.descriptorSuffix))))

/-! ## Descriptor tree builder -/

/-- One row of the dictionary tree, as handed to the visit callback of the
traverser in the test: `(segmentType, segmentQuality, name, id, parentID)`,
the test's `rowType`. -/
structure DescriptorNode where
  segmentType : SegmentType
  segmentQuality : Option String
  name : String
  id : Int
  parentID : Option Int
  deriving DecidableEq, Repr

/-- Modelled from the spec: the key of the per-build cache of spec §4.2,
`(currentParentID, segmentType, segmentQuality, name)`.  An absent quality
and a present, empty one are different keys. -/
structure CacheKey where
  parentID : Option Int
  segmentType : SegmentType
  segmentQuality : Option String
  name : String
  deriving DecidableEq, Repr

/-- The cache key under which a node is interned. -/
def DescriptorNode.key (r : DescriptorNode) : CacheKey :=
  ⟨r.parentID, r.segmentType, r.segmentQuality, r.name⟩

/-- The value type of the lookup returned by the builder; the test reads its
field `descriptorSuffixID`, the id of the leaf node. -/
structure explodedIDs where
  descriptorSuffixID : Int
  deriving DecidableEq, Repr

/-- Modelled from the spec: the state of one build (spec §4.2, §9): the cache,
the arena of created nodes in creation order, and the number of calls made to
the id allocator. -/
structure BuildState where
  cache : List (CacheKey × Int)
  rows : List DescriptorNode
  calls : Nat
  deriving Repr

/-- The state a build starts from. -/
def BuildState.empty : BuildState := ⟨[], [], 0⟩

/-- Modelled from the spec: lookup in the per-build cache. -/
def cacheGet (cache : List (CacheKey × Int)) (k : CacheKey) : Option Int :=
  (cache.find? (fun e => decide (e.1 = k))).map Prod.snd

/-- Modelled from the spec: one step of the walk of spec §4.2.  If a node with
the same (parent, type, quality, name) is cached its id is reused; otherwise
an id is taken from the allocator (`alloc k` is the id the allocator returns
on its call number `k`), the node is created with the previous step as its
parent and is put in the cache. -/
def internSegment (alloc : Nat → Int) (st : BuildState) (parent : Option Int)
    (seg : Segment) : BuildState × Int :=
  let k : CacheKey := ⟨parent, seg.segmentType, seg.segmentQuality, seg.name⟩
  match cacheGet st.cache k with
  | some id => (st, id)
  | none =>
    let id := alloc st.calls
    (⟨(k, id) :: st.cache,
      st.rows ++ [⟨seg.segmentType, seg.segmentQuality, seg.name, id, parent⟩],
      st.calls + 1⟩, id)

/-- Modelled from the spec: the walk of one segment sequence, starting below
`parent` (`none` at the root).  Returns the ids of the nodes descended
through, root first. -/
def internPath (alloc : Nat → Int) :
    BuildState → Option Int → List Segment → BuildState × List Int
  | st, _, [] => (st, [])
  | st, parent, seg :: rest =>
    let r := internSegment alloc st parent seg
    let r2 := internPath alloc r.1 (some r.2) rest
    (r2.1, r.2 :: r2.2)

/-- The map read `cache[symbolName]` on the lookup the builder returns. -/
def lookupGet (lookup : List (String × explodedIDs)) (name : String) : Option explodedIDs :=
  (lookup.find? (fun e => decide (e.1 = name))).map Prod.snd

/-- Assignment `lookup[name] = ids` on the table. -/
def lookupSet (lookup : List (String × explodedIDs)) (name : String) (ids : explodedIDs) :
    List (String × explodedIDs) :=
  (name, ids) :: lookup.filter (fun e => decide (e.1 ≠ name))

/-- Modelled from the spec: the loop of the builder over the symbol names.  A
name that does not parse ends the build with the parse error. -/
def buildLoop (alloc : Nat → Int) :
    BuildState → List (String × explodedIDs) → List String →
      Except ParseError (BuildState × List (String × explodedIDs))
  | st, lookup, [] => .ok (st, lookup)
  | st, lookup, name :: rest =>
    match parseSymbol name with
    | .error e => .error e
    | .ok p =>
      let r := internPath alloc st none p.segments
      match r.2.getLast? with
      | none => buildLoop alloc r.1 lookup rest
      | some leaf => buildLoop alloc r.1 (lookupSet lookup name ⟨leaf⟩) rest

/-- Modelled from the spec: what `constructSymbolLookupTable` returns on
success: the lookup, and for the traverser the created nodes in creation
order and their number. -/
structure SymbolLookupTable where
  lookup : List (String × explodedIDs)
  rows : List DescriptorNode
  calls : Nat
  deriving Repr

/-- Modelled from the spec: `constructSymbolLookupTable(symbolNames, id)` of
spec §4.2 (its Go body is not in the source tree; the test calls it). -/
def constructSymbolLookupTable (symbolNames : List String) (alloc : Nat → Int) :
    Except ParseError SymbolLookupTable :=
  match buildLoop alloc BuildState.empty [] symbolNames with
  | .error e => .error e
  | .ok r => .ok ⟨r.2, r.1.rows, r.1.calls⟩

/-- Modelled from the spec: the traverser returned by the builder.  Calls
`visit` on every created node in creation order, threading the state of the
callback, and stops at the first error the callback returns. -/
def SymbolLookupTable.traverser {σ ε : Type} (t : SymbolLookupTable)
    (visit : DescriptorNode → σ → Except ε σ) (init : σ) : Except ε σ :=
  t.rows.foldlM (fun acc r => visit r acc) init

/-- The callback of `TestConstructSymbolLookupTable`: `rows[id] = row`, here
recording the invocations in order; it never fails. -/
def recordRow (r : DescriptorNode) (acc : List DescriptorNode) : Except Unit (List DescriptorNode) :=
  .ok (acc ++ [r])

/-- The rows recorded by driving the traverser with `recordRow`. -/
def SymbolLookupTable.emitted (t : SymbolLookupTable) : List DescriptorNode :=
  match t.traverser recordRow [] with
  | .ok rows => rows
  | .error _ => []

/-- The Go zero value of the test's row type, which a map read of a missing
id returns: empty name, id 0, nil parent.  Its segment type is the empty
string in Go, which is none of the five segment types; `find` never reads the
type, and `scheme` stands in for it. -/
def zeroRow : DescriptorNode := ⟨SegmentType.scheme, none, "", 0, none⟩

/-- Read `rows[id]` of the map the test fills from the callback: the row
recorded last under that id, the zero row when there is none. -/
def rowAt (emitted : List DescriptorNode) (id : Int) : DescriptorNode :=
  (emitted.reverse.find? (fun r => decide (r.id = id))).getD zeroRow

/-- The loop of the test's `find`: prepend the row's name, stop at a row with
nil parent, otherwise continue at the parent.  `none` when the fuel runs out
before a root is reached. -/
def findFrom (emitted : List DescriptorNode) : Nat → DescriptorNode → List String → Option (List String)
  | 0, _, _ => none
  | fuel + 1, row, parts =>
    match row.parentID with
    | none => some (row.name :: parts)
    | some p => findFrom emitted fuel (rowAt emitted p) (row.name :: parts)

/-- The test's `find(symbolName)`: the names on the path from the root to the
leaf the lookup holds for the symbol name.  A missing map entry reads as the
zero value, whose `descriptorSuffixID` is 0. -/
def find (t : SymbolLookupTable) (fuel : Nat) (symbolName : String) : Option (List String) :=
  let leaf := ((lookupGet t.lookup symbolName).getD ⟨0⟩).descriptorSuffixID
  findFrom t.emitted fuel (rowAt t.emitted leaf) []

/-- The id allocator of the test: 0, 1, 2, ... -/
def counter (k : Nat) : Int := k

/-- The symbol names of `TestConstructSymbolLookupTable`. -/
def testSymbolNames : List String :=
  [ "node pnpm pkg1 0.1.0 foo.bar.ident#",
    "node pnpm pkg1 0.1.1 bar/`types.ts`/baz/longerName#",
    "node pnpm pkg2 0.1.2 baz.bonk.quux#" ]

/-! ## Store, sessions and the per-upload writer -/

/-- A symbol declared in a document (`scip.SymbolInformation`, as the tests
build it). -/
structure SymbolInformation where
  symbol : String
  deriving DecidableEq, Repr

/-- An occurrence (`scip.Occurrence`): source range, referenced symbol name
and roles bitmask. -/
structure Occurrence where
  range : List Int
  symbol : String
  symbolRoles : Int
  deriving DecidableEq, Repr

/-- A decoded document (`scip.Document`); its path is passed separately to
`InsertDocument`. -/
structure Document where
  symbols : List SymbolInformation
  occurrences : List Occurrence
  deriving DecidableEq, Repr

/-- Modelled from the spec: a row of the documents table keyed by
(uploadID, path) (spec §6), holding the document stored for the key. -/
structure DocumentLookupRow where
  uploadID : Int
  path : String
  document : Document
  deriving DecidableEq, Repr

/-- Modelled from the spec: a persisted occurrence (spec §6), referencing the
leaf id resolved for its symbol. -/
structure OccurrenceRow where
  uploadID : Int
  path : String
  range : List Int
  symbolID : Int
  roles : Int
  deriving DecidableEq, Repr

/-- Modelled from the spec: a persisted dictionary node, scoped to its upload
(spec §6). -/
structure SymbolRow where
  uploadID : Int
  node : DescriptorNode
  deriving DecidableEq, Repr

/-- Modelled from the spec: the persisted tables (spec §6; the schema is not in
the source tree).  `codeintel_scip_documents` is the table whose rows
`TestInsertSharedDocumentsConcurrently` counts. -/
structure Store where
  codeintel_scip_documents : List Document
  documentLookup : List DocumentLookupRow
  occurrences : List OccurrenceRow
  symbols : List SymbolRow
  deriving DecidableEq, Repr

/-- The store of a fresh test database. -/
def Store.empty : Store := ⟨[], [], [], []⟩

/-- Modelled from the spec: the errors surfaced by the writer and the session
(spec §7). -/
inductive Error where
  | parse (e : ParseError)
  | storage
  | other (msg : String)
  deriving DecidableEq, Repr

/-- Modelled from the spec: the handle operations inside a transaction work
on: the state the transaction sees, and the number of row writes the backing
store will still accept before a simulated storage failure (`none`: it never
fails). -/
structure Tx where
  work : Store
  writeBudget : Option Nat
  deriving DecidableEq, Repr

/-- Modelled from the spec: a session (spec §4.4): the store as it was when
the session began, and the transactional handle. -/
structure Session where
  base : Store
  tx : Tx
  deriving DecidableEq, Repr

/-- How a session ended. -/
inductive Outcome where
  | committed
  | rolledBack
  deriving DecidableEq, Repr

/-- Modelled from the spec: `Store.Transact(ctx)` (spec §4.4), beginning an
isolated unit of work on the store. -/
def Transact (db : Store) (writeBudget : Option Nat) : Session :=
  ⟨db, ⟨db, writeBudget⟩⟩

/-- Modelled from the spec: `session.Done(err)` (spec §4.4): commit when `err`
is nil, roll back otherwise.  Returns the store visible afterwards, what was
done, and the error handed back to the caller. -/
def Session.Done (s : Session) (err : Option Error) : Store × Outcome × Option Error :=
  match err with
  | none => (s.tx.work, Outcome.committed, none)
  | some e => (s.base, Outcome.rolledBack, some e)

/-- Modelled from the spec: `Store.WithTransaction(ctx, fn)` (spec §4.4):
begin a session, run `fn` on the transactional handle, end the session with
the error `fn` returned. -/
def WithTransaction (db : Store) (writeBudget : Option Nat)
    (fn : Tx → Tx × Option Error) : Store × Outcome × Option Error :=
  let s := Transact db writeBudget
  let r := fn s.tx
  Session.Done ⟨s.base, r.1⟩ r.2

/-- Modelled from the spec: the writer of one upload (spec §4.3): its upload
id, the staged documents keyed by path in staging order, and the next free
dictionary id. -/
structure scipWriter where
  uploadID : Int
  batch : List (String × Document)
  nextID : Nat
  deriving DecidableEq, Repr

/-- Modelled from the spec: `NewSCIPWriter(ctx, uploadID)`. -/
def NewSCIPWriter (uploadID : Int) : scipWriter := ⟨uploadID, [], 0⟩

/-- Modelled from the spec: `Writer.InsertDocument(ctx, path, document)` (spec
§4.3): stage the document in memory; a document staged earlier under the same
path is replaced (last write wins). -/
def scipWriter.InsertDocument (w : scipWriter) (path : String) (doc : Document) : scipWriter :=
  { w with batch := w.batch.filter (fun e => decide (e.1 ≠ path)) ++ [(path, doc)] }

/-- Modelled from the spec: the symbol names referenced by the occurrences of
the staged documents, with repetitions, in staging order. -/
def scipWriter.referencedSymbols (w : scipWriter) : List String :=
  w.batch.flatMap (fun e => e.2.occurrences.map (fun o => o.symbol))

/-- Modelled from the spec: the distinct symbol names of a flush batch (spec
§4.3). -/
def scipWriter.symbolNames (w : scipWriter) : List String :=
  w.referencedSymbols.dedup

/-- Modelled from the spec: a single row write of a flush. -/
inductive WriteOp where
  | symbol (r : SymbolRow)
  | document (uploadID : Int) (path : String) (doc : Document)
  | occurrence (r : OccurrenceRow)
  deriving DecidableEq, Repr

/-- Modelled from the spec: the effect of one row write on the tables.  A
document whose content already has a row in `codeintel_scip_documents` shares
that row (`TestInsertSharedDocumentsConcurrently`: three staged documents, two
of them identical, leave two rows); the lookup row is keyed by
(uploadID, path). -/
def applyOp (st : Store) : WriteOp → Store
  | .symbol r => { st with symbols := st.symbols ++ [r] }
  | .document u p d =>
    { st with
      codeintel_scip_documents :=
        if d ∈ st.codeintel_scip_documents then st.codeintel_scip_documents
        else st.codeintel_scip_documents ++ [d],
      documentLookup :=
        st.documentLookup.filter (fun r => decide (¬ (r.uploadID = u ∧ r.path = p)))
          ++ [⟨u, p, d⟩] }
  | .occurrence r => { st with occurrences := st.occurrences ++ [r] }

/-- Modelled from the spec: apply row writes in order until they are done or
the write budget is used up (the simulated storage error of spec §8); the
flag tells whether all writes were applied. -/
def applyOps : Tx → List WriteOp → Tx × Bool
  | tx, [] => (tx, true)
  | tx, op :: ops =>
    match tx.writeBudget with
    | none => applyOps ⟨applyOp tx.work op, none⟩ ops
    | some 0 => (tx, false)
    | some (n + 1) => applyOps ⟨applyOp tx.work op, some n⟩ ops

/-- Modelled from the spec: the row writes of one flush (spec §4.3): the
dictionary rows in traversal order, one write per staged document, one per
staged occurrence with its resolved leaf. -/
def flushOps (w : scipWriter) (t : SymbolLookupTable) : List WriteOp :=
  t.emitted.map (fun r => WriteOp.symbol ⟨w.uploadID, r⟩)
    ++ w.batch.map (fun e => WriteOp.document w.uploadID e.1 e.2)
    ++ w.batch.flatMap (fun e => e.2.occurrences.map (fun o =>
        WriteOp.occurrence ⟨w.uploadID, e.1, o.range,
          ((lookupGet t.lookup o.symbol).getD ⟨0⟩).descriptorSuffixID, o.symbolRoles⟩))

/-- Modelled from the spec: `Writer.Flush(ctx)` (spec §4.3).  Collects the
distinct symbol names referenced by the staged occurrences, runs the tree
builder once over them, writes the rows and clears the staging buffer.
Returns the number of distinct symbol names.  (Go returns it as a `uint32`;
the count is kept as a natural number here.) -/
def scipWriter.Flush (tx : Tx) (w : scipWriter) : Tx × scipWriter × Except Error Nat :=
  let names := w.symbolNames
  match constructSymbolLookupTable names (fun k => ((w.nextID + k : Nat) : Int)) with
  | .error e => (tx, w, .error (Error.parse e))
  | .ok t =>
    let r := applyOps tx (flushOps w t)
    if r.2 then (r.1, { w with batch := [], nextID := w.nextID + t.calls }, .ok names.length)
    else (r.1, w, .error Error.storage)

/-- The error of a result, nil on success. -/
def errOf {α : Type} : Except Error α → Option Error
  | .ok _ => none
  | .error e => some e

/-- The document both uploads insert at `internal/util.go` in
`TestInsertSharedDocumentsConcurrently`. -/
def loremDocument : Document := ⟨[⟨"lorem ipsum dolor sit amet"⟩], []⟩

/-- The second document of upload 25 in that test. -/
def consecteturDocument : Document := ⟨[⟨"consectetur adipiscing elit, sed do eiusmod"⟩], []⟩

/-- The body of `TestInsertSharedDocumentsConcurrently` up to the count: two
sessions in sequence on a fresh store, each flushed and committed with
`Done(nil)`; the result is the store the count is read from. -/
def sharedDocumentsScenario : Store :=
  let tx1 := Transact Store.empty none
  let w24 := (NewSCIPWriter 24).InsertDocument "internal/util.go" loremDocument
  let f1 := w24.Flush tx1.tx
  let db1 := (Session.Done ⟨tx1.base, f1.1⟩ none).1
  let tx2 := Transact db1 none
  let w25 := ((NewSCIPWriter 25).InsertDocument "internal/util.go" loremDocument).InsertDocument
    "internal/util_test.go" consecteturDocument
  let f2 := w25.Flush tx2.tx
  (Session.Done ⟨tx2.base, f2.1⟩ none).1

/-- The document of `TestInsertDocumentWithSymbols`: three declared symbols,
five occurrences over the same three names. -/
def symbolsDocument : Document :=
  ⟨[⟨"node pnpm pkg1 0.1.0 foo.bar.ident#"⟩, ⟨"node pnpm pkg1 0.1.1 bar.baz.longerName#"⟩,
    ⟨"node pnpm pkg2 0.1.2 baz.bonk.quux#"⟩],
   [⟨[3, 25, 3, 30], "node pnpm pkg1 0.1.0 foo.bar.ident#", 1⟩,
    ⟨[251, 24, 251, 30], "node pnpm pkg2 0.1.2 baz.bonk.quux#", 1⟩,
    ⟨[4, 25, 4, 30], "node pnpm pkg1 0.1.0 foo.bar.ident#", 0⟩,
    ⟨[100, 10, 100, 20], "node pnpm pkg1 0.1.1 bar.baz.longerName#", 0⟩,
    ⟨[151, 14, 151, 20], "node pnpm pkg2 0.1.2 baz.bonk.quux#", 0⟩]⟩

/-! ## Notions the statements and proofs use -/

/-- Number of occurrences of the separator `sep` outside backtick quoting,
for a scan that starts in quoting state `q`. -/
def topLevelCount (sep : Char) : Bool → List Char → Nat
  | _, [] => 0
  | q, c :: cs =>
    if c = backtick then topLevelCount sep (!q) cs
    else if c = sep ∧ q = false then topLevelCount sep q cs + 1
    else topLevelCount sep q cs

/-- A string has unterminated quoting when it has an odd number of backticks. -/
def unterminated (l : List Char) : Prop := l.count backtick % 2 = 1

instance (l : List Char) : Decidable (unterminated l) := by
  unfold unterminated; infer_instance

/-- Re-joining six segment names with the separators of the grammar. -/
def joinNames : List String → String
  | [a, b, c, d, e, f] => a ++ " " ++ b ++ " " ++ c ++ " " ++ d ++ " " ++ e ++ f
  | _ => ""

/-- The path of the cache keys of a segment sequence below `parent`, with the
ids the cache holds for them. -/
def Chain (cache : List (CacheKey × Int)) : Option Int → List Segment → List Int → Prop
  | _, [], [] => True
  | parent, seg :: segs, id :: ids =>
    cacheGet cache ⟨parent, seg.segmentType, seg.segmentQuality, seg.name⟩ = some id
      ∧ Chain cache (some id) segs ids
  | _, _, _ => False

/-- The invariant of a build state: the created nodes carry the ids the
allocator handed out, in order; the cache and the arena agree; every parent
was created before its child. -/
structure BuildInv (alloc : Nat → Int) (st : BuildState) : Prop where
  ids : st.rows.map (fun r => r.id) = (List.range st.calls).map alloc
  cache_of_row : ∀ r ∈ st.rows, cacheGet st.cache r.key = some r.id
  row_of_cache : ∀ k id, cacheGet st.cache k = some id → ∃ r ∈ st.rows, r.key = k ∧ r.id = id
  parent_first : ∀ (pre : List DescriptorNode) (r : DescriptorNode), pre ++ [r] <+: st.rows →
    ∀ p, r.parentID = some p → ∃ r' ∈ pre, r'.id = p

/-- One build state continues another: cached ids stay, created rows stay. -/
structure Extends (st st' : BuildState) : Prop where
  cache_mono : ∀ k id, cacheGet st.cache k = some id → cacheGet st'.cache k = some id
  rows_kept : st.rows <+: st'.rows

/-- The invariant of the loop over the symbol names. -/
structure LoopInv (alloc : Nat → Int) (st : BuildState) (lookup : List (String × explodedIDs)) :
    Prop where
  inv : BuildInv alloc st
  qnone : ∀ r ∈ st.rows, r.segmentQuality = none
  entries : ∀ name e, lookupGet lookup name = some e →
    ∃ p ids, parseSymbol name = .ok p ∧ Chain st.cache none p.segments ids
      ∧ ids.getLast? = some e.descriptorSuffixID

/-- The walk of the test's `find`, collecting the rows instead of their names. -/
def pathFrom (emitted : List DescriptorNode) :
    Nat → DescriptorNode → List DescriptorNode → Option (List DescriptorNode)
  | 0, _, _ => none
  | fuel + 1, row, acc =>
    match row.parentID with
    | none => some (row :: acc)
    | some p => pathFrom emitted fuel (rowAt emitted p) (row :: acc)

/-- The rows on the path from the root to the leaf held for a symbol name. -/
def pathOf (t : SymbolLookupTable) (fuel : Nat) (symbolName : String) :
    Option (List DescriptorNode) :=
  let leaf := ((lookupGet t.lookup symbolName).getD ⟨0⟩).descriptorSuffixID
  pathFrom t.emitted fuel (rowAt t.emitted leaf) []

/-- The rows a chain of cache entries stands for. -/
def chainRows : Option Int → List Segment → List Int → List DescriptorNode
  | parent, seg :: segs, id :: ids =>
    ⟨seg.segmentType, seg.segmentQuality, seg.name, id, parent⟩ :: chainRows (some id) segs ids
  | _, _, _ => []

/-- Continue a walk at the parent, or stop at the root. -/
def continueFrom (emitted : List DescriptorNode) (parent : Option Int) (fuel : Nat)
    (acc : List DescriptorNode) : Option (List DescriptorNode) :=
  match parent with
  | none => some acc
  | some p => pathFrom emitted fuel (rowAt emitted p) acc

/-- A top-level field is well formed when its quoting is balanced and it has
no space outside quoting. -/
def wellFormedField (f : List Char) : Prop :=
  ¬ unterminated f ∧ topLevelCount space false f = 0

instance (f : List Char) : Decidable (wellFormedField f) := by
  unfold wellFormedField; infer_instance

/-- The (segmentType, segmentQuality, name) triple of a row. -/
def DescriptorNode.segment (r : DescriptorNode) : Segment :=
  ⟨r.segmentType, r.segmentQuality, r.name⟩

/-- The table built in `TestConstructSymbolLookupTable`. -/
def testTable : SymbolLookupTable :=
  match constructSymbolLookupTable testSymbolNames counter with
  | .ok t => t
  | .error _ => ⟨[], [], 0⟩

/-- A writer of upload 24 with one staged document whose two occurrences
reference an accepted name and a name with three fields only. -/
def badWriter : scipWriter :=
  (NewSCIPWriter 24).InsertDocument "internal/util.go"
    ⟨[], [⟨[3, 25, 3, 30], "node pnpm pkg1 0.1.0 foo.bar.ident#", 1⟩,
          ⟨[4, 25, 4, 30], "node pnpm pkg1", 0⟩]⟩

/-- The writer of `TestInsertDocumentWithSymbols` before its flush. -/
def symbolsWriter : scipWriter :=
  (NewSCIPWriter 24).InsertDocument "internal/util.go" symbolsDocument

/-- One upload run as the tests run it: a session of its own, a writer for
the upload, the documents staged in order, one flush, and `Done` with the
error of the flush (nil when it succeeded). -/
def runUpload (db : Store) (u : Int × List (String × Document)) : Store :=
  let s := Transact db none
  let w := u.2.foldl (fun w e => w.InsertDocument e.1 e.2) (NewSCIPWriter u.1)
  let f := w.Flush s.tx
  (Session.Done ⟨s.base, f.1⟩ (errOf f.2.2)).1

/-- Uploads run one after the other, each committed before the next begins. -/
def runUploads (db : Store) (us : List (Int × List (String × Document))) : Store :=
  us.foldl runUpload db

/-- The (uploadID, path) keys of the staged documents of a run. -/
def stagedKeys (us : List (Int × List (String × Document))) : List (Int × String) :=
  us.flatMap (fun u => u.2.map (fun e => (u.1, e.1)))

/-- The contents of the staged documents of a run. -/
def stagedDocuments (us : List (Int × List (String × Document))) : List Document :=
  us.flatMap (fun u => u.2.map (fun e => e.2))

/-- The lookup rows of the staged documents of a run. -/
def stagedLookupRows (us : List (Int × List (String × Document))) : List DocumentLookupRow :=
  us.flatMap (fun u => u.2.map (fun e => ⟨u.1, e.1, e.2⟩))

/-- The symbol names referenced by the occurrences of the staged documents of
a run. -/
def stagedSymbols (us : List (Int × List (String × Document))) : List String :=
  us.flatMap (fun u => u.2.flatMap (fun e => e.2.occurrences.map (fun o => o.symbol)))

/-- The effect of a document write on `codeintel_scip_documents`. -/
def addDocument (docs : List Document) (d : Document) : List Document :=
  if d ∈ docs then docs else docs ++ [d]

/-- The effect of a document write on the lookup rows. -/
def setLookupRow (rows : List DocumentLookupRow) (r : DocumentLookupRow) :
    List DocumentLookupRow :=
  rows.filter (fun x => decide (¬ (x.uploadID = r.uploadID ∧ x.path = r.path))) ++ [r]

/-- The lookup row a write op stores, if it is a document write. -/
def WriteOp.lookupRow : WriteOp → Option DocumentLookupRow
  | .document u p d => some ⟨u, p, d⟩
  | _ => none

/-- The three uploads of `TestInsertSharedDocumentsConcurrently` as a run. -/
def sharedDocumentsRun : List (Int × List (String × Document)) :=
  [ (24, [("internal/util.go", loremDocument)]),
    (25, [("internal/util.go", loremDocument), ("internal/util_test.go", consecteturDocument)]) ]

/-- Two uploads with one identical document at the identical path. -/
def identicalDocumentRun : List (Int × List (String × Document)) :=
  [ (24, [("internal/util.go", loremDocument)]),
    (25, [("internal/util.go", loremDocument)]) ]

end Lsifstore

namespace Errors

/-- Go error values as the sources at hand build and inspect them:
`errors.New(msg)`, `errors.Wrap(cause, msg)`, and a value of a named error
type (such as `*handlerutil.URLMovedError` or
`*auth.InsufficientAuthorizationError`) with its payload and the text its
`Error()` method returns.  The error types themselves are declared outside
the source tree. -/
inductive Err where
  | new (msg : String)
  | wrap (cause : Err) (msg : String)
  | typed (type : String) (payload : String) (msg : String)
  deriving DecidableEq, Repr

/-- The method `Error()`: the message of the error; a wrapped error reads
`msg: cause`. -/
def Err.Error : Err → String
  | .new msg => msg
  | .wrap cause msg => msg ++ ": " ++ cause.Error
  | .typed _ _ msg => msg

/-- The call `errors.As(err, &e)` for a target of the named type: the payload
of the first error of that type in the chain, if there is one. -/
def Err.As (type : String) : Err → Option String
  | .new _ => none
  | .wrap cause _ => cause.As type
  | .typed t payload _ => if t = type then some payload else none

end Errors

namespace Keyword

/-- The table `codeSearchStems` of term_utils.go. -/
def codeSearchStems : List (String × String) :=
  [ ("repository", "repo"),
    ("configuration", "config"),
    ("authentication", "auth") ]

/-- The map read `stemmed, ok := m[key]`. -/
def mapGet (m : List (String × String)) (key : String) : Option String :=
  (m.find? (fun e => decide (e.1 = key))).map Prod.snd

/-- The call `strings.HasPrefix(s, p)`.  Go compares bytes and the strings
here are sequences of characters; the function only compares elements, so
the difference does not show. -/
def stringsHasPrefix (s p : String) : Bool :=
  p.data.isPrefixOf s.data

/-- `stemTerm` of term_utils.go.  The stemmer `snowball.Stem(input,
"english", false)` is an external library and is a parameter. -/
def stemTerm (snowballStem : String → Except String String) (input : String) : String :=
  match mapGet codeSearchStems input with
  | some stemmed => stemmed
  | none =>
    match snowballStem input with
    | .error _ => input
    | .ok stemmed => if !stringsHasPrefix input stemmed then input else stemmed

end Keyword

namespace InsightsStore

/-- A record of one invocation of `GetUnauthorizedRepoIDs`
(`InsightPermissionStoreGetUnauthorizedRepoIDsFuncCall` of mocks_test.go):
the argument and the two results.  `C` stands for `context.Context`. -/
structure InsightPermissionStoreGetUnauthorizedRepoIDsFuncCall (C : Type) where
  Arg0 : C
  Result0 : List Int
  Result1 : Option Errors.Err

/-- The mock function object `InsightPermissionStoreGetUnauthorizedRepoIDsFunc`
of mocks_test.go: default hook, hook queue and call history.  The mutex is
left out: invocations are taken one after the other. -/
structure InsightPermissionStoreGetUnauthorizedRepoIDsFunc (C : Type) where
  defaultHook : C → List Int × Option Errors.Err
  hooks : List (C → List Int × Option Errors.Err)
  history : List (InsightPermissionStoreGetUnauthorizedRepoIDsFuncCall C)

/-- `SetDefaultHook` of mocks_test.go. -/
def InsightPermissionStoreGetUnauthorizedRepoIDsFunc.SetDefaultHook {C : Type}
    (f : InsightPermissionStoreGetUnauthorizedRepoIDsFunc C)
    (hook : C → List Int × Option Errors.Err) :
    InsightPermissionStoreGetUnauthorizedRepoIDsFunc C :=
  { f with defaultHook := hook }

/-- `PushHook` of mocks_test.go: append to the end of the hook queue. -/
def InsightPermissionStoreGetUnauthorizedRepoIDsFunc.PushHook {C : Type}
    (f : InsightPermissionStoreGetUnauthorizedRepoIDsFunc C)
    (hook : C → List Int × Option Errors.Err) :
    InsightPermissionStoreGetUnauthorizedRepoIDsFunc C :=
  { f with hooks := f.hooks ++ [hook] }

/-- `nextHook` of mocks_test.go: the default hook when the queue is empty,
otherwise the hook at the front, which is taken off the queue. -/
def InsightPermissionStoreGetUnauthorizedRepoIDsFunc.nextHook {C : Type}
    (f : InsightPermissionStoreGetUnauthorizedRepoIDsFunc C) :
    InsightPermissionStoreGetUnauthorizedRepoIDsFunc C × (C → List Int × Option Errors.Err) :=
  match f.hooks with
  | [] => (f, f.defaultHook)
  | hook :: rest => ({ f with hooks := rest }, hook)

/-- `appendCall` of mocks_test.go. -/
def InsightPermissionStoreGetUnauthorizedRepoIDsFunc.appendCall {C : Type}
    (f : InsightPermissionStoreGetUnauthorizedRepoIDsFunc C)
    (r0 : InsightPermissionStoreGetUnauthorizedRepoIDsFuncCall C) :
    InsightPermissionStoreGetUnauthorizedRepoIDsFunc C :=
  { f with history := f.history ++ [r0] }

/-- `History` of mocks_test.go: a copy of the history. -/
def InsightPermissionStoreGetUnauthorizedRepoIDsFunc.History {C : Type}
    (f : InsightPermissionStoreGetUnauthorizedRepoIDsFunc C) :
    List (InsightPermissionStoreGetUnauthorizedRepoIDsFuncCall C) :=
  f.history

/-- The mock `MockInsightPermissionStore` of mocks_test.go, with the function
object of the method `GetUnauthorizedRepoIDs`; the objects of its two other
methods are generated from the same template. -/
structure MockInsightPermissionStore (C : Type) where
  GetUnauthorizedRepoIDsFunc : InsightPermissionStoreGetUnauthorizedRepoIDsFunc C

/-- `NewMockInsightPermissionStore` of mocks_test.go: the default hook returns
zero values. -/
def NewMockInsightPermissionStore (C : Type) : MockInsightPermissionStore C :=
  ⟨⟨fun _ => ([], none), [], []⟩⟩

/-- The mocked method `GetUnauthorizedRepoIDs` of mocks_test.go: run the next
hook on the argument, record the call, return the results of the hook. -/
def MockInsightPermissionStore.GetUnauthorizedRepoIDs {C : Type}
    (m : MockInsightPermissionStore C) (v0 : C) :
    MockInsightPermissionStore C × (List Int × Option Errors.Err) :=
  let n := m.GetUnauthorizedRepoIDsFunc.nextHook
  let r := n.2 v0
  (⟨n.1.appendCall ⟨v0, r.1, r.2⟩⟩, r)

/-- A run of invocations of the mocked method, one after the other, with the
results in order. -/
def invokeAll {C : Type} :
    MockInsightPermissionStore C → List C →
      MockInsightPermissionStore C × List (List Int × Option Errors.Err)
  | m, [] => (m, [])
  | m, v :: vs =>
    let r := m.GetUnauthorizedRepoIDs v
    let rest := invokeAll r.1 vs
    (rest.1, r.2 :: rest.2)

/-- A run of `PushHook` calls on the function object of a mock. -/
def pushAll {C : Type} (m : MockInsightPermissionStore C)
    (hs : List (C → List Int × Option Errors.Err)) : MockInsightPermissionStore C :=
  hs.foldl (fun m h => ⟨m.GetUnauthorizedRepoIDsFunc.PushHook h⟩) m

end InsightsStore

namespace Httpapi

/-- The fields of `actor.Actor` that httpapi.go reads (the type is declared
outside the source tree): whether the actor was authenticated by a token,
whether it is internal, and its scopes, a Go `map[string]bool`. -/
structure Actor where
  FromToken : Bool
  Internal : Bool
  Scopes : List (String × Bool)
  deriving DecidableEq, Repr

/-- The map read `a.Scopes[scope]`: the stored value, `false` for a missing
key. -/
def Actor.scope (a : Actor) (scope : String) : Bool :=
  ((a.Scopes.find? (fun e => decide (e.1 = scope))).map Prod.snd).getD false

/-- What httpapi.go reads of a request: the actor of its context, the method,
the request URI and the trace id of its context. -/
structure Request where
  Actor : Actor
  Method : String
  RequestURI : String
  TraceID : String
  deriving DecidableEq, Repr

/-- The operations of net/http and of `handlerutil` on a response writer `W`
that httpapi.go calls; they are outside the source tree and are parameters:
`w.Header().Set(key, value)`, `http.Error(w, body, status)` and
`handlerutil.RedirectToNewRepoName(w, r, newRepo)`. -/
structure ResponseOps (W : Type) where
  HeaderSet : W → String → String → W
  Error : W → String → Int → W
  RedirectToNewRepoName : W → Request → String → W × Option Errors.Err

/-- The constant `http.StatusForbidden`. -/
def StatusForbidden : Int := 403

/-- The loop of `restTokenScopesMiddleware` over the required scopes: the
first scope the actor does not hold, at which the loop answers and returns. -/
def firstMissingScope (a : Actor) : List String → Option String
  | [] => none
  | scope :: rest => if !a.scope scope then some scope else firstMissingScope a rest

/-- `restTokenScopesMiddleware` of httpapi.go, as the handler it returns,
applied to a response writer and a request.  The scope names
`authz.ScopeUserAll` and `authz.ScopeSiteAdminSudo` are constants declared
outside the source tree and are parameters. -/
def restTokenScopesMiddleware {W : Type} (ops : ResponseOps W)
    (ScopeUserAll ScopeSiteAdminSudo : String) (scopes : List String)
    (next : W → Request → W) (w : W) (r : Request) : W :=
  if scopes.length > 0 then
    let a := r.Actor
    let isUserAll := a.scope ScopeUserAll
    let isSiteAdminSudo := a.scope ScopeSiteAdminSudo
    if a.FromToken && !a.Internal && !(isUserAll || isSiteAdminSudo) then
      match firstMissingScope a scopes with
      | some scope => ops.Error w ("forbidden, missing token scope: " ++ scope) StatusForbidden
      | none => next w r
    else next w r
  else next w r

/-- The handler type `errorHandler` of httpapi.go. -/
structure errorHandler where
  WriteErrBody : Bool
  deriving DecidableEq, Repr

/-- The error handler `NewHandler` builds: `WriteErrBody` is
`env.InsecureDev`. -/
def newErrorHandler (InsecureDev : Bool) : errorHandler :=
  ⟨InsecureDev⟩

/-- What `Handle` does besides writing the response: it stores the error as the
request error cause of the trace, and it may log. -/
inductive SideEffect where
  | SetRequestErrorCause (err : Errors.Err)
  | logError (msg : String) (err : Errors.Err)
  deriving DecidableEq, Repr

/-- `errorHandler.Handle` of httpapi.go: the response it writes and its side
effects.  A `*handlerutil.URLMovedError` in the chain of the error is answered
by a redirect; any other error by `http.Error` after the cache-control header
is set, with the message of the error as body only when `WriteErrBody` is
set. -/
def errorHandler.Handle {W : Type} (ops : ResponseOps W) (h : errorHandler) (w : W)
    (r : Request) (status : Int) (err : Errors.Err) : W × List SideEffect :=
  match err.As "*handlerutil.URLMovedError" with
  | some newRepo =>
    let rd := ops.RedirectToNewRepoName w r newRepo
    match rd.2 with
    | some e =>
      (rd.1, [SideEffect.SetRequestErrorCause err,
        SideEffect.logError "error redirecting to new URI" e])
    | none => (rd.1, [SideEffect.SetRequestErrorCause err])
  | none =>
    let w1 := ops.HeaderSet w "cache-control" "no-cache, max-age=0"
    let errBody := err.Error
    let displayErrBody := if h.WriteErrBody then errBody else ""
    let w2 := ops.Error w1 displayErrBody status
    if status < 200 || status >= 500 then
      (w2, [SideEffect.SetRequestErrorCause err,
        SideEffect.logError "API HTTP handler error response" err])
    else (w2, [SideEffect.SetRequestErrorCause err])

/-- What a recording response writer holds: the calls made on it, in order. -/
inductive Written where
  | header (key value : String)
  | error (body : String) (status : Int)
  | redirect (newRepo : String)
  | served
  deriving DecidableEq, Repr

/-- A response writer that records the calls made on it. -/
def recorder : ResponseOps (List Written) where
  HeaderSet := fun w k v => w ++ [Written.header k v]
  Error := fun w body status => w ++ [Written.error body status]
  RedirectToNewRepoName := fun w _ newRepo => (w ++ [Written.redirect newRepo], none)

/-- A next handler that records that it was invoked. -/
def recordingNext (w : List Written) (_ : Request) : List Written :=
  w ++ [Written.served]

/-- The condition under which `restTokenScopesMiddleware` lets a request
through. -/
def scopesSatisfied (ScopeUserAll ScopeSiteAdminSudo : String) (scopes : List String)
    (a : Actor) : Prop :=
  scopes = [] ∨ a.FromToken = false ∨ a.Internal = true ∨ a.scope ScopeUserAll = true
    ∨ a.scope ScopeSiteAdminSudo = true ∨ ∀ s ∈ scopes, a.scope s = true

/-- A token-authenticated actor holding the scope `repo:read` only. -/
def tokenActor : Actor := ⟨true, false, [("repo:read", true)]⟩

/-- A request of `tokenActor`. -/
def tokenRequest : Request := ⟨tokenActor, "GET", "/.api/x", "t1"⟩

end Httpapi

namespace Database

/-- The type `types.Namespace`, by the fields the sources read and write (it
is declared outside the source tree): the owning user or the owning org. -/
structure Namespace where
  User : Option Int
  Org : Option Int
  deriving DecidableEq, Repr

/-- The constructor `types.NamespaceUser` the tests use. -/
def NamespaceUser (userID : Int) : Namespace := ⟨some userID, none⟩

/-- The constructor `types.NamespaceOrg` the tests use. -/
def NamespaceOrg (orgID : Int) : Namespace := ⟨none, some orgID⟩

/-- The type `types.Workflow`, by the fields `scanWorkflow` fills (it is
declared outside the source tree).  Times are instants of a clock. -/
structure Workflow where
  ID : Int
  Name : String
  Description : String
  TemplateText : String
  Draft : Bool
  Owner : Namespace
  CreatedByUser : Option Int
  CreatedAt : Nat
  UpdatedByUser : Option Int
  UpdatedAt : Nat
  deriving DecidableEq, Repr

/-- The type `types.SavedSearch` of saved_searches.go (package types). -/
structure SavedSearch where
  ID : Int
  Description : String
  Query : String
  Owner : Namespace
  deriving DecidableEq, Repr

/-- A value bound to a placeholder of a statement or held in a column; the
last two are the SQL keywords `DEFAULT` and `now()`. -/
inductive SQLValue where
  | text (s : String)
  | boolean (b : Bool)
  | int (n : Int)
  | null
  | time (t : Nat)
  | DEFAULT
  | now
  deriving DecidableEq, Repr

/-- How a `*int32` argument is bound: `NULL` for nil. -/
def SQLValue.ofOptInt : Option Int → SQLValue
  | none => SQLValue.null
  | some n => SQLValue.int n

/-- The statements the stores build with `sqlf.Sprintf`, by their parts:
`INSERT INTO t(columns) VALUES(values) RETURNING returning`,
`UPDATE t SET sets WHERE id=id RETURNING returning`,
`DELETE FROM t WHERE id=id` and `SELECT columns FROM t WHERE id=id`. -/
inductive Statement where
  | insert (table : String) (columns : List String) (values : List SQLValue)
      (returning : List String)
  | update (table : String) (sets : List (String × SQLValue)) (id : Int)
      (returning : List String)
  | delete (table : String) (id : Int)
  | selectByID (table : String) (columns : List String) (id : Int)
  deriving DecidableEq, Repr

/-- The operations of `basestore.Store` the stores call, on a database state
`σ`; the base store is outside the source tree and is a parameter.
`QueryRow` stands for `s.QueryRow(ctx, q)` followed by the `Scan` of the row:
the scanned values, or the error `Scan` returns.  `Exec` stands for
`s.Handle().ExecContext`. -/
structure BaseStore (σ : Type) where
  QueryRow : Statement → σ → σ × Except Errors.Err (List SQLValue)
  Exec : Statement → σ → σ × Option Errors.Err

/-- The store of workflows.go: a wrapper around a base store handle. -/
structure workflowStore (H : Type) where
  Store : H

/-- `workflowStore.WithTransact` (workflows.go): delegate to the base store's
`WithTransact`, handing `f` the workflow store that wraps the transactional
handle, and return what the base store returns.  The base store is not in the
source tree and is a parameter. -/
def workflowStore.WithTransact {H E R : Type} (baseWithTransact : (H → E) → R)
    (f : workflowStore H → E) : R :=
  baseWithTransact (fun tx => f ⟨tx⟩)

/-- The store of saved_searches.go: a wrapper around a base store handle. -/
structure savedSearchStore (H : Type) where
  Store : H

/-- The column list `workflowWriteColumns` of workflows.go. -/
def workflowWriteColumns : List String :=
  ["name", "description", "template_text", "draft"]

/-- The column list `workflowReadColumns` of workflows.go. -/
def workflowReadColumns : List String :=
  workflowWriteColumns
    ++ ["owner_user_id", "owner_org_id", "created_by", "created_at", "updated_by", "updated_at"]

/-- The column list `savedSearchColumns` of saved_searches.go. -/
def savedSearchColumns : List String :=
  ["description", "query", "user_id", "org_id"]

/-- Scan of a column into an `int32`. -/
def SQLValue.asInt : SQLValue → Option Int
  | .int n => some n
  | _ => none

/-- Scan of a column into a `string`. -/
def SQLValue.asText : SQLValue → Option String
  | .text s => some s
  | _ => none

/-- Scan of a column into a `bool`. -/
def SQLValue.asBool : SQLValue → Option Bool
  | .boolean b => some b
  | _ => none

/-- Scan of a column into a `time.Time`. -/
def SQLValue.asTime : SQLValue → Option Nat
  | .time t => some t
  | _ => none

/-- Scan of a column into a `*int32`: nil for `NULL`. -/
def SQLValue.asOptInt : SQLValue → Option (Option Int)
  | .null => some none
  | .int n => some (some n)
  | _ => none

/-- The `Scan` call of `scanWorkflow` on the values of a row: the eleven
destinations in order; `none` when the row does not fit them. -/
def scanWorkflowRow : List SQLValue → Option Workflow
  | [id, name, description, templateText, draft, ownerUser, ownerOrg, createdBy, createdAt,
      updatedBy, updatedAt] =>
    match id.asInt, name.asText, description.asText, templateText.asText, draft.asBool with
    | some id, some name, some description, some templateText, some draft =>
      match ownerUser.asOptInt, ownerOrg.asOptInt, createdBy.asOptInt, createdAt.asTime,
        updatedBy.asOptInt, updatedAt.asTime with
      | some ownerUser, some ownerOrg, some createdBy, some createdAt, some updatedBy,
          some updatedAt =>
        some ⟨id, name, description, templateText, draft, ⟨ownerUser, ownerOrg⟩, createdBy,
          createdAt, updatedBy, updatedAt⟩
      | _, _, _, _, _, _ => none
    | _, _, _, _, _ => none
  | _ => none

/-- The error of a `Scan` whose row does not fit the destinations; its text
comes from database/sql and plays no part here. -/
def scanConversionError : Errors.Err :=
  Errors.Err.new "sql: Scan error"

/-- `scanWorkflow` of workflows.go: the scanned workflow, or the error of the
scan wrapped with `Scan`. -/
def scanWorkflow (s : Except Errors.Err (List SQLValue)) : Except Errors.Err Workflow :=
  match s with
  | .error err => .error (Errors.Err.wrap err "Scan")
  | .ok row =>
    match scanWorkflowRow row with
    | some w => .ok w
    | none => .error (Errors.Err.wrap scanConversionError "Scan")

/-- The `Scan` call of `scanSavedSearch` on the values of a row. -/
def scanSavedSearchRow : List SQLValue → Option SavedSearch
  | [id, description, query, user, org] =>
    match id.asInt, description.asText, query.asText, user.asOptInt, org.asOptInt with
    | some id, some description, some query, some user, some org =>
      some ⟨id, description, query, ⟨user, org⟩⟩
    | _, _, _, _, _ => none
  | _ => none

/-- `scanSavedSearch` of saved_searches.go. -/
def scanSavedSearch (s : Except Errors.Err (List SQLValue)) : Except Errors.Err SavedSearch :=
  match s with
  | .error err => .error (Errors.Err.wrap err "Scan")
  | .ok row =>
    match scanSavedSearchRow row with
    | some w => .ok w
    | none => .error (Errors.Err.wrap scanConversionError "Scan")

/-- The statement of `workflowStore.Create`. -/
def workflowCreateStatement (newWorkflow : Workflow) (actorUID : Int) : Statement :=
  Statement.insert "workflows"
    (workflowWriteColumns
      ++ ["owner_user_id", "owner_org_id", "created_by", "created_at", "updated_by",
          "updated_at"])
    [ SQLValue.text newWorkflow.Name, SQLValue.text newWorkflow.Description,
      SQLValue.text newWorkflow.TemplateText, SQLValue.boolean newWorkflow.Draft,
      SQLValue.ofOptInt newWorkflow.Owner.User, SQLValue.ofOptInt newWorkflow.Owner.Org,
      SQLValue.int actorUID, SQLValue.DEFAULT, SQLValue.int actorUID, SQLValue.DEFAULT ]
    ("id" :: workflowReadColumns)

/-- `workflowStore.Create` of workflows.go. -/
def workflowStore.Create {σ : Type} (s : workflowStore (BaseStore σ)) (newWorkflow : Workflow)
    (actorUID : Int) (db : σ) : σ × Except Errors.Err Workflow :=
  if newWorkflow.ID ≠ 0 then
    (db, .error (Errors.Err.new "newWorkflow.ID must be zero"))
  else
    let r := s.Store.QueryRow (workflowCreateStatement newWorkflow actorUID) db
    (r.1, scanWorkflow r.2)

/-- The list `fieldUpdates` of `workflowStore.Update`. -/
def workflowFieldUpdates (workflow : Workflow) (actorUID : Int) : List (String × SQLValue) :=
  [ ("name", SQLValue.text workflow.Name),
    ("description", SQLValue.text workflow.Description),
    ("template_text", SQLValue.text workflow.TemplateText),
    ("draft", SQLValue.boolean workflow.Draft),
    ("updated_by", SQLValue.int actorUID),
    ("updated_at", SQLValue.now) ]

/-- The statement of `workflowStore.Update`. -/
def workflowUpdateStatement (workflow : Workflow) (actorUID : Int) : Statement :=
  Statement.update "workflows" (workflowFieldUpdates workflow actorUID) workflow.ID
    ("id" :: workflowReadColumns)

/-- `workflowStore.Update` of workflows.go. -/
def workflowStore.Update {σ : Type} (s : workflowStore (BaseStore σ)) (workflow : Workflow)
    (actorUID : Int) (db : σ) : σ × Except Errors.Err Workflow :=
  let r := s.Store.QueryRow (workflowUpdateStatement workflow actorUID) db
  (r.1, scanWorkflow r.2)

/-- `workflowStore.Delete` of workflows.go. -/
def workflowStore.Delete {σ : Type} (s : workflowStore (BaseStore σ)) (id : Int) (db : σ) :
    σ × Option Errors.Err :=
  s.Store.Exec (Statement.delete "workflows" id) db

/-- `workflowStore.GetByID` of workflows.go. -/
def workflowStore.GetByID {σ : Type} (s : workflowStore (BaseStore σ)) (id : Int) (db : σ) :
    σ × Except Errors.Err Workflow :=
  let r := s.Store.QueryRow (Statement.selectByID "workflows" ("id" :: workflowReadColumns) id) db
  (r.1, scanWorkflow r.2)

/-- The statement of `savedSearchStore.Create`. -/
def savedSearchCreateStatement (newSavedSearch : SavedSearch) : Statement :=
  Statement.insert "saved_searches" savedSearchColumns
    [ SQLValue.text newSavedSearch.Description, SQLValue.text newSavedSearch.Query,
      SQLValue.ofOptInt newSavedSearch.Owner.User, SQLValue.ofOptInt newSavedSearch.Owner.Org ]
    ("id" :: savedSearchColumns)

/-- `savedSearchStore.Create` of saved_searches.go. -/
def savedSearchStore.Create {σ : Type} (s : savedSearchStore (BaseStore σ))
    (newSavedSearch : SavedSearch) (db : σ) : σ × Except Errors.Err SavedSearch :=
  if newSavedSearch.ID ≠ 0 then
    (db, .error (Errors.Err.new "newSavedSearch.ID must be zero"))
  else
    let r := s.Store.QueryRow (savedSearchCreateStatement newSavedSearch) db
    (r.1, scanSavedSearch r.2)

end Database

namespace Database

/-- The type `WorkflowsOrderBy` of workflows.go (a `uint8`). -/
abbrev WorkflowsOrderBy := Nat

/-- The constant `WorkflowsOrderByID`. -/
def WorkflowsOrderByID : WorkflowsOrderBy := 0

/-- The constant `WorkflowsOrderByNameWithOwner`. -/
def WorkflowsOrderByNameWithOwner : WorkflowsOrderBy := 1

/-- The constant `WorkflowsOrderByUpdatedAt`. -/
def WorkflowsOrderByUpdatedAt : WorkflowsOrderBy := 2

/-- The type `WorkflowListArgs` of workflows.go. -/
structure WorkflowListArgs where
  Query : String
  AffiliatedUser : Option Int
  Owner : Option Namespace
  HideDrafts : Bool
  OrderBy : WorkflowsOrderBy
  deriving DecidableEq, Repr

/-- The interface `WorkflowStore` of workflows.go, by the methods the resolvers
call, on a database state `σ`; `P` is the type `PaginationArgs`, declared
outside the source tree.  A method that returns a pointer and an error is
taken to return one of the two, as the methods of `workflowStore` do. -/
structure WorkflowStore (σ P : Type) where
  Create : Workflow → Int → σ → σ × Except Errors.Err Workflow
  Update : Workflow → Int → σ → σ × Except Errors.Err Workflow
  Delete : Int → σ → σ × Option Errors.Err
  GetByID : Int → σ → σ × Except Errors.Err Workflow
  List : WorkflowListArgs → Option P → σ → σ × Except Errors.Err (List Workflow)
  Count : WorkflowListArgs → σ → σ × Except Errors.Err Int

/-- The value `&workflowStore{...}` as a `WorkflowStore`: the four methods
above; `List` and `Count`, which no definition here calls on it, are handed
in. -/
def workflowStore.asWorkflowStore {σ P : Type} (s : workflowStore (BaseStore σ))
    (list : WorkflowListArgs → Option P → σ → σ × Except Errors.Err (List Workflow))
    (count : WorkflowListArgs → σ → σ × Except Errors.Err Int) : WorkflowStore σ P :=
  { Create := s.Create
    Update := s.Update
    Delete := s.Delete
    GetByID := s.GetByID
    List := list
    Count := count }

/-- What the database promises of an `UPDATE ... RETURNING` on the table
`workflows` that leaves the identity, owner and creation columns out of its
`SET` list: the returned row agrees on them with the row a `SELECT` by the
same id returns in the same state. -/
def KeepsUnsetColumns {σ : Type} (base : BaseStore σ) : Prop :=
  ∀ (sets : List (String × SQLValue)) (id : Int) (db : σ) (old new : Workflow),
    scanWorkflow
        (base.QueryRow (Statement.selectByID "workflows" ("id" :: workflowReadColumns) id) db).2
      = .ok old →
    scanWorkflow
        (base.QueryRow (Statement.update "workflows" sets id ("id" :: workflowReadColumns)) db).2
      = .ok new →
    (∀ c ∈ ["id", "owner_user_id", "owner_org_id", "created_by", "created_at"],
      c ∉ sets.map Prod.fst) →
    new.ID = old.ID ∧ new.Owner = old.Owner ∧ new.CreatedByUser = old.CreatedByUser
      ∧ new.CreatedAt = old.CreatedAt

/-- What the database promises of a `SELECT`: it leaves the state as it is. -/
def SelectIsReadOnly {σ : Type} (base : BaseStore σ) : Prop :=
  ∀ (table : String) (columns : List String) (id : Int) (db : σ),
    (base.QueryRow (Statement.selectByID table columns id) db).1 = db

/-- A row of the test database: the value of each column. -/
abbrev Row := List (String × SQLValue)

/-- The value of a column of a row; `NULL` when the row has none. -/
def Row.get (row : Row) (column : String) : SQLValue :=
  match row.lookup column with
  | some v => v
  | none => SQLValue.null

/-- A small database for the examples, in the place of the `dbtest.NewDB` of
the tests: the rows of each table, the next serial id and a clock that the
writes advance. -/
structure TestDB where
  rows : List (String × Row)
  nextID : Int
  clock : Nat
  deriving DecidableEq, Repr

/-- The value a statement stores: `DEFAULT` of the timestamp columns and
`now()` are the time of the clock. -/
def TestDB.resolve (db : TestDB) : SQLValue → SQLValue
  | .DEFAULT => .time db.clock
  | .now => .time db.clock
  | v => v

/-- Whether a row of the test database is the one of the table with the id. -/
def TestDB.isRow (table : String) (id : Int) (tr : String × Row) : Bool :=
  decide (tr.1 = table) && decide (tr.2.get "id" = SQLValue.int id)

/-- The row of a table with an id. -/
def TestDB.find (db : TestDB) (table : String) (id : Int) : Option Row :=
  (db.rows.find? (TestDB.isRow table id)).map Prod.snd

/-- The row after the assignments of a `SET` list. -/
def Row.assign (resolve : SQLValue → SQLValue) (sets : List (String × SQLValue)) (row : Row) :
    Row :=
  sets.map (fun cv => (cv.1, resolve cv.2)) ++ row

/-- The error `sql.ErrNoRows`. -/
def ErrNoRows : Errors.Err :=
  Errors.Err.new "sql: no rows in result set"

/-- `QueryRow` and `Scan` on the test database. -/
def TestDB.QueryRow (q : Statement) (db : TestDB) : TestDB × Except Errors.Err (List SQLValue) :=
  match q with
  | .insert table columns values returning =>
    let row : Row := ("id", SQLValue.int db.nextID) :: columns.zip (values.map db.resolve)
    ({ rows := db.rows ++ [(table, row)], nextID := db.nextID + 1, clock := db.clock + 1 },
      .ok (returning.map row.get))
  | .update table sets id returning =>
    match db.find table id with
    | none => (db, .error ErrNoRows)
    | some row =>
      let row2 : Row := Row.assign db.resolve sets row
      ({ rows := db.rows.map (fun tr => if TestDB.isRow table id tr then (table, row2) else tr),
         nextID := db.nextID, clock := db.clock + 1 },
        .ok (returning.map row2.get))
  | .selectByID table columns id =>
    match db.find table id with
    | none => (db, .error ErrNoRows)
    | some row => (db, .ok (columns.map row.get))
  | .delete _ _ => (db, .error ErrNoRows)

/-- `ExecContext` on the test database. -/
def TestDB.Exec (q : Statement) (db : TestDB) : TestDB × Option Errors.Err :=
  match q with
  | .delete table id =>
    ({ db with rows := db.rows.filter (fun tr => !TestDB.isRow table id tr) }, none)
  | q => ((db.QueryRow q).1, none)

/-- The test database as a base store. -/
def testBaseStore : BaseStore TestDB :=
  { QueryRow := TestDB.QueryRow, Exec := TestDB.Exec }

/-- An empty test database. -/
def emptyTestDB : TestDB :=
  { rows := [], nextID := 1, clock := 100 }

/-- The workflow store of the examples. -/
def testWorkflowStore : workflowStore (BaseStore TestDB) :=
  ⟨testBaseStore⟩

/-- The saved search store of the examples. -/
def testSavedSearchStore : savedSearchStore (BaseStore TestDB) :=
  ⟨testBaseStore⟩

/-- The workflow `TestWorkflowsUpdate` creates first (the user has id 1). -/
def testCreateInput : Workflow :=
  { ID := 0, Name := "n", Description := "", TemplateText := "q", Draft := false,
    Owner := NamespaceUser 1, CreatedByUser := none, CreatedAt := 0, UpdatedByUser := none,
    UpdatedAt := 0 }

/-- The value `update` of `TestWorkflowsUpdate`. -/
def testUpdateInput : Workflow :=
  { ID := 1, Name := "n2", Description := "", TemplateText := "q2", Draft := false,
    Owner := ⟨none, none⟩, CreatedByUser := none, CreatedAt := 0, UpdatedByUser := none,
    UpdatedAt := 0 }

/-- The database of `TestWorkflowsUpdate` after the `Create` call. -/
def testDBWithWorkflow : TestDB :=
  (testWorkflowStore.Create testCreateInput 1 emptyTestDB).1

end Database

namespace Resolvers

open Errors Database

/-- The type `types.User`, by the fields the sources read (it is declared
outside the source tree). -/
structure User where
  ID : Int
  SiteAdmin : Bool
  deriving DecidableEq, Repr

/-- The type `WorkflowsArgs` of graphqlbackend/workflows.go; `A` is the type
`graphqlutil.ConnectionResolverArgs`, and a `graphql.ID` is a string. -/
structure WorkflowsArgs (A : Type) where
  ConnectionResolverArgs : A
  Query : Option String
  Owner : Option String
  ViewerIsAffiliated : Option Bool
  IncludeDrafts : Bool

/-- The type `WorkflowUpdateInput` of graphqlbackend/workflows.go. -/
structure WorkflowUpdateInput where
  Name : String
  Description : String
  TemplateText : String
  Draft : Bool
  deriving DecidableEq, Repr

/-- The type `UpdateWorkflowArgs` of graphqlbackend/workflows.go. -/
structure UpdateWorkflowArgs where
  ID : String
  Input : WorkflowUpdateInput
  deriving DecidableEq, Repr

/-- The type `DeleteWorkflowArgs` of graphqlbackend/workflows.go. -/
structure DeleteWorkflowArgs where
  ID : String
  deriving DecidableEq, Repr

/-- The type `workflowResolver` of resolvers.go; its field `db` is the
database of the resolver that made it. -/
structure workflowResolver where
  s : Workflow
  deriving DecidableEq, Repr

/-- The type `workflowsConnectionStore` of resolvers.go; its field `db` is the
database of the resolver that made it. -/
structure workflowsConnectionStore where
  listArgs : WorkflowListArgs
  deriving DecidableEq, Repr

/-- The type `graphqlbackend.EmptyResponse`. -/
structure EmptyResponse where
  deriving DecidableEq, Repr

/-- The calls the resolver makes on the database and on the packages around
it, as they are recorded in the order they are made. -/
inductive Event where
  | CheckAuthorizedForNamespace (id : String)
  | CheckAuthorizedForNamespaceByIDs (owner : Namespace)
  | CurrentUser
  | CheckCurrentUserIsSiteAdmin
  | NewConnectionResolver (store : workflowsConnectionStore)
  | GetByID (id : Int)
  | Update (workflow : Workflow) (actorUID : Int)
  | Delete (id : Int)
  | List (args : WorkflowListArgs)
  | Count (args : WorkflowListArgs)
  deriving DecidableEq, Repr

/-- What a resolver method comes to: a value, an error, or a run-time panic
of the Go code. -/
inductive Result (α : Type) where
  | ok (v : α)
  | error (err : Err)
  | panic
  deriving DecidableEq, Repr

/-- The result of a function that returns a value and an error. -/
def Result.ofExcept {α : Type} : Except Err α → Result α
  | .ok v => .ok v
  | .error err => .error err

/-- The interface `database.DB`, by the one store the resolver asks it for. -/
structure DB (σ P : Type) where
  Workflows : WorkflowStore σ P

/-- The resolver `Resolver` with the context of a request, on a database state
`σ`: the database `r.db`, and the functions of the packages relay,
graphqlbackend, auth, graphqlutil and actor that resolvers.go calls with
`ctx` and `r.db`; none of them is in the source tree.  A function that
returns a pointer and an error may return neither. -/
structure Resolver (σ A P C : Type) where
  db : DB σ P
  UnmarshalSpec : String → Except Err Int
  CheckAuthorizedForNamespace : String → σ → σ × Except Err (Option Namespace)
  CheckAuthorizedForNamespaceByIDs : Namespace → σ → σ × Option Err
  CurrentUser : σ → σ × Except Err (Option User)
  CheckCurrentUserIsSiteAdmin : σ → σ × Option Err
  NewConnectionResolver : workflowsConnectionStore → A → Except Err C
  ActorUID : Int

/-- `unmarshalWorkflowID` of resolvers.go. -/
def unmarshalWorkflowID {σ A P C : Type} (r : Resolver σ A P C) (id : String) : Except Err Int :=
  r.UnmarshalSpec id

/-- `Resolver.toWorkflowResolver` of resolvers.go. -/
def toWorkflowResolver (entry : Workflow) : workflowResolver :=
  ⟨entry⟩

/-- The 32-bit conversion `int32(count)`. -/
def toInt32 (n : Int) : Int :=
  (n + 2 ^ 31) % 2 ^ 32 - 2 ^ 31

/-- `workflowsConnectionStore.ComputeTotal` of resolvers.go. -/
def workflowsConnectionStore.ComputeTotal {σ A P C : Type} (s : workflowsConnectionStore)
    (r : Resolver σ A P C) (db : σ) : σ × (Int × Option Err) × List Event :=
  match r.db.Workflows.Count s.listArgs db with
  | (db, .error err) => (db, (toInt32 0, some err), [Event.Count s.listArgs])
  | (db, .ok count) => (db, (toInt32 count, none), [Event.Count s.listArgs])

/-- `workflowsConnectionStore.ComputeNodes` of resolvers.go. -/
def workflowsConnectionStore.ComputeNodes {σ A P C : Type} (s : workflowsConnectionStore)
    (r : Resolver σ A P C) (pgArgs : Option P) (db : σ) :
    σ × Except Err (List workflowResolver) × List Event :=
  match r.db.Workflows.List s.listArgs pgArgs db with
  | (db, .error err) => (db, .error err, [Event.List s.listArgs])
  | (db, .ok dbResults) =>
    (db, .ok (dbResults.map (fun workflow => ⟨workflow⟩)), [Event.List s.listArgs])

/-- `Resolver.Workflows` of resolvers.go: the state left, the result and the
calls made. -/
def Resolver.Workflows {σ A P C : Type} (r : Resolver σ A P C) (args : WorkflowsArgs A)
    (db : σ) : σ × Result C × List Event :=
  let listArgs : WorkflowListArgs :=
    { Query := match args.Query with
        | some q => q
        | none => ""
      AffiliatedUser := none
      Owner := none
      HideDrafts := !args.IncludeDrafts
      OrderBy := 0 }
  -- if args.Owner != nil
  let ownerStep : σ × Except Err WorkflowListArgs × List Event :=
    match args.Owner with
    | none => (db, .ok listArgs, [])
    | some id =>
      match r.CheckAuthorizedForNamespace id db with
      | (db, .error err) => (db, .error err, [Event.CheckAuthorizedForNamespace id])
      | (db, .ok owner) =>
        (db, .ok { listArgs with Owner := owner }, [Event.CheckAuthorizedForNamespace id])
  match ownerStep with
  | (db, .error err, log) => (db, .error err, log)
  | (db, .ok listArgs, log) =>
    -- if args.ViewerIsAffiliated != nil && *args.ViewerIsAffiliated
    let affiliatedStep : σ × Result WorkflowListArgs × List Event :=
      if args.ViewerIsAffiliated = some true then
        match r.CurrentUser db with
        | (db, .error err) => (db, .error err, log ++ [Event.CurrentUser])
        | (db, .ok none) => (db, .panic, log ++ [Event.CurrentUser])
        | (db, .ok (some currentUser)) =>
          (db, .ok { listArgs with AffiliatedUser := some currentUser.ID },
            log ++ [Event.CurrentUser])
      else (db, .ok listArgs, log)
    match affiliatedStep with
    | (db, .error err, log) => (db, .error err, log)
    | (db, .panic, log) => (db, .panic, log)
    | (db, .ok listArgs, log) =>
      -- if connectionStore.listArgs.Owner == nil && connectionStore.listArgs.AffiliatedUser == nil
      let adminStep : σ × Option Err × List Event :=
        if listArgs.Owner = none ∧ listArgs.AffiliatedUser = none then
          match r.CheckCurrentUserIsSiteAdmin db with
          | (db, some err) =>
            (db, some (Err.wrap err "must specify owner or viewerIsAffiliated args"),
              log ++ [Event.CheckCurrentUserIsSiteAdmin])
          | (db, none) => (db, none, log ++ [Event.CheckCurrentUserIsSiteAdmin])
        else (db, none, log)
      match adminStep with
      | (db, some err, log) => (db, .error err, log)
      | (db, none, log) =>
        (db, Result.ofExcept (r.NewConnectionResolver ⟨listArgs⟩ args.ConnectionResolverArgs),
          log ++ [Event.NewConnectionResolver ⟨listArgs⟩])

/-- `Resolver.WorkflowByID` of resolvers.go. -/
def Resolver.WorkflowByID {σ A P C : Type} (r : Resolver σ A P C) (id : String) (db : σ) :
    σ × Except Err workflowResolver × List Event :=
  match unmarshalWorkflowID r id with
  | .error err => (db, .error err, [])
  | .ok intID =>
    match r.db.Workflows.GetByID intID db with
    | (db, .error err) => (db, .error err, [Event.GetByID intID])
    | (db, .ok ss) =>
      match r.CheckAuthorizedForNamespaceByIDs ss.Owner db with
      | (db, some err) =>
        (db, .error err, [Event.GetByID intID, Event.CheckAuthorizedForNamespaceByIDs ss.Owner])
      | (db, none) =>
        (db, .ok ⟨ss⟩, [Event.GetByID intID, Event.CheckAuthorizedForNamespaceByIDs ss.Owner])

/-- The workflow `Resolver.UpdateWorkflow` hands to the store: the decoded
id, the fields of the input and the owner of the existing workflow; the other
fields have their zero value. -/
def updateWorkflowValue (id : Int) (input : WorkflowUpdateInput) (old : Workflow) : Workflow :=
  { ID := id
    Name := input.Name
    Description := input.Description
    TemplateText := input.TemplateText
    Draft := input.Draft
    Owner := old.Owner
    CreatedByUser := none
    CreatedAt := 0
    UpdatedByUser := none
    UpdatedAt := 0 }

/-- `Resolver.UpdateWorkflow` of resolvers.go: the state left, the result and
the calls made. -/
def Resolver.UpdateWorkflow {σ A P C : Type} (r : Resolver σ A P C) (args : UpdateWorkflowArgs)
    (db : σ) : σ × Except Err workflowResolver × List Event :=
  match unmarshalWorkflowID r args.ID with
  | .error err => (db, .error err, [])
  | .ok id =>
    match r.db.Workflows.GetByID id db with
    | (db, .error err) => (db, .error (Err.wrap err "get existing workflow"), [Event.GetByID id])
    | (db, .ok old) =>
      match r.CheckAuthorizedForNamespaceByIDs old.Owner db with
      | (db, some err) =>
        (db, .error err, [Event.GetByID id, Event.CheckAuthorizedForNamespaceByIDs old.Owner])
      | (db, none) =>
        match r.db.Workflows.Update (updateWorkflowValue id args.Input old) r.ActorUID db with
        | (db, .error err) =>
          (db, .error err,
            [Event.GetByID id, Event.CheckAuthorizedForNamespaceByIDs old.Owner,
              Event.Update (updateWorkflowValue id args.Input old) r.ActorUID])
        | (db, .ok ss) =>
          (db, .ok (toWorkflowResolver ss),
            [Event.GetByID id, Event.CheckAuthorizedForNamespaceByIDs old.Owner,
              Event.Update (updateWorkflowValue id args.Input old) r.ActorUID])

/-- `Resolver.DeleteWorkflow` of resolvers.go: the state left, the result and
the calls made. -/
def Resolver.DeleteWorkflow {σ A P C : Type} (r : Resolver σ A P C) (args : DeleteWorkflowArgs)
    (db : σ) : σ × Except Err EmptyResponse × List Event :=
  match unmarshalWorkflowID r args.ID with
  | .error err => (db, .error err, [])
  | .ok id =>
    match r.db.Workflows.GetByID id db with
    | (db, .error err) => (db, .error err, [Event.GetByID id])
    | (db, .ok ss) =>
      match r.CheckAuthorizedForNamespaceByIDs ss.Owner db with
      | (db, some err) =>
        (db, .error err, [Event.GetByID id, Event.CheckAuthorizedForNamespaceByIDs ss.Owner])
      | (db, none) =>
        match r.db.Workflows.Delete id db with
        | (db, some err) =>
          (db, .error err,
            [Event.GetByID id, Event.CheckAuthorizedForNamespaceByIDs ss.Owner, Event.Delete id])
        | (db, none) =>
          (db, .ok {},
            [Event.GetByID id, Event.CheckAuthorizedForNamespaceByIDs ss.Owner, Event.Delete id])

/-- Whether a recorded call is one of the store's `List` or `Count`. -/
def Event.isListOrCount : Event → Bool
  | .List _ => true
  | .Count _ => true
  | _ => false

/-- Whether a recorded call is the store's `Update` or `Delete`. -/
def Event.isWrite : Event → Bool
  | .Update _ _ => true
  | .Delete _ => true
  | _ => false

end Resolvers

namespace Resolvers

open Errors Database

/-- The error `auth.ErrNotAnOrgMember`, a fixture of the examples. -/
def ErrNotAnOrgMember : Err :=
  Err.new "current user is not an org member"

/-- The error `auth.ErrMustBeSiteAdmin`, a fixture of the examples. -/
def ErrMustBeSiteAdmin : Err :=
  Err.new "must be site admin"

/-- An error of the type `*auth.InsufficientAuthorizationError`, a fixture of
the examples. -/
def InsufficientAuthorizationError : Err :=
  Err.typed "*auth.InsufficientAuthorizationError" ""
    "must be authenticated as the authorized user or site admin"

/-- The id decoding of the examples: it knows `marshalWorkflowID(1)`. -/
def testUnmarshalSpec (id : String) : Except Err Int :=
  if id = "V29ya2Zsb3c6MQ==" then .ok 1 else .error (Err.new "invalid graphql.ID")

/-- The namespace ids of the examples: `MarshalUserID(1)`, `MarshalUserID(3)`
and `MarshalOrgID(2)`. -/
def testNamespaceOfID (id : String) : Option Namespace :=
  if id = "VXNlcjox" then some (NamespaceUser 1)
  else if id = "VXNlcjoz" then some (NamespaceUser 3)
  else if id = "T3JnOjI=" then some (NamespaceOrg 2)
  else none

/-- The namespace check of the examples, as the mocks of the tests make it
come out: a user namespace is open to that user and to site admins; the
namespace of an org to site admins and to the user whose id is the org's
(the membership hook of `TestUpdateWorkflowPermissions`). -/
def testCheckByIDs (actor : User) (owner : Namespace) : Option Err :=
  match owner.User, owner.Org with
  | some u, _ =>
    if actor.ID = u ∨ actor.SiteAdmin = true then none else some InsufficientAuthorizationError
  | none, some o =>
    if actor.SiteAdmin = true ∨ o = actor.ID then none else some ErrNotAnOrgMember
  | none, none => some (Err.new "invalid namespace")

/-- The resolver of the examples for an acting user and a workflow store. -/
def testResolver {σ P : Type} (actor : User) (store : WorkflowStore σ P) :
    Resolver σ Unit P workflowsConnectionStore :=
  { db := ⟨store⟩
    UnmarshalSpec := testUnmarshalSpec
    CheckAuthorizedForNamespace := fun id db =>
      match testNamespaceOfID id with
      | none => (db, .error (Err.new "invalid ID for namespace"))
      | some owner =>
        match testCheckByIDs actor owner with
        | some err => (db, .error err)
        | none => (db, .ok (some owner))
    CheckAuthorizedForNamespaceByIDs := fun owner db => (db, testCheckByIDs actor owner)
    CurrentUser := fun db => (db, .ok (some actor))
    CheckCurrentUserIsSiteAdmin := fun db =>
      (db, if actor.SiteAdmin = true then none else some ErrMustBeSiteAdmin)
    NewConnectionResolver := fun store _ => .ok store
    ActorUID := actor.ID }

/-- The workflow store of the examples on the test database; its `List` and
`Count` are the hooks of `TestWorkflowsForDifferentOrg`. -/
def testStore : WorkflowStore TestDB Unit :=
  testWorkflowStore.asWorkflowStore
    (fun _ _ db =>
      (db, .ok [{ testCreateInput with ID := 1, TemplateText := "", Owner := NamespaceOrg 2 }]))
    (fun _ db => (db, .ok 1))

/-- The arguments of `TestWorkflowsForDifferentOrg`. -/
def testWorkflowsArgs (owner : Option String) (viewerIsAffiliated : Option Bool) :
    WorkflowsArgs Unit :=
  { ConnectionResolverArgs := (), Query := none, Owner := owner,
    ViewerIsAffiliated := viewerIsAffiliated, IncludeDrafts := false }

/-- The arguments of the update of `TestUpdateWorkflow`. -/
def testUpdateArgs : UpdateWorkflowArgs :=
  { ID := "V29ya2Zsb3c6MQ==",
    Input := { Name := "n2", Description := "", TemplateText := "", Draft := true } }

end Resolvers

namespace Resolvers

open Errors Database

/-- The value of `connectionStore.listArgs` in `Resolver.Workflows` for the
arguments of the request, the owner the namespace check returned and the
affiliated user: the query, or the empty string when there is none, and
`HideDrafts` the opposite of `IncludeDrafts`. -/
def workflowsListArgs {A : Type} (args : WorkflowsArgs A) (owner : Option Namespace)
    (affiliatedUser : Option Int) : WorkflowListArgs :=
  { Query := args.Query.getD ""
    AffiliatedUser := affiliatedUser
    Owner := owner
    HideDrafts := !args.IncludeDrafts
    OrderBy := WorkflowsOrderByID }

end Resolvers

namespace InsightsStore

/-- The hooks that serve a run of `n` invocations on a queue `hs` with default
hook `d`: the queue in order, then the default hook. -/
def servingHooks {C : Type} (hs : List (C → List Int × Option Errors.Err))
    (d : C → List Int × Option Errors.Err) (n : Nat) :
    List (C → List Int × Option Errors.Err) :=
  hs.take n ++ List.replicate (n - hs.length) d

end InsightsStore

namespace Database

open Errors

mutual
/-- An argument of `sqlf.Sprintf`: a value to bind, or a query to splice
in. -/
inductive SqlfArg where
  | value (v : SQLValue)
  | query (q : SqlfQuery)

/-- A `*sqlf.Query`, by the call that builds it: `sqlf.Sprintf(format,
args...)` or `sqlf.Join(queries, sep)`.  The package sqlf is outside the
source tree; the format strings are kept as the sources write them. -/
inductive SqlfQuery where
  | Sprintf (format : String) (args : List SqlfArg)
  | Join (queries : List SqlfQuery) (sep : String)
end

/-- The type `OrderByOption`, by the field the sources set (it is declared
outside the source tree). -/
structure OrderByOption where
  Field : String
  deriving DecidableEq, Repr

/-- The type `PaginationArgs`, by the two fields the sources set; `R` holds
its other fields (it is declared outside the source tree). -/
structure PaginationArgs (R : Type) where
  OrderBy : List OrderByOption
  Ascending : Bool
  rest : R

/-- What workflows.go and saved_searches.go use of the pagination code, which
is outside the source tree: the other fields of the zero value
`PaginationArgs{}`, the method `SQL` with the type `QA` of its result, the
field `Where` of that result and its two methods that extend a query. -/
structure PaginationOps (R QA : Type) where
  zero : R
  SQL : PaginationArgs R → QA
  Where : QA → Option SqlfQuery
  AppendOrderToQuery : QA → SqlfQuery → SqlfQuery
  AppendLimitToQuery : QA → SqlfQuery → SqlfQuery

/-- The base store with the queries that return rows: `QueryWorkflows q`
stands for `scanWorkflows(s.Query(ctx, q))`, `QuerySavedSearches q` for
`scanSavedSearches(s.Query(ctx, q))` and `QueryFirstInt q` for
`basestore.ScanFirstInt(s.Query(ctx, q))`, whose results are the number, a
flag and the error. -/
structure QueryStore (σ : Type) extends BaseStore σ where
  QueryWorkflows : SqlfQuery → σ → σ × Except Err (List Workflow)
  QuerySavedSearches : SqlfQuery → σ → σ × Except Err (List SavedSearch)
  QueryFirstInt : SqlfQuery → σ → σ × (Int × Bool × Option Err)

/-- The variable `workflowWriteColumns` of workflows.go as the query it is. -/
def workflowWriteColumnsQuery : SqlfQuery :=
  .Sprintf "name, description, template_text, draft" []

/-- The variable `workflowReadColumns` of workflows.go as the query it is. -/
def workflowReadColumnsQuery : SqlfQuery :=
  .Sprintf "%v, owner_user_id, owner_org_id, created_by, created_at, updated_by, updated_at"
    [.query workflowWriteColumnsQuery]

/-- The variable `savedSearchColumns` of saved_searches.go as the query it
is. -/
def savedSearchColumnsQuery : SqlfQuery :=
  .Sprintf "description, query, user_id, org_id" []

/-- The test `p != nil && *p != 0` on an id: the id when it holds. -/
def nonZeroID : Option Int → Option Int
  | some n => if n ≠ 0 then some n else none
  | none => none

/-- The condition `toSQL` of workflows.go adds for a query string. -/
def workflowQueryCondition (query : String) : SqlfQuery :=
  .Sprintf "(name_with_owner ILIKE %v OR description ILIKE %v OR template_text ILIKE %v)"
    [.value (.text ("%" ++ query ++ "%")), .value (.text ("%" ++ query ++ "%")),
      .value (.text ("%" ++ query ++ "%"))]

/-- The condition `toSQL` of workflows.go adds for an affiliated user. -/
def workflowAffiliatedCondition (user : Int) : SqlfQuery :=
  .Sprintf "(%v OR %v)"
    [.query (.Sprintf "owner_user_id=%v" [.value (.int user)]),
      .query (.Sprintf "owner_org_id IN (SELECT org_members.org_id FROM org_members LEFT JOIN orgs ON orgs.id=org_members.org_id WHERE orgs.deleted_at IS NULL AND org_members.user_id=%v)"
        [.value (.int user)])]

/-- `WorkflowListArgs.toSQL` of workflows.go: the where-list, the fields
`OrderBy` and `Ascending` of the returned `PaginationArgs` (its other fields
are zero) and the error. -/
def WorkflowListArgs.toSQL (a : WorkflowListArgs) :
    List SqlfQuery × (List OrderByOption × Bool) × Option Err :=
  let where0 : List SqlfQuery := []
  let where1 := if a.Query ≠ "" then where0 ++ [workflowQueryCondition a.Query] else where0
  let where2 :=
    match a.AffiliatedUser with
    | some user => where1 ++ [workflowAffiliatedCondition user]
    | none => where1
  let ownerStep : Except Err (List SqlfQuery) :=
    match a.Owner with
    | none => .ok where2
    | some owner =>
      match nonZeroID owner.User with
      | some user => .ok (where2 ++ [.Sprintf "owner_user_id=%v" [.value (.int user)]])
      | none =>
        match nonZeroID owner.Org with
        | some org => .ok (where2 ++ [.Sprintf "owner_org_id=%v" [.value (.int org)]])
        | none => .error (Err.new "invalid owner (no user or org ID)")
  match ownerStep with
  | .error err => ([], ([], false), some err)
  | .ok where3 =>
    let where4 := if a.HideDrafts then where3 ++ [.Sprintf "NOT draft" []] else where3
    let where5 := if where4.length = 0 then where4 ++ [.Sprintf "TRUE" []] else where4
    if a.OrderBy = WorkflowsOrderByID then (where5, ([⟨"id"⟩], true), none)
    else if a.OrderBy = WorkflowsOrderByNameWithOwner then
      (where5, ([⟨"name_with_owner"⟩], true), none)
    else if a.OrderBy = WorkflowsOrderByUpdatedAt then (where5, ([⟨"updated_at"⟩], false), none)
    else ([], ([], false), some (Err.new "invalid OrderBy"))

/-- The pagination arguments `workflowStore.List` and `savedSearchStore.List`
hand to `SQL`: those of the caller, or the zero value for nil, with `OrderBy`
and `Ascending` overwritten by the ones `toSQL` returned. -/
def listPaginationArgs {R QA : Type} (pgn : PaginationOps R QA)
    (paginationArgs : Option (PaginationArgs R)) (orderBy : List OrderByOption × Bool) :
    PaginationArgs R :=
  let paginationArgs : PaginationArgs R :=
    match paginationArgs with
    | some p => p
    | none => ⟨[], false, pgn.zero⟩
  { paginationArgs with OrderBy := orderBy.1, Ascending := orderBy.2 }

/-- The query of `workflowStore.List` for a where-list and the pagination
arguments handed to `SQL`. -/
def workflowListQuery {R QA : Type} (pgn : PaginationOps R QA) (whereList : List SqlfQuery)
    (paginationArgs : PaginationArgs R) : SqlfQuery :=
  let pg := pgn.SQL paginationArgs
  let whereList :=
    match pgn.Where pg with
    | some w => whereList ++ [w]
    | none => whereList
  let query : SqlfQuery :=
    .Sprintf "SELECT id, %v FROM workflows_view WHERE (%v)"
      [.query workflowReadColumnsQuery, .query (.Join whereList ") AND (")]
  let query := pgn.AppendOrderToQuery pg query
  pgn.AppendLimitToQuery pg query

/-- `workflowStore.List` of workflows.go. -/
def workflowStore.List {σ R QA : Type} (pgn : PaginationOps R QA)
    (s : workflowStore (QueryStore σ)) (args : WorkflowListArgs)
    (paginationArgs : Option (PaginationArgs R)) (db : σ) : σ × Except Err (List Workflow) :=
  match args.toSQL with
  | (_, _, some err) => (db, .error err)
  | (whereList, orderBy, none) =>
    s.Store.QueryWorkflows
      (workflowListQuery pgn whereList (listPaginationArgs pgn paginationArgs orderBy)) db

/-- The query of `workflowStore.Count` for a where-list. -/
def workflowCountQuery (whereList : List SqlfQuery) : SqlfQuery :=
  .Sprintf "SELECT COUNT(*) FROM workflows_view WHERE (%v)" [.query (.Join whereList ") AND (")]

/-- `workflowStore.Count` of workflows.go: the count and the error. -/
def workflowStore.Count {σ : Type} (s : workflowStore (QueryStore σ)) (args : WorkflowListArgs)
    (db : σ) : σ × Except Err Int :=
  match args.toSQL with
  | (_, _, some err) => (db, .error err)
  | (whereList, _, none) =>
    match s.Store.QueryFirstInt (workflowCountQuery whereList) db with
    | (db, (_, _, some err)) => (db, .error err)
    | (db, (count, _, none)) => (db, .ok count)

/-- The value `&workflowStore{...}` as a `WorkflowStore`, with all six
methods. -/
def workflowStore.toWorkflowStore {σ R QA : Type} (pgn : PaginationOps R QA)
    (s : workflowStore (QueryStore σ)) : WorkflowStore σ (PaginationArgs R) :=
  workflowStore.asWorkflowStore ⟨s.Store.toBaseStore⟩ (s.List pgn) s.Count

end Database

namespace Database

open Errors

/-- The type `SavedSearchesOrderBy` of saved_searches.go (a `uint8`). -/
abbrev SavedSearchesOrderBy := Nat

/-- The constant `SavedSearchesOrderByID`. -/
def SavedSearchesOrderByID : SavedSearchesOrderBy := 0

/-- The constant `SavedSearchesOrderByDescription`. -/
def SavedSearchesOrderByDescription : SavedSearchesOrderBy := 1

/-- The constant `SavedSearchesOrderByUpdatedAt`. -/
def SavedSearchesOrderByUpdatedAt : SavedSearchesOrderBy := 2

/-- The type `SavedSearchListArgs` of saved_searches.go. -/
structure SavedSearchListArgs where
  Query : String
  AffiliatedUser : Option Int
  Owner : Option Namespace
  OrderBy : SavedSearchesOrderBy
  deriving DecidableEq, Repr

/-- The condition `toSQL` of saved_searches.go adds for a query string. -/
def savedSearchQueryCondition (query : String) : SqlfQuery :=
  .Sprintf "(description ILIKE %v OR query ILIKE %v)"
    [.value (.text ("%" ++ query ++ "%")), .value (.text ("%" ++ query ++ "%"))]

/-- The condition `toSQL` of saved_searches.go adds for an affiliated user. -/
def savedSearchAffiliatedCondition (user : Int) : SqlfQuery :=
  .Sprintf "(%v OR %v)"
    [.query (.Sprintf "user_id=%v" [.value (.int user)]),
      .query (.Sprintf "org_id IN (SELECT org_members.org_id FROM org_members LEFT JOIN orgs ON orgs.id=org_members.org_id WHERE orgs.deleted_at IS NULL AND org_members.user_id=%v)"
        [.value (.int user)])]

/-- `SavedSearchListArgs.toSQL` of saved_searches.go: the where-list, the
fields `OrderBy` and `Ascending` of the returned `PaginationArgs` and the
error. -/
def SavedSearchListArgs.toSQL (a : SavedSearchListArgs) :
    List SqlfQuery × (List OrderByOption × Bool) × Option Err :=
  let where0 : List SqlfQuery := []
  let where1 := if a.Query ≠ "" then where0 ++ [savedSearchQueryCondition a.Query] else where0
  let where2 :=
    match a.AffiliatedUser with
    | some user => where1 ++ [savedSearchAffiliatedCondition user]
    | none => where1
  let ownerStep : Except Err (List SqlfQuery) :=
    match a.Owner with
    | none => .ok where2
    | some owner =>
      match nonZeroID owner.User with
      | some user => .ok (where2 ++ [.Sprintf "user_id=%v" [.value (.int user)]])
      | none =>
        match nonZeroID owner.Org with
        | some org => .ok (where2 ++ [.Sprintf "org_id=%v" [.value (.int org)]])
        | none => .error (Err.new "invalid owner (no user or org ID)")
  match ownerStep with
  | .error err => ([], ([], false), some err)
  | .ok where3 =>
    let where4 := if where3.length = 0 then where3 ++ [.Sprintf "TRUE" []] else where3
    if a.OrderBy = SavedSearchesOrderByID then (where4, ([⟨"id"⟩], true), none)
    else if a.OrderBy = SavedSearchesOrderByDescription then
      (where4, ([⟨"description"⟩], true), none)
    else if a.OrderBy = SavedSearchesOrderByUpdatedAt then
      (where4, ([⟨"updated_at"⟩], false), none)
    else ([], ([], false), some (Err.new "invalid OrderBy"))

/-- The query of `savedSearchStore.List` for a where-list and the pagination
arguments handed to `SQL`. -/
def savedSearchListQuery {R QA : Type} (pgn : PaginationOps R QA) (whereList : List SqlfQuery)
    (paginationArgs : PaginationArgs R) : SqlfQuery :=
  let pg := pgn.SQL paginationArgs
  let whereList :=
    match pgn.Where pg with
    | some w => whereList ++ [w]
    | none => whereList
  let query : SqlfQuery :=
    .Sprintf "SELECT id, %v FROM saved_searches WHERE (%v)"
      [.query savedSearchColumnsQuery, .query (.Join whereList ") AND (")]
  let query := pgn.AppendOrderToQuery pg query
  pgn.AppendLimitToQuery pg query

/-- `savedSearchStore.List` of saved_searches.go. -/
def savedSearchStore.List {σ R QA : Type} (pgn : PaginationOps R QA)
    (s : savedSearchStore (QueryStore σ)) (args : SavedSearchListArgs)
    (paginationArgs : Option (PaginationArgs R)) (db : σ) :
    σ × Except Err (List SavedSearch) :=
  match args.toSQL with
  | (_, _, some err) => (db, .error err)
  | (whereList, orderBy, none) =>
    s.Store.QuerySavedSearches
      (savedSearchListQuery pgn whereList (listPaginationArgs pgn paginationArgs orderBy)) db

/-- The query of `savedSearchStore.Count` for a where-list. -/
def savedSearchCountQuery (whereList : List SqlfQuery) : SqlfQuery :=
  .Sprintf "SELECT COUNT(*) FROM saved_searches WHERE (%v)" [.query (.Join whereList ") AND (")]

/-- `savedSearchStore.Count` of saved_searches.go: the count and the error. -/
def savedSearchStore.Count {σ : Type} (s : savedSearchStore (QueryStore σ))
    (args : SavedSearchListArgs) (db : σ) : σ × Except Err Int :=
  match args.toSQL with
  | (_, _, some err) => (db, .error err)
  | (whereList, _, none) =>
    match s.Store.QueryFirstInt (savedSearchCountQuery whereList) db with
    | (db, (_, _, some err)) => (db, .error err)
    | (db, (count, _, none)) => (db, .ok count)

/-- A base store that keeps, next to the state of the base store it wraps,
the list of the queries `Query` was called with. -/
def QueryStore.logged {σ : Type} (base : QueryStore σ) : QueryStore (σ × List SqlfQuery) where
  QueryRow := fun q st => (((base.QueryRow q st.1).1, st.2), (base.QueryRow q st.1).2)
  Exec := fun q st => (((base.Exec q st.1).1, st.2), (base.Exec q st.1).2)
  QueryWorkflows := fun q st =>
    (((base.QueryWorkflows q st.1).1, st.2 ++ [q]), (base.QueryWorkflows q st.1).2)
  QuerySavedSearches := fun q st =>
    (((base.QuerySavedSearches q st.1).1, st.2 ++ [q]), (base.QuerySavedSearches q st.1).2)
  QueryFirstInt := fun q st =>
    (((base.QueryFirstInt q st.1).1, st.2 ++ [q]), (base.QueryFirstInt q st.1).2)

/-- The pagination code of the examples: no cursor condition, and the order
and the limit are appended as they come, the order as
`ORDER BY field ASC|DESC` of the first option. -/
def testPagination : PaginationOps Unit (PaginationArgs Unit) where
  zero := ()
  SQL := fun p => p
  Where := fun _ => none
  AppendOrderToQuery := fun p q =>
    match p.OrderBy with
    | [] => q
    | o :: _ =>
      .Sprintf "%v ORDER BY %v"
        [.query q, .query (.Sprintf (o.Field ++ (if p.Ascending then " ASC" else " DESC")) [])]
  AppendLimitToQuery := fun _ q => q

/-- A query store for the examples, on the test database: the queries that
return rows return none, and the count is zero. -/
def testQueryStore : QueryStore TestDB where
  QueryRow := TestDB.QueryRow
  Exec := TestDB.Exec
  QueryWorkflows := fun _ db => (db, .ok [])
  QuerySavedSearches := fun _ db => (db, .ok [])
  QueryFirstInt := fun _ db => (db, (0, true, none))

end Database

namespace Resolvers

open Errors Database

/-- The constant `WorkflowKind` of resolvers.go. -/
def WorkflowKind : String := "Workflow"

/-- `marshalWorkflowID` of resolvers.go; `MarshalID` is `relay.MarshalID`,
which is outside the source tree. -/
def marshalWorkflowID (MarshalID : String → Int → String) (workflowID : Int) : String :=
  MarshalID WorkflowKind workflowID

/-- `workflowResolver.ID` of resolvers.go. -/
def workflowResolver.ID (MarshalID : String → Int → String) (r : workflowResolver) : String :=
  marshalWorkflowID MarshalID r.s.ID

/-- `workflowsConnectionStore.MarshalCursor` of resolvers.go: the cursor is
the ID of the node as a string; the order argument is not used. -/
def workflowsConnectionStore.MarshalCursor (_ : workflowsConnectionStore)
    (MarshalID : String → Int → String) (node : workflowResolver) (_ : List OrderByOption) :
    Except Err String :=
  .ok (node.ID MarshalID)

/-- `workflowsConnectionStore.UnmarshalCursor` of resolvers.go: the decoded
id as a list of one element; the order argument is not used. -/
def workflowsConnectionStore.UnmarshalCursor {σ A P C : Type} (_ : workflowsConnectionStore)
    (r : Resolver σ A P C) (cursor : String) (_ : List OrderByOption) : Except Err (List Int) :=
  match unmarshalWorkflowID r cursor with
  | .error err => .error err
  | .ok nodeID => .ok [nodeID]

/-- What `workflowResolver.Owner` and `NameWithOwner` use of the package
graphqlbackend, which is outside the source tree: the two id encodings, the
lookup `NamespaceByID` with the type `N` of the namespace it returns, and the
name of a namespace. -/
structure NamespaceOps (σ N : Type) where
  MarshalUserID : Int → String
  MarshalOrgID : Int → String
  NamespaceByID : String → σ → σ × Except Err N
  NamespaceName : N → String

/-- `workflowResolver.Owner` of resolvers.go; the resolver it returns is given
by the namespace it wraps. -/
def workflowResolver.Owner {σ N : Type} (ops : NamespaceOps σ N) (r : workflowResolver)
    (db : σ) : σ × Except Err N :=
  match r.s.Owner.User with
  | some user =>
    match ops.NamespaceByID (ops.MarshalUserID user) db with
    | (db, .error err) => (db, .error err)
    | (db, .ok n) => (db, .ok n)
  | none =>
    match r.s.Owner.Org with
    | some org =>
      match ops.NamespaceByID (ops.MarshalOrgID org) db with
      | (db, .error err) => (db, .error err)
      | (db, .ok n) => (db, .ok n)
    | none => (db, .error (Err.new "no owner"))

/-- `workflowResolver.NameWithOwner` of resolvers.go. -/
def workflowResolver.NameWithOwner {σ N : Type} (ops : NamespaceOps σ N) (r : workflowResolver)
    (db : σ) : σ × Except Err String :=
  match r.Owner ops db with
  | (db, .error err) => (db, .error err)
  | (db, .ok owner) => (db, .ok (ops.NamespaceName owner ++ "/" ++ r.s.Name))

/-- The namespaces of the examples: user 7 is `alice` and org 2 is `acme`;
an id is the kind and the number. -/
def testNamespaceOps : NamespaceOps Unit String where
  MarshalUserID := fun n => if n = 7 then "User:7" else "User:?"
  MarshalOrgID := fun n => if n = 2 then "Org:2" else "Org:?"
  NamespaceByID := fun id db =>
    if id = "User:7" then (db, .ok "alice")
    else if id = "Org:2" then (db, .ok "acme")
    else (db, .error (Err.new "namespace not found"))
  NamespaceName := fun n => n

/-- A workflow named `deploy` with the given owner, for the examples. -/
def testNamedWorkflow (owner : Namespace) : workflowResolver :=
  ⟨{ testCreateInput with ID := 1, Name := "deploy", Owner := owner }⟩

end Resolvers

namespace Resolvers

open Errors Database

/-- The alphabet of the URL-safe base64 encoding. -/
def base64Alphabet : List Char :=
  "ABCDEFGHIJKLMNOPQRSTUVWXYZabcdefghijklmnopqrstuvwxyz0123456789-_".toList

/-- The character of a six-bit value. -/
def base64Char (n : Nat) : Char :=
  base64Alphabet.getD n 'A'

/-- The six-bit value of a character of the alphabet. -/
def base64Value (c : Char) : Option Nat :=
  let i := base64Alphabet.indexOf c
  if i < 64 then some i else none

/-- The padded base64 encoding of a list of bytes. -/
def base64Encode : List Nat → List Char
  | a :: b :: c :: rest =>
    base64Char (a / 4) :: base64Char (a % 4 * 16 + b / 16) :: base64Char (b % 16 * 4 + c / 64)
      :: base64Char (c % 64) :: base64Encode rest
  | [a, b] => [base64Char (a / 4), base64Char (a % 4 * 16 + b / 16), base64Char (b % 16 * 4), '=']
  | [a] => [base64Char (a / 4), base64Char (a % 4 * 16), '=', '=']
  | [] => []

/-- The bytes of a padded base64 text; none when the text is not one. -/
def base64Decode : List Char → Option (List Nat)
  | [] => some []
  | [a, b, '=', '='] =>
    match base64Value a, base64Value b with
    | some a, some b => some [a * 4 + b / 16]
    | _, _ => none
  | [a, b, c, '='] =>
    match base64Value a, base64Value b, base64Value c with
    | some a, some b, some c => some [a * 4 + b / 16, b % 16 * 16 + c / 4]
    | _, _, _ => none
  | a :: b :: c :: d :: rest =>
    match base64Value a, base64Value b, base64Value c, base64Value d, base64Decode rest with
    | some a, some b, some c, some d, some bytes =>
      some ([a * 4 + b / 16, b % 16 * 16 + c / 4, c % 4 * 64 + d] ++ bytes)
    | _, _, _, _, _ => none
  | _ => none

/-- The decimal digits of a number, with a bound on their count. -/
def decimalDigits : Nat → Nat → List Char
  | 0, _ => []
  | fuel + 1, n =>
    (if n < 10 then [] else decimalDigits fuel (n / 10)) ++ [("0123456789".toList).getD (n % 10) '0']

/-- The JSON text of a 32-bit integer. -/
def jsonInt (n : Int) : List Char :=
  match n with
  | .ofNat m => decimalDigits (m + 1) m
  | .negSucc m => '-' :: decimalDigits (m + 2) (m + 1)

/-- The number a text of decimal digits stands for. -/
def parseDigits : List Char → Nat → Option Nat
  | [], acc => some acc
  | c :: rest, acc =>
    if '0' ≤ c ∧ c ≤ '9' then parseDigits rest (acc * 10 + (c.toNat - '0'.toNat)) else none

/-- The 32-bit integer of a JSON text of decimal digits with an optional
sign. -/
def parseJSONInt (text : List Char) : Option Int :=
  let parsed : Option Int :=
    match text with
    | [] => none
    | '-' :: [] => none
    | '-' :: rest => (parseDigits rest 0).map (fun m => - (m : Int))
    | rest => (parseDigits rest 0).map (fun m => (m : Int))
  match parsed with
  | some n => if - 2 ^ 31 ≤ n ∧ n < 2 ^ 31 then some n else none
  | none => none

/-- The bytes of the UTF-8 encoding of a character. -/
def utf8Bytes (c : Char) : List Nat :=
  let v := c.toNat
  if v < 128 then [v]
  else if v < 2048 then [192 + v / 64, 128 + v % 64]
  else if v < 65536 then [224 + v / 4096, 128 + v / 64 % 64, 128 + v % 64]
  else [240 + v / 262144, 128 + v / 4096 % 64, 128 + v / 64 % 64, 128 + v % 64]

/-- The bytes of a Go string: the UTF-8 encoding of its characters. -/
def stringBytes (s : String) : List Nat :=
  s.toList.flatMap utf8Bytes

/-- A model of `relay.MarshalID` of the library graphql-go, which is outside
the source tree, for an `int32` id: the URL-safe base64 text of the bytes of
the kind, a colon and the JSON text of the id. -/
def relayMarshalID (kind : String) (id : Int) : String :=
  String.mk (base64Encode (stringBytes kind ++ 58 :: (jsonInt id).map Char.toNat))

/-- The text after the first colon of a list of bytes. -/
def afterColon : List Nat → Option (List Nat)
  | [] => none
  | b :: rest => if b = 58 then some rest else afterColon rest

/-- A model of `relay.UnmarshalSpec` of the library graphql-go, which is
outside the source tree, into an `int32`: decode the base64 text, drop what
stands up to the first colon and read the rest as the JSON text of a number;
the kind is not looked at. The JSON reader is that of the texts
`relay.MarshalID` makes of an `int32` (decimal digits with an optional sign),
and the texts of the errors stand for those of the library. -/
def relayUnmarshalSpec (id : String) : Except Err Int :=
  match base64Decode id.toList with
  | none => .error (Err.new "illegal base64 data")
  | some bytes =>
    match afterColon bytes with
    | none => .error (Err.new "invalid graphql.ID")
    | some spec =>
      match parseJSONInt (spec.map Char.ofNat) with
      | none => .error (Err.new "json: cannot unmarshal into Go value of type int32")
      | some n => .ok n

/-- The resolver of the examples with the id decoding
`relayUnmarshalSpec`. -/
def testRelayResolver {σ P : Type} (actor : User) (store : WorkflowStore σ P) :
    Resolver σ Unit P workflowsConnectionStore :=
  { testResolver actor store with UnmarshalSpec := relayUnmarshalSpec }

/-- The store of `TestDeleteWorkflow`: `GetByID` returns workflow 1 of user 1
and `Delete` returns nil; the other methods are those of the test
database. -/
def testDeleteStore : WorkflowStore TestDB Unit :=
  { testStore with
    GetByID := fun _ db =>
      (db, .ok { testCreateInput with ID := 1, TemplateText := "", Owner := NamespaceUser 1 })
    Delete := fun _ db => (db, none) }

end Resolvers

namespace Database

open Errors

/-- The number of active filters of list arguments, as the specification
counts them: a query that is not empty, an affiliated user, an owner, and
`HideDrafts`. -/
def WorkflowListArgs.activeFilters (a : WorkflowListArgs) : Nat :=
  (if a.Query ≠ "" then 1 else 0) + (if a.AffiliatedUser.isSome then 1 else 0)
    + (if a.Owner.isSome then 1 else 0) + (if a.HideDrafts then 1 else 0)

/-- The owner condition of the specification for workflows: on the user
column when the user id is there and not zero, otherwise on the org column
when the org id is there and not zero, otherwise none. -/
def workflowOwnerCondition (owner : Namespace) : Option SqlfQuery :=
  match nonZeroID owner.User with
  | some user => some (.Sprintf "owner_user_id=%v" [.value (.int user)])
  | none =>
    match nonZeroID owner.Org with
    | some org => some (.Sprintf "owner_org_id=%v" [.value (.int org)])
    | none => none

/-- The owner condition of the specification for saved searches. -/
def savedSearchOwnerCondition (owner : Namespace) : Option SqlfQuery :=
  match nonZeroID owner.User with
  | some user => some (.Sprintf "user_id=%v" [.value (.int user)])
  | none =>
    match nonZeroID owner.Org with
    | some org => some (.Sprintf "org_id=%v" [.value (.int org)])
    | none => none

/-- An owner of the specification is valid when it has a user id or an org id
that is not zero; no owner is valid too. -/
def validOwner (owner : Option Namespace) : Bool :=
  match owner with
  | none => true
  | some owner => (nonZeroID owner.User).isSome || (nonZeroID owner.Org).isSome

/-- The conditions of the filters of workflow list arguments in the order of
the specification: query, affiliated user, owner, drafts. -/
def WorkflowListArgs.filterConditions (a : WorkflowListArgs) : List SqlfQuery :=
  (if a.Query ≠ "" then [workflowQueryCondition a.Query] else [])
    ++ (match a.AffiliatedUser with
        | some user => [workflowAffiliatedCondition user]
        | none => [])
    ++ (match a.Owner with
        | some owner => (workflowOwnerCondition owner).toList
        | none => [])
    ++ (if a.HideDrafts then [SqlfQuery.Sprintf "NOT draft" []] else [])

/-- The conditions of the filters of saved search list arguments in the order
of the specification: query, affiliated user, owner. -/
def SavedSearchListArgs.filterConditions (a : SavedSearchListArgs) : List SqlfQuery :=
  (if a.Query ≠ "" then [savedSearchQueryCondition a.Query] else [])
    ++ (match a.AffiliatedUser with
        | some user => [savedSearchAffiliatedCondition user]
        | none => [])
    ++ (match a.Owner with
        | some owner => (savedSearchOwnerCondition owner).toList
        | none => [])

/-- The where-list of the specification for a list of filter conditions: the
conditions, or the one condition `TRUE` when there is none. -/
def whereOf (conditions : List SqlfQuery) : List SqlfQuery :=
  if conditions.isEmpty then [SqlfQuery.Sprintf "TRUE" []] else conditions

/-- The order of the specification for a `WorkflowsOrderBy`: the field and
whether it ascends; none for a value that is not defined. -/
def workflowOrder (orderBy : WorkflowsOrderBy) : Option (List OrderByOption × Bool) :=
  if orderBy = 0 then some ([⟨"id"⟩], true)
  else if orderBy = 1 then some ([⟨"name_with_owner"⟩], true)
  else if orderBy = 2 then some ([⟨"updated_at"⟩], false)
  else none

/-- The order of the specification for a `SavedSearchesOrderBy`. -/
def savedSearchOrder (orderBy : SavedSearchesOrderBy) : Option (List OrderByOption × Bool) :=
  if orderBy = 0 then some ([⟨"id"⟩], true)
  else if orderBy = 1 then some ([⟨"description"⟩], true)
  else if orderBy = 2 then some ([⟨"updated_at"⟩], false)
  else none

/-- Whether a condition is an owner condition of workflows: the user column
or the org column set equal to one bound id. -/
def isWorkflowOwnerCondition : SqlfQuery → Bool
  | .Sprintf format [.value (.int _)] =>
    decide (format = "owner_user_id=%v") || decide (format = "owner_org_id=%v")
  | _ => false

/-- Whether a condition is an owner condition of saved searches. -/
def isSavedSearchOwnerCondition : SqlfQuery → Bool
  | .Sprintf format [.value (.int _)] =>
    decide (format = "user_id=%v") || decide (format = "org_id=%v")
  | _ => false

end Database

namespace Resolvers

open Errors Database

/-- The workflow store of workflows.go on the query store of the examples,
with the queries recorded. -/
def testListStore : WorkflowStore (TestDB × List SqlfQuery) (PaginationArgs Unit) :=
  workflowStore.toWorkflowStore testPagination ⟨testQueryStore.logged⟩

/-- The resolver of the examples for user 1, a site admin, on
`testListStore`. -/
def testListResolver :
    Resolver (TestDB × List SqlfQuery) Unit (PaginationArgs Unit) workflowsConnectionStore :=
  testResolver ⟨1, true⟩ testListStore

end Resolvers

namespace InsightsStore

/-- A Go slice that starts at the beginning of its backing array: the address
of the array, the length and the capacity. -/
structure Slice where
  array : Nat
  len : Nat
  cap : Nat
  deriving DecidableEq, Repr

/-- The memory slices live in: the backing arrays by address. -/
structure Memory (α : Type) where
  arrays : List (List α)

/-- The backing array at an address; empty where there is none. -/
def Memory.backing {α : Type} (mem : Memory α) (address : Nat) : List α :=
  (mem.arrays[address]?).getD []

/-- The elements of a slice. -/
def Memory.elements {α : Type} (mem : Memory α) (s : Slice) : List α :=
  (mem.backing s.array).take s.len

/-- The call `make([]T, n)`: a new array of `n` zero values at a new address,
and the slice of it. -/
def Memory.make {α : Type} (mem : Memory α) (zero : α) (n : Nat) : Memory α × Slice :=
  (⟨mem.arrays ++ [List.replicate n zero]⟩, ⟨mem.arrays.length, n, n⟩)

/-- The call `copy(dst, src)`: the first elements of `src`, as many as both
slices have, are written to the array of `dst`. -/
def Memory.copy {α : Type} (mem : Memory α) (dst src : Slice) : Memory α :=
  ⟨mem.arrays.set dst.array
    ((mem.elements src).take (min dst.len src.len)
      ++ (mem.backing dst.array).drop (min dst.len src.len))⟩

/-- The assignment `s[i] = v`; out of range it does not write (it panics). -/
def Memory.store {α : Type} (mem : Memory α) (s : Slice) (i : Nat) (v : α) : Memory α :=
  if i < s.len then ⟨mem.arrays.set s.array ((mem.backing s.array).set i v)⟩ else mem

/-- `History` of mocks_test.go on the memory of slices, `history` being the
slice in the field `f.history`: make a slice of the length of the history,
copy the history into it and return it. -/
def HistoryInMemory {α : Type} (mem : Memory α) (zero : α) (history : Slice) :
    Memory α × Slice :=
  let made := mem.make zero history.len
  (made.1.copy made.2 history, made.2)

/-- What `History` would be if it returned the slice of the field itself; it
is here for comparison only. -/
def HistoryShared {α : Type} (mem : Memory α) (history : Slice) : Memory α × Slice :=
  (mem, history)

/-- A memory for the examples: one array with the two records 1 and 2, and
the history slice of it. -/
def testMemory : Memory Nat := ⟨[[1, 2]]⟩

/-- The history slice of `testMemory`. -/
def testHistory : Slice := ⟨0, 2, 2⟩

end InsightsStore

/-! # Theorems -/

namespace Lsifstore

theorem space_ne_backtick : space ≠ backtick := by decide

theorem slash_ne_backtick : slash ≠ backtick := by decide

theorem endsQuoted_eq (q : Bool) (l : List Char) :
    endsQuoted q l = xor q (decide (l.count backtick % 2 = 1)) := by
  induction l generalizing q with
  | nil => simp [endsQuoted]
  | cons c cs ih =>
    by_cases hc : c = backtick
    · subst hc
      rw [endsQuoted, if_pos rfl, ih, List.count_cons_self]
      rcases Nat.mod_two_eq_zero_or_one (List.count backtick cs) with h | h
      · have h2 : (List.count backtick cs + 1) % 2 = 1 := by omega
        cases q <;> simp [h, h2]
      · have h2 : (List.count backtick cs + 1) % 2 = 0 := by omega
        cases q <;> simp [h, h2]
    · rw [endsQuoted, if_neg hc, ih, List.count_cons_of_ne (Ne.symm hc)]

theorem endsQuoted_false_iff (l : List Char) :
    endsQuoted false l = true ↔ unterminated l := by
  rw [endsQuoted_eq]; simp [unterminated]

theorem endsQuoted_append (q : Bool) (a b : List Char) :
    endsQuoted q (a ++ b) = endsQuoted (endsQuoted q a) b := by
  induction a generalizing q with
  | nil => simp [endsQuoted]
  | cons c cs ih => simp [endsQuoted, ih]

theorem topLevelCount_append (sep : Char) (q : Bool) (a b : List Char) :
    topLevelCount sep q (a ++ b) = topLevelCount sep q a + topLevelCount sep (endsQuoted q a) b := by
  induction a generalizing q with
  | nil => simp [topLevelCount, endsQuoted]
  | cons c cs ih =>
    rw [List.cons_append, topLevelCount, topLevelCount, endsQuoted]
    split_ifs with hc hs
    · exact ih _
    · rw [ih]; omega
    · exact ih _

/-- A field scan that reaches the end of the input: no top-level space was
seen, and the flag is the final quoting state. -/
theorem takeField_none {q : Bool} {l f : List Char} {b : Bool}
    (h : takeField q l = (f, none, b)) :
    b = endsQuoted q l ∧ topLevelCount space q l = 0 := by
  induction l generalizing q f with
  | nil => simp [takeField] at h; simp [endsQuoted, topLevelCount, h]
  | cons c cs ih =>
    rw [takeField] at h
    rw [endsQuoted, topLevelCount]
    split_ifs at h ⊢ with hc hs
    · simp only [Prod.mk.injEq] at h
      exact ih (q := !q) (f := (takeField (!q) cs).1) (by rw [← h.2.1, ← h.2.2])
    · simp at h
    · simp only [Prod.mk.injEq] at h
      exact ih (q := q) (f := (takeField q cs).1) (by rw [← h.2.1, ← h.2.2])

/-- A field scan that stops at a top-level space: the input is the field, the
space and the rest; the field is balanced and free of top-level spaces. -/
theorem takeField_some {q : Bool} {l f r : List Char} {b : Bool}
    (h : takeField q l = (f, some r, b)) :
    l = f ++ space :: r ∧ endsQuoted q f = false ∧ topLevelCount space q f = 0 := by
  induction l generalizing q f with
  | nil => simp [takeField] at h
  | cons c cs ih =>
    rw [takeField] at h
    split_ifs at h with hc hs
    · simp only [Prod.mk.injEq] at h
      have := ih (q := !q) (f := (takeField (!q) cs).1) (by rw [← h.2.1, ← h.2.2])
      rw [← h.1, endsQuoted, topLevelCount, if_pos hc, if_pos hc]
      exact ⟨by rw [List.cons_append, ← this.1], this.2⟩
    · simp only [Prod.mk.injEq, Option.some.injEq] at h
      rw [← h.1, ← h.2.1, hs.1]
      simp [endsQuoted, topLevelCount, hs.2]
    · simp only [Prod.mk.injEq] at h
      have := ih (q := q) (f := (takeField q cs).1) (by rw [← h.2.1, ← h.2.2])
      rw [← h.1, endsQuoted, topLevelCount, if_neg hc, if_neg hc, if_neg hs]
      exact ⟨by rw [List.cons_append, ← this.1], this.2⟩

/-- The scan recovers a balanced field without top-level spaces that is
followed by a space. -/
theorem takeField_append (q : Bool) (f r : List Char)
    (h1 : endsQuoted q f = false) (h2 : topLevelCount space q f = 0) :
    takeField q (f ++ space :: r) = (f, some r, false) := by
  induction f generalizing q with
  | nil =>
    simp only [endsQuoted] at h1
    simp [takeField, space_ne_backtick, h1]
  | cons c cs ih =>
    rw [endsQuoted] at h1
    rw [topLevelCount] at h2
    rw [List.cons_append, takeField]
    by_cases hc : c = backtick
    · rw [if_pos hc] at h1 h2 ⊢
      rw [ih _ h1 h2]
    · rw [if_neg hc] at h1 h2 ⊢
      by_cases hs : c = space ∧ q = false
      · rw [if_pos hs] at h2; omega
      · rw [if_neg hs] at h2 ⊢
        rw [ih _ h1 h2]

/-- What acceptance by the parser says about the input. -/
theorem parseChars_ok_inv {s : List Char} {p : ExplodedSymbol} (h : parseChars s = .ok p) :
    ∃ d, s = p.scheme ++ space :: (p.manager ++ space :: (p.packageName ++ space ::
        (p.packageVersion ++ space :: d)))
      ∧ (endsQuoted false p.scheme = false ∧ topLevelCount space false p.scheme = 0)
      ∧ (endsQuoted false p.manager = false ∧ topLevelCount space false p.manager = 0)
      ∧ (endsQuoted false p.packageName = false ∧ topLevelCount space false p.packageName = 0)
      ∧ (endsQuoted false p.packageVersion = false
          ∧ topLevelCount space false p.packageVersion = 0)
      ∧ endsQuoted false d = false
      ∧ splitDescriptor false d = (p.descriptorNamespace, p.descriptorSuffix) := by
  unfold parseChars at h
  rcases h1 : takeField false s with ⟨f1, _ | r1, b1⟩
  · simp [h1] at h
  rcases h2 : takeField false r1 with ⟨f2, _ | r2, b2⟩
  · simp [h1, h2] at h
  rcases h3 : takeField false r2 with ⟨f3, _ | r3, b3⟩
  · simp [h1, h2, h3] at h
  rcases h4 : takeField false r3 with ⟨f4, _ | d, b4⟩
  · simp [h1, h2, h3, h4] at h
  simp only [h1, h2, h3, h4] at h
  by_cases hq : endsQuoted false d = true
  · simp [hq] at h
  · simp only [hq, if_false, Except.ok.injEq, Bool.false_eq_true] at h
    subst h
    have e1 := takeField_some h1
    have e2 := takeField_some h2
    have e3 := takeField_some h3
    have e4 := takeField_some h4
    refine ⟨d, ?_, e1.2, e2.2, e3.2, e4.2, by simpa using hq, rfl⟩
    simp only
    rw [← e4.1, ← e3.1, ← e2.1, ← e1.1]

/-- The parser on a string assembled from four well-formed fields and a
balanced descriptor. -/
theorem parseChars_fields (f1 f2 f3 f4 d : List Char)
    (h1 : endsQuoted false f1 = false ∧ topLevelCount space false f1 = 0)
    (h2 : endsQuoted false f2 = false ∧ topLevelCount space false f2 = 0)
    (h3 : endsQuoted false f3 = false ∧ topLevelCount space false f3 = 0)
    (h4 : endsQuoted false f4 = false ∧ topLevelCount space false f4 = 0)
    (hd : endsQuoted false d = false) :
    parseChars (f1 ++ space :: (f2 ++ space :: (f3 ++ space :: (f4 ++ space :: d))))
      = .ok ⟨f1, f2, f3, f4, (splitDescriptor false d).1, (splitDescriptor false d).2⟩ := by
  unfold parseChars
  simp [takeField_append _ _ _ h1.1 h1.2, takeField_append _ _ _ h2.1 h2.2,
    takeField_append _ _ _ h3.1 h3.2, takeField_append _ _ _ h4.1 h4.2, hd]

/-- An accepted string has at least four top-level spaces and no unterminated
quote. -/
theorem parseChars_ok_counts {s : List Char} {p : ExplodedSymbol} (h : parseChars s = .ok p) :
    4 ≤ topLevelCount space false s ∧ ¬ unterminated s := by
  obtain ⟨d, hs, ⟨a1, b1⟩, ⟨a2, b2⟩, ⟨a3, b3⟩, ⟨a4, b4⟩, hd, _⟩ := parseChars_ok_inv h
  have hsp : ∀ (r : List Char), topLevelCount space false (space :: r)
      = topLevelCount space false r + 1 := by
    intro r; simp [topLevelCount, space_ne_backtick]
  have hq : ∀ (r : List Char), endsQuoted false (space :: r) = endsQuoted false r := by
    intro r; simp [endsQuoted, space_ne_backtick]
  constructor
  · rw [hs]
    simp only [topLevelCount_append, a1, a2, a3, a4, b1, b2, b3, b4, hsp]
    omega
  · rw [← endsQuoted_false_iff, hs]
    simp only [endsQuoted_append, a1, a2, a3, a4, hq, hd]
    simp

/-- A rejected string has fewer than four top-level spaces or an unterminated
quote. -/
theorem parseChars_error_counts {s : List Char} {e : ParseError} (h : parseChars s = .error e) :
    topLevelCount space false s < 4 ∨ unterminated s := by
  have hsp : ∀ (r : List Char), topLevelCount space false (space :: r)
      = topLevelCount space false r + 1 := by
    intro r; simp [topLevelCount, space_ne_backtick]
  have hq : ∀ (r : List Char), endsQuoted false (space :: r) = endsQuoted false r := by
    intro r; simp [endsQuoted, space_ne_backtick]
  by_cases hu : unterminated s
  · exact Or.inr hu
  left
  rw [← endsQuoted_false_iff] at hu
  unfold parseChars at h
  rcases h1 : takeField false s with ⟨f1, _ | r1, b1⟩
  · rw [(takeField_none h1).2]; omega
  obtain ⟨e1, a1, c1⟩ := takeField_some h1
  rw [e1, topLevelCount_append, a1, c1, hsp]
  rw [e1, endsQuoted_append, a1, hq] at hu
  rcases h2 : takeField false r1 with ⟨f2, _ | r2, b2⟩
  · rw [(takeField_none h2).2]; omega
  obtain ⟨e2, a2, c2⟩ := takeField_some h2
  rw [e2, topLevelCount_append, a2, c2, hsp]
  rw [e2, endsQuoted_append, a2, hq] at hu
  rcases h3 : takeField false r2 with ⟨f3, _ | r3, b3⟩
  · rw [(takeField_none h3).2]; omega
  obtain ⟨e3, a3, c3⟩ := takeField_some h3
  rw [e3, topLevelCount_append, a3, c3, hsp]
  rw [e3, endsQuoted_append, a3, hq] at hu
  rcases h4 : takeField false r3 with ⟨f4, _ | d, b4⟩
  · rw [(takeField_none h4).2]; omega
  obtain ⟨e4, a4, c4⟩ := takeField_some h4
  rw [e4, endsQuoted_append, a4, hq] at hu
  simp [h1, h2, h3, h4, hu] at h

/-- The two parts of a divided descriptor concatenate to the descriptor. -/
theorem splitDescriptor_append (q : Bool) (d : List Char) :
    (splitDescriptor q d).1 ++ (splitDescriptor q d).2 = d := by
  induction d generalizing q with
  | nil => simp [splitDescriptor]
  | cons c cs ih =>
    rw [splitDescriptor]
    have := ih (if c = backtick then !q else q)
    split_ifs at this ⊢ with h1 h2 h3 <;> simp_all

/-- The namespace is empty or ends at a slash outside quoting, and the suffix
has no slash outside quoting. -/
theorem splitDescriptor_spec (q : Bool) (d : List Char) :
    ((splitDescriptor q d).1 = [] ∨
      ∃ m, (splitDescriptor q d).1 = m ++ [slash] ∧ endsQuoted q m = false)
    ∧ topLevelCount slash (endsQuoted q (splitDescriptor q d).1) (splitDescriptor q d).2 = 0 := by
  induction d generalizing q with
  | nil => simp [splitDescriptor, topLevelCount]
  | cons c cs ih =>
    rw [splitDescriptor]
    by_cases hc : c = backtick
    · have hs : ¬ (c = slash ∧ q = false) := by
        rintro ⟨h, _⟩; exact slash_ne_backtick (h ▸ hc)
      obtain ⟨ih1, ih2⟩ := ih (!q)
      simp only [hc, if_true] at ih1 ih2 ⊢
      rw [hc] at hs
      by_cases hn : (splitDescriptor (!q) cs).1 = []
      · simp only [hn, ne_eq, not_true_eq_false, if_false, hs, true_or, true_and]
        rw [hn] at ih2
        simpa [endsQuoted, topLevelCount] using ih2
      · simp only [ne_eq, hn, not_false_eq_true, if_true]
        rcases ih1 with h | ⟨m, hm, hm2⟩
        · exact absurd h hn
        · refine ⟨Or.inr ⟨backtick :: m, by rw [hm]; rfl, by simpa [endsQuoted] using hm2⟩, ?_⟩
          simpa [endsQuoted] using ih2
    · obtain ⟨ih1, ih2⟩ := ih q
      simp only [hc, if_false] at ih1 ih2 ⊢
      by_cases hn : (splitDescriptor q cs).1 = []
      · simp only [hn, ne_eq, not_true_eq_false, if_false]
        rw [hn] at ih2
        simp only [endsQuoted] at ih2
        by_cases hs : c = slash ∧ q = false
        · obtain ⟨rfl, rfl⟩ := hs
          simp only [and_self, if_true]
          refine ⟨Or.inr ⟨[], by simp, by simp [endsQuoted]⟩, ?_⟩
          simpa [endsQuoted, hc] using ih2
        · simp only [hs, if_false, true_or, true_and, endsQuoted]
          rw [topLevelCount, if_neg hc, if_neg hs]
          exact ih2
      · simp only [ne_eq, hn, not_false_eq_true, if_true]
        rcases ih1 with h | ⟨m, hm, hm2⟩
        · exact absurd h hn
        · refine ⟨Or.inr ⟨c :: m, by rw [hm]; rfl, by simpa [endsQuoted, hc] using hm2⟩, ?_⟩
          simpa [endsQuoted, hc] using ih2

/-- A descriptor without any slash has the empty namespace. -/
theorem splitDescriptor_no_slash (q : Bool) (d : List Char) (h : slash ∉ d) :
    (splitDescriptor q d).1 = [] := by
  rcases (splitDescriptor_spec q d).1 with h1 | ⟨m, hm, _⟩
  · exact h1
  · exfalso
    apply h
    rw [← splitDescriptor_append q d, hm]
    simp

theorem cacheGet_cons_self (c : List (CacheKey × Int)) (k : CacheKey) (v : Int) :
    cacheGet ((k, v) :: c) k = some v := by
  simp [cacheGet]

theorem cacheGet_cons_ne (c : List (CacheKey × Int)) {k k' : CacheKey} (v : Int) (h : k' ≠ k) :
    cacheGet ((k', v) :: c) k = cacheGet c k := by
  simp [cacheGet, List.find?_cons, h]

theorem extends_refl (st : BuildState) : Extends st st :=
  ⟨fun _ _ h => h, List.prefix_refl _⟩

theorem extends_trans {a b c : BuildState} (h1 : Extends a b) (h2 : Extends b c) : Extends a c :=
  ⟨fun k id h => h2.cache_mono k id (h1.cache_mono k id h), h1.rows_kept.trans h2.rows_kept⟩

theorem buildInv_empty (alloc : Nat → Int) : BuildInv alloc BuildState.empty := by
  refine ⟨by simp [BuildState.empty], by simp [BuildState.empty], ?_, ?_⟩
  · intro k id h; simp [BuildState.empty, cacheGet] at h
  · intro pre r h; simp [BuildState.empty] at h

theorem chain_mono {c c' : List (CacheKey × Int)}
    (h : ∀ k id, cacheGet c k = some id → cacheGet c' k = some id) :
    ∀ (parent : Option Int) (segs : List Segment) (ids : List Int),
      Chain c parent segs ids → Chain c' parent segs ids
  | _, [], [], _ => trivial
  | _, [], _ :: _, hc => hc.elim
  | _, _ :: _, [], hc => hc.elim
  | _, _ :: segs, id :: ids, hc =>
    ⟨h _ _ hc.1, chain_mono h (some id) segs ids hc.2⟩

theorem chain_length_eq {c : List (CacheKey × Int)} :
    ∀ (parent : Option Int) (segs : List Segment) (ids : List Int),
      Chain c parent segs ids → ids.length = segs.length
  | _, [], [], _ => rfl
  | _, [], _ :: _, hc => hc.elim
  | _, _ :: _, [], hc => hc.elim
  | _, _ :: segs, id :: ids, hc => by
    simp [chain_length_eq (some id) segs ids hc.2]

theorem internSegment_hit (alloc : Nat → Int) (st : BuildState) (parent : Option Int)
    (seg : Segment) (id : Int)
    (h : cacheGet st.cache ⟨parent, seg.segmentType, seg.segmentQuality, seg.name⟩ = some id) :
    internSegment alloc st parent seg = (st, id) := by
  simp only [internSegment, h]

theorem internSegment_miss (alloc : Nat → Int) (st : BuildState) (parent : Option Int)
    (seg : Segment)
    (h : cacheGet st.cache ⟨parent, seg.segmentType, seg.segmentQuality, seg.name⟩ = none) :
    internSegment alloc st parent seg =
      (⟨(⟨parent, seg.segmentType, seg.segmentQuality, seg.name⟩, alloc st.calls) :: st.cache,
        st.rows ++ [⟨seg.segmentType, seg.segmentQuality, seg.name, alloc st.calls, parent⟩],
        st.calls + 1⟩, alloc st.calls) := by
  simp only [internSegment, h]

/-- One step of the walk keeps the invariant, caches the segment under its
parent and returns the id of a created node. -/
theorem internSegment_spec (alloc : Nat → Int)
    (st : BuildState) (parent : Option Int) (seg : Segment) (hinv : BuildInv alloc st)
    (hpar : ∀ p, parent = some p → ∃ r ∈ st.rows, r.id = p) :
    BuildInv alloc (internSegment alloc st parent seg).1
      ∧ Extends st (internSegment alloc st parent seg).1
      ∧ cacheGet (internSegment alloc st parent seg).1.cache
          ⟨parent, seg.segmentType, seg.segmentQuality, seg.name⟩
          = some (internSegment alloc st parent seg).2
      ∧ (∃ r ∈ (internSegment alloc st parent seg).1.rows,
          r.id = (internSegment alloc st parent seg).2) := by
  rcases hget : cacheGet st.cache ⟨parent, seg.segmentType, seg.segmentQuality, seg.name⟩
    with _ | id
  · rw [internSegment_miss alloc st parent seg hget]
    have hne : ∀ r ∈ st.rows,
        (⟨parent, seg.segmentType, seg.segmentQuality, seg.name⟩ : CacheKey) ≠ r.key := by
      intro r hr heq
      have := hinv.cache_of_row r hr
      rw [← heq, hget] at this
      exact Option.noConfusion this
    refine ⟨⟨?_, ?_, ?_, ?_⟩, ⟨?_, ?_⟩, cacheGet_cons_self _ _ _, ?_⟩
    · simp [List.range_succ, hinv.ids]
    · intro r hr
      simp only [List.mem_append, List.mem_singleton] at hr
      rcases hr with hr | rfl
      · rw [cacheGet_cons_ne _ _ (hne r hr)]
        exact hinv.cache_of_row r hr
      · exact cacheGet_cons_self _ _ _
    · intro k id hk
      by_cases hkk : (⟨parent, seg.segmentType, seg.segmentQuality, seg.name⟩ : CacheKey) = k
      · subst hkk
        rw [cacheGet_cons_self] at hk
        refine ⟨_, List.mem_append_right _ (List.mem_singleton_self _), rfl, ?_⟩
        simpa using hk
      · rw [cacheGet_cons_ne _ _ hkk] at hk
        obtain ⟨r, hr, h1, h2⟩ := hinv.row_of_cache k id hk
        exact ⟨r, List.mem_append_left _ hr, h1, h2⟩
    · intro pre r hpre p hp
      rw [ List.prefix_concat_iff] at hpre
      rcases hpre with heq | hpre
      · have h2 := List.append_inj' heq rfl
        obtain ⟨h3, h4⟩ := h2
        simp only [List.cons.injEq, and_true] at h4
        subst h4
        simp only at hp
        rw [h3]
        exact hpar p hp
      · exact hinv.parent_first pre r hpre p hp
    · intro k id hk
      by_cases hkk : (⟨parent, seg.segmentType, seg.segmentQuality, seg.name⟩ : CacheKey) = k
      · subst hkk; rw [hget] at hk; exact Option.noConfusion hk
      · rw [cacheGet_cons_ne _ _ hkk]; exact hk
    · exact List.prefix_append _ _
    · exact ⟨_, List.mem_append_right _ (List.mem_singleton_self _), rfl⟩
  · rw [internSegment_hit alloc st parent seg id hget]
    refine ⟨hinv, extends_refl st, hget, ?_⟩
    obtain ⟨r, hr, _, h2⟩ := hinv.row_of_cache _ _ hget
    exact ⟨r, hr, h2⟩

/-- The walk of a segment sequence keeps the invariant and leaves the whole
path in the cache. -/
theorem internPath_spec (alloc : Nat → Int) :
    ∀ (segs : List Segment) (st : BuildState) (parent : Option Int), BuildInv alloc st →
      (∀ p, parent = some p → ∃ r ∈ st.rows, r.id = p) →
      BuildInv alloc (internPath alloc st parent segs).1
        ∧ Extends st (internPath alloc st parent segs).1
        ∧ Chain (internPath alloc st parent segs).1.cache parent segs
            (internPath alloc st parent segs).2
  | [], st, parent, hinv, _ => ⟨hinv, extends_refl st, trivial⟩
  | seg :: rest, st, parent, hinv, hpar => by
    obtain ⟨h1, h2, h3, h4⟩ := internSegment_spec alloc st parent seg hinv hpar
    have hpar2 : ∀ p, some (internSegment alloc st parent seg).2 = some p →
        ∃ r ∈ (internSegment alloc st parent seg).1.rows, r.id = p := by
      intro p hp
      simp only [Option.some.injEq] at hp
      subst hp
      exact h4
    obtain ⟨k1, k2, k3⟩ := internPath_spec alloc rest (internSegment alloc st parent seg).1
      (some (internSegment alloc st parent seg).2) h1 hpar2
    rw [internPath]
    exact ⟨k1, extends_trans h2 k2, k2.cache_mono _ _ h3, k3⟩

theorem internSegment_quality (alloc : Nat → Int) (st : BuildState) (parent : Option Int)
    (seg : Segment) (hq : ∀ r ∈ st.rows, r.segmentQuality = none)
    (hs : seg.segmentQuality = none) :
    ∀ r ∈ (internSegment alloc st parent seg).1.rows, r.segmentQuality = none := by
  rcases hget : cacheGet st.cache ⟨parent, seg.segmentType, seg.segmentQuality, seg.name⟩
    with _ | id
  · rw [internSegment_miss alloc st parent seg hget]
    intro r hr
    simp only [List.mem_append, List.mem_singleton] at hr
    rcases hr with hr | rfl
    · exact hq r hr
    · exact hs
  · rw [internSegment_hit alloc st parent seg id hget]
    exact hq

theorem internPath_quality (alloc : Nat → Int) :
    ∀ (segs : List Segment) (st : BuildState) (parent : Option Int),
      (∀ r ∈ st.rows, r.segmentQuality = none) → (∀ seg ∈ segs, seg.segmentQuality = none) →
      ∀ r ∈ (internPath alloc st parent segs).1.rows, r.segmentQuality = none
  | [], _, _, hq, _ => hq
  | seg :: rest, st, parent, hq, hs => by
    rw [internPath]
    exact internPath_quality alloc rest _ _
      (internSegment_quality alloc st parent seg hq (hs seg (List.mem_cons_self _ _)))
      (fun s hm => hs s (List.mem_cons_of_mem _ hm))

theorem segments_quality (p : ExplodedSymbol) : ∀ seg ∈ p.segments, seg.segmentQuality = none := by
  intro seg h
  simp only [ExplodedSymbol.segments, List.mem_cons, List.mem_singleton] at h
  rcases h with rfl | rfl | rfl | rfl | rfl | rfl | h
  · rfl
  · rfl
  · rfl
  · rfl
  · rfl
  · rfl
  · simp at h

theorem lookupGet_set_self (l : List (String × explodedIDs)) (n : String) (v : explodedIDs) :
    lookupGet (lookupSet l n v) n = some v := by
  simp [lookupGet, lookupSet]

theorem find_filter_ne {n m : String} (h : n ≠ m) (l : List (String × explodedIDs)) :
    (l.filter (fun e => decide (e.1 ≠ n))).find? (fun e => decide (e.1 = m))
      = l.find? (fun e => decide (e.1 = m)) := by
  induction l with
  | nil => rfl
  | cons e es ih =>
    by_cases he : e.1 = n
    · have h1 : decide (e.1 ≠ n) = false := by simp [he]
      have h2 : decide (e.1 = m) = false := by simp [he, h]
      rw [List.filter_cons, List.find?_cons]
      simp only [h1, h2, Bool.false_eq_true, if_false]
      exact ih
    · have h1 : decide (e.1 ≠ n) = true := by simp [he]
      rw [List.filter_cons]
      simp only [h1, if_true]
      rw [List.find?_cons, List.find?_cons, ih]

theorem lookupGet_set_ne (l : List (String × explodedIDs)) {n m : String} (v : explodedIDs)
    (h : n ≠ m) : lookupGet (lookupSet l n v) m = lookupGet l m := by
  have h2 : decide (n = m) = false := by simp [h]
  unfold lookupGet lookupSet
  rw [List.find?_cons]
  simp only [h2]
  rw [find_filter_ne h]

theorem loopInv_empty (alloc : Nat → Int) : LoopInv alloc BuildState.empty [] := by
  refine ⟨buildInv_empty alloc, by simp [BuildState.empty], ?_⟩
  intro name e h
  simp [lookupGet] at h

/-- A successful loop keeps the invariant and gives every processed name an
entry. -/
theorem buildLoop_spec (alloc : Nat → Int) :
    ∀ (names : List String) (st : BuildState) (lookup : List (String × explodedIDs))
      (r : BuildState × List (String × explodedIDs)),
      LoopInv alloc st lookup → buildLoop alloc st lookup names = .ok r →
      LoopInv alloc r.1 r.2 ∧ Extends st r.1
        ∧ ∀ n, ((lookupGet lookup n).isSome ∨ n ∈ names) → (lookupGet r.2 n).isSome
  | [], st, lookup, r, hinv, h => by
    simp only [buildLoop, Except.ok.injEq] at h
    subst h
    refine ⟨hinv, extends_refl st, ?_⟩
    intro n hn
    rcases hn with hn | hn
    · exact hn
    · simp at hn
  | name :: rest, st, lookup, r, hinv, h => by
    rw [buildLoop] at h
    rcases hp : parseSymbol name with e | p
    · simp [hp] at h
    simp only [hp] at h
    obtain ⟨k1, k2, k3⟩ := internPath_spec alloc p.segments st none hinv.inv (by simp)
    have hlen := chain_length_eq _ _ _ k3
    have hq := internPath_quality alloc p.segments st none hinv.qnone (segments_quality p)
    rcases hl : (internPath alloc st none p.segments).2.getLast? with _ | leaf
    · rw [List.getLast?_eq_none_iff] at hl
      rw [hl] at hlen
      simp [ExplodedSymbol.segments] at hlen
    simp only [hl] at h
    have hinv2 : LoopInv alloc (internPath alloc st none p.segments).1
        (lookupSet lookup name ⟨leaf⟩) := by
      refine ⟨k1, hq, ?_⟩
      intro n e hn
      by_cases hnn : name = n
      · subst hnn
        rw [lookupGet_set_self] at hn
        simp only [Option.some.injEq] at hn
        subst hn
        exact ⟨p, _, hp, k3, hl⟩
      · rw [lookupGet_set_ne _ _ hnn] at hn
        obtain ⟨p', ids', a1, a2, a3⟩ := hinv.entries n e hn
        exact ⟨p', ids', a1, chain_mono k2.cache_mono _ _ _ a2, a3⟩
    obtain ⟨m1, m2, m3⟩ := buildLoop_spec alloc rest _ _ r hinv2 h
    refine ⟨m1, extends_trans k2 m2, ?_⟩
    intro n hn
    apply m3
    by_cases hnn : name = n
    · subst hnn
      left
      rw [lookupGet_set_self]; rfl
    · rw [lookupGet_set_ne _ _ hnn]
      rcases hn with hn | hn
      · exact Or.inl hn
      · simp only [List.mem_cons] at hn
        rcases hn with hn | hn
        · exact absurd hn.symm hnn
        · exact Or.inr hn

/-- The loop succeeds when every name is accepted by the parser. -/
theorem buildLoop_ok (alloc : Nat → Int) :
    ∀ (names : List String) (st : BuildState) (lookup : List (String × explodedIDs)),
      (∀ n ∈ names, ∃ p, parseSymbol n = .ok p) →
      ∃ r, buildLoop alloc st lookup names = .ok r
  | [], st, lookup, _ => ⟨(st, lookup), rfl⟩
  | name :: rest, st, lookup, h => by
    obtain ⟨p, hp⟩ := h name (List.mem_cons_self _ _)
    rw [buildLoop]
    simp only [hp]
    rcases (internPath alloc st none p.segments).2.getLast? with _ | leaf
    · exact buildLoop_ok alloc rest _ _ (fun n hn => h n (List.mem_cons_of_mem _ hn))
    · exact buildLoop_ok alloc rest _ _ (fun n hn => h n (List.mem_cons_of_mem _ hn))

/-- The loop fails, with the error of a name of the batch, when some name is
rejected by the parser. -/
theorem buildLoop_error (alloc : Nat → Int) :
    ∀ (names : List String) (st : BuildState) (lookup : List (String × explodedIDs)),
      (∃ n ∈ names, ∃ e, parseSymbol n = .error e) →
      ∃ e, buildLoop alloc st lookup names = .error e ∧ ∃ n ∈ names, parseSymbol n = .error e
  | [], _, _, h => by
    obtain ⟨n, hn, _⟩ := h
    simp at hn
  | name :: rest, st, lookup, h => by
    rw [buildLoop]
    rcases hp : parseSymbol name with e | p
    · exact ⟨e, rfl, name, List.mem_cons_self _ _, hp⟩
    · have h2 : ∃ n ∈ rest, ∃ e, parseSymbol n = .error e := by
        obtain ⟨n, hn, e, he⟩ := h
        simp only [List.mem_cons] at hn
        rcases hn with rfl | hn
        · rw [hp] at he; exact Except.noConfusion he
        · exact ⟨n, hn, e, he⟩
      simp only
      rcases (internPath alloc st none p.segments).2.getLast? with _ | leaf
      · obtain ⟨e, he, n, hn, hne⟩ := buildLoop_error alloc rest _ _ h2
        exact ⟨e, he, n, List.mem_cons_of_mem _ hn, hne⟩
      · obtain ⟨e, he, n, hn, hne⟩ := buildLoop_error alloc rest _ _ h2
        exact ⟨e, he, n, List.mem_cons_of_mem _ hn, hne⟩

theorem foldlM_recordRow (rows init : List DescriptorNode) :
    rows.foldlM (fun acc r => recordRow r acc) init = .ok (init ++ rows) := by
  induction rows generalizing init with
  | nil => rw [List.foldlM_nil, List.append_nil]; rfl
  | cons r rs ih =>
    rw [List.foldlM_cons]
    show (recordRow r init) >>= _ = _
    simp only [recordRow]
    show rs.foldlM (fun acc r => recordRow r acc) (init ++ [r]) = _
    rw [ih]; simp

/-- Driving the traverser with the recording callback yields the created rows
in creation order. -/
theorem emitted_eq_rows (t : SymbolLookupTable) : t.emitted = t.rows := by
  unfold SymbolLookupTable.emitted SymbolLookupTable.traverser
  rw [foldlM_recordRow]
  simp

theorem rowAt_of_mem (em : List DescriptorNode) (hnd : (em.map (fun r => r.id)).Nodup)
    (r : DescriptorNode) (hr : r ∈ em) : rowAt em r.id = r := by
  unfold rowAt
  generalize hf : List.find? _ em.reverse = o
  rcases o with _ | x
  · rw [List.find?_eq_none] at hf
    have := hf r (List.mem_reverse.mpr hr)
    simp at this
  · have hx := List.find?_some hf
    have hm := List.mem_reverse.mp (List.mem_of_find?_eq_some hf)
    simp only [decide_eq_true_eq] at hx
    show x = r
    exact List.inj_on_of_nodup_map hnd hm hr hx

theorem findFrom_eq_pathFrom (em : List DescriptorNode) :
    ∀ (fuel : Nat) (row : DescriptorNode) (acc : List DescriptorNode),
      findFrom em fuel row (acc.map (fun r => r.name))
        = (pathFrom em fuel row acc).map (List.map (fun r => r.name))
  | 0, _, _ => rfl
  | fuel + 1, row, acc => by
    rw [findFrom, pathFrom]
    rcases row.parentID with _ | p
    · rfl
    · exact findFrom_eq_pathFrom em fuel (rowAt em p) (row :: acc)

theorem pathFrom_succ (em : List DescriptorNode) (fuel : Nat) (row : DescriptorNode)
    (acc : List DescriptorNode) :
    pathFrom em (fuel + 1) row acc = continueFrom em row.parentID fuel (row :: acc) := by
  rw [pathFrom]
  unfold continueFrom
  rfl

/-- Walking up from the last id of a cached chain visits exactly the rows of
the chain. -/
theorem pathFrom_chain (cache : List (CacheKey × Int)) (em : List DescriptorNode)
    (hnd : (em.map (fun r => r.id)).Nodup)
    (hrow : ∀ k id, cacheGet cache k = some id → ∃ r ∈ em, r.key = k ∧ r.id = id) :
    ∀ (segs : List Segment) (parent : Option Int) (ids : List Int) (leaf : Int),
      Chain cache parent segs ids → ids.getLast? = some leaf →
      ∀ (fuel : Nat) (acc : List DescriptorNode), segs.length ≤ fuel →
        pathFrom em fuel (rowAt em leaf) acc
          = continueFrom em parent (fuel - segs.length) (chainRows parent segs ids ++ acc)
  | [], _, [], _, _, hl => by simp at hl
  | [], _, _ :: _, _, hc, _ => hc.elim
  | _ :: _, _, [], _, hc, _ => hc.elim
  | seg :: rest, parent, id :: ids, leaf, hc, hl => by
    intro fuel acc hfuel
    obtain ⟨r, hr, hk, hid⟩ := hrow _ _ hc.1
    have hreq : r = ⟨seg.segmentType, seg.segmentQuality, seg.name, id, parent⟩ := by
      cases r
      simp only [DescriptorNode.key, CacheKey.mk.injEq] at hk hid
      obtain ⟨rfl, rfl, rfl, rfl⟩ := hk
      subst hid
      rfl
    have hat : rowAt em id = ⟨seg.segmentType, seg.segmentQuality, seg.name, id, parent⟩ := by
      rw [← hreq, ← hid]
      exact rowAt_of_mem em hnd r hr
    simp only [List.length_cons] at hfuel
    rcases ids with _ | ⟨id2, ids2⟩
    · have hrest : rest = [] := by
        rcases rest with _ | ⟨s2, r2⟩
        · rfl
        · exact hc.2.elim
      subst hrest
      simp only [List.getLast?_singleton, Option.some.injEq] at hl
      subst hl
      obtain ⟨f, rfl⟩ : ∃ f, fuel = f + 1 := ⟨fuel - 1, by omega⟩
      rw [pathFrom_succ, hat]
      simp [chainRows]
    · have hl2 : (id2 :: ids2).getLast? = some leaf := by
        rw [← hl, List.getLast?_cons_cons]
      have hlen := chain_length_eq _ _ _ hc.2
      have ih := pathFrom_chain cache em hnd hrow rest (some id) (id2 :: ids2) leaf hc.2 hl2
        fuel acc (by omega)
      rw [ih]
      show pathFrom em (fuel - rest.length) (rowAt em id) _ = _
      obtain ⟨f, hf⟩ : ∃ f, fuel - rest.length = f + 1 := ⟨fuel - rest.length - 1, by omega⟩
      rw [hf, pathFrom_succ, hat]
      have hf2 : fuel - (seg :: rest).length = f := by
        simp only [List.length_cons]; omega
      rw [hf2]
      simp [chainRows]

theorem chainRows_names :
    ∀ (parent : Option Int) (segs : List Segment) (ids : List Int), ids.length = segs.length →
      (chainRows parent segs ids).map (fun r => r.name) = segs.map (fun s => s.name)
  | _, [], [], _ => rfl
  | _, [], _ :: _, h => by simp at h
  | _, _ :: _, [], h => by simp at h
  | _, seg :: segs, id :: ids, h => by
    simp only [chainRows, List.map_cons, List.cons.injEq, true_and]
    exact chainRows_names (some id) segs ids (by simpa using h)

theorem chainRows_ids :
    ∀ (parent : Option Int) (segs : List Segment) (ids : List Int), ids.length = segs.length →
      (chainRows parent segs ids).map (fun r => r.id) = ids
  | _, [], [], _ => rfl
  | _, [], _ :: _, h => by simp at h
  | _, _ :: _, [], h => by simp at h
  | _, seg :: segs, id :: ids, h => by
    simp only [chainRows, List.map_cons, List.cons.injEq, true_and]
    exact chainRows_ids (some id) segs ids (by simpa using h)

/-- What a successful build leaves behind. -/
theorem construct_spec (names : List String) (alloc : Nat → Int) (t : SymbolLookupTable)
    (h : constructSymbolLookupTable names alloc = .ok t) :
    ∃ st, LoopInv alloc st t.lookup ∧ t.rows = st.rows ∧ t.calls = st.calls
      ∧ ∀ n ∈ names, (lookupGet t.lookup n).isSome := by
  unfold constructSymbolLookupTable at h
  rcases hb : buildLoop alloc BuildState.empty [] names with e | r
  · simp [hb] at h
  · simp only [hb, Except.ok.injEq] at h
    subst h
    obtain ⟨h1, _, h3⟩ := buildLoop_spec alloc names _ _ r (loopInv_empty alloc) hb
    exact ⟨r.1, h1, rfl, rfl, fun n hn => h3 n (Or.inr hn)⟩

theorem construct_ok (names : List String) (alloc : Nat → Int)
    (h : ∀ n ∈ names, ∃ p, parseSymbol n = .ok p) :
    ∃ t, constructSymbolLookupTable names alloc = .ok t := by
  obtain ⟨r, hr⟩ := buildLoop_ok alloc names BuildState.empty [] h
  exact ⟨⟨r.2, r.1.rows, r.1.calls⟩, by simp [constructSymbolLookupTable, hr]⟩

theorem rows_nodup (alloc : Nat → Int) (hinj : Function.Injective alloc) (st : BuildState)
    (hinv : BuildInv alloc st) : (st.rows.map (fun r => r.id)).Nodup := by
  rw [hinv.ids]
  exact (List.nodup_range _).map hinj

/-- The path of a name of the batch: the lookup has an entry, and the walk
from its leaf returns the rows of the chain of the name's segments. -/
theorem pathOf_spec (names : List String) (alloc : Nat → Int) (hinj : Function.Injective alloc)
    (t : SymbolLookupTable) (h : constructSymbolLookupTable names alloc = .ok t)
    (n : String) (hn : n ∈ names) :
    ∃ st e p ids, LoopInv alloc st t.lookup ∧ t.rows = st.rows
      ∧ lookupGet t.lookup n = some e ∧ parseSymbol n = .ok p
      ∧ Chain st.cache none p.segments ids ∧ ids.getLast? = some e.descriptorSuffixID
      ∧ ∀ fuel, 6 ≤ fuel → pathOf t fuel n = some (chainRows none p.segments ids) := by
  obtain ⟨st, hli, hrows, _, hkeys⟩ := construct_spec names alloc t h
  obtain ⟨e, he⟩ := Option.isSome_iff_exists.mp (hkeys n hn)
  obtain ⟨p, ids, hp, hc, hl⟩ := hli.entries n e he
  refine ⟨st, e, p, ids, hli, hrows, he, hp, hc, hl, ?_⟩
  intro fuel hfuel
  have hem : t.emitted = st.rows := by rw [emitted_eq_rows, hrows]
  have hnd := rows_nodup alloc hinj st hli.inv
  have := pathFrom_chain st.cache st.rows hnd hli.inv.row_of_cache p.segments none ids
    e.descriptorSuffixID hc hl fuel [] (by simpa [ExplodedSymbol.segments] using hfuel)
  unfold pathOf
  rw [he, hem]
  simpa [continueFrom] using this

theorem counter_strictMono : StrictMono counter := by
  intro a b h
  simp only [counter]
  exact_mod_cast h

theorem isOk_iff {ε α : Type} (x : Except ε α) : x.isOk = true ↔ ∃ a, x = .ok a := by
  cases x <;> simp [Except.isOk, Except.toBool]

theorem chainRows_segments :
    ∀ (parent : Option Int) (segs : List Segment) (ids : List Int), ids.length = segs.length →
      (chainRows parent segs ids).map DescriptorNode.segment = segs
  | _, [], [], _ => rfl
  | _, [], _ :: _, h => by simp at h
  | _, _ :: _, [], h => by simp at h
  | _, seg :: segs, id :: ids, h => by
    simp only [chainRows, List.map_cons, List.cons.injEq, DescriptorNode.segment, true_and]
    exact chainRows_segments (some id) segs ids (by simpa using h)

theorem chain_take_eq {c : List (CacheKey × Int)} :
    ∀ (k : Nat) (parent : Option Int) (segs1 segs2 : List Segment) (ids1 ids2 : List Int),
      Chain c parent segs1 ids1 → Chain c parent segs2 ids2 →
      segs1.take k = segs2.take k → ids1.take k = ids2.take k
  | 0, _, _, _, _, _, _, _, _ => by simp
  | _ + 1, _, [], [], [], [], _, _, _ => rfl
  | _ + 1, _, [], _, _ :: _, _, h, _, _ => h.elim
  | _ + 1, _, _, [], _, _ :: _, _, h, _ => h.elim
  | _ + 1, _, _ :: _, _, [], _, h, _, _ => h.elim
  | _ + 1, _, _, _ :: _, _, [], _, h, _ => h.elim
  | _ + 1, _, [], _ :: _, [], _ :: _, _, _, ht => by simp at ht
  | _ + 1, _, _ :: _, [], _ :: _, [], _, _, ht => by simp at ht
  | k + 1, _, s1 :: r1, s2 :: r2, i1 :: j1, i2 :: j2, h1, h2, ht => by
    simp only [List.take_succ_cons, List.cons.injEq] at ht
    obtain ⟨hs, ht⟩ := ht
    subst hs
    have hi : i1 = i2 := by
      have := h1.1
      rw [h2.1] at this
      simpa using this.symm
    subst hi
    simp only [List.take_succ_cons, List.cons.injEq, true_and]
    exact chain_take_eq k (some i1) r1 r2 j1 j2 h1.2 h2.2 ht

theorem find_eq_pathOf (t : SymbolLookupTable) (fuel : Nat) (S : String) :
    find t fuel S = (pathOf t fuel S).map (List.map (fun r => r.name)) := by
  unfold find pathOf
  exact findFrom_eq_pathFrom t.emitted fuel _ []

/-- C1: for every list of accepted symbol names handed to
`constructSymbolLookupTable` (with a strictly increasing id allocator) the
build succeeds, and for every symbol name S of the list the lookup has an
entry for S; walking the emitted rows from the entry's leaf
(`descriptorSuffixID`) along the parentID links up to a row with nil parent
and reversing gives exactly the segment sequence the parser produces for S:
the names (the test's `find`), and also the full (type, quality, name)
triples. -/
theorem C1_lookup_path_is_parsed_segments (symbolNames : List String) (alloc : Nat → Int)
    (halloc : StrictMono alloc)
    (hacc : ∀ S ∈ symbolNames, (parseSymbol S).isOk = true) :
    ∃ t, constructSymbolLookupTable symbolNames alloc = .ok t ∧
      ∀ S ∈ symbolNames, ∃ e p, lookupGet t.lookup S = some e ∧ parseSymbol S = .ok p ∧
        (∃ r ∈ t.emitted, r.id = e.descriptorSuffixID) ∧
        ∀ fuel, p.segments.length ≤ fuel →
          find t fuel S = some (p.segments.map (fun s => s.name)) ∧
          (pathOf t fuel S).map (List.map DescriptorNode.segment) = some p.segments := by
  obtain ⟨t, ht⟩ := construct_ok symbolNames alloc
    (fun n hn => (isOk_iff _).mp (hacc n hn))
  refine ⟨t, ht, ?_⟩
  intro S hS
  obtain ⟨st, e, p, ids, hli, hrows, he, hp, hc, hl, hpath⟩ :=
    pathOf_spec symbolNames alloc halloc.injective t ht S hS
  have hlen := chain_length_eq _ _ _ hc
  refine ⟨e, p, he, hp, ?_, ?_⟩
  · rcases ids with _ | ⟨i1, _ | ⟨i2, _ | ⟨i3, _ | ⟨i4, _ | ⟨i5, _ | ⟨i6, _ | ⟨i7, r7⟩⟩⟩⟩⟩⟩⟩
      <;> simp [ExplodedSymbol.segments] at hlen
    simp only [ExplodedSymbol.segments, Chain] at hc
    simp only [List.getLast?_cons_cons, List.getLast?_singleton, Option.some.injEq] at hl
    obtain ⟨r, hr, _, hid⟩ := hli.inv.row_of_cache _ _ hc.2.2.2.2.2.1
    exact ⟨r, by rw [emitted_eq_rows, hrows]; exact hr, by rw [hid, hl]⟩
  · intro fuel hfuel
    have h6 : p.segments.length = 6 := rfl
    have := hpath fuel (by omega)
    rw [find_eq_pathOf, this]
    simp only [Option.map_some', Option.some.injEq]
    exact ⟨chainRows_names none _ _ hlen, chainRows_segments none _ _ hlen⟩

theorem C1_lookup_path_is_parsed_segments_witness :
    ∃ t, constructSymbolLookupTable testSymbolNames counter = .ok t ∧
      ∀ S ∈ testSymbolNames, ∃ e p, lookupGet t.lookup S = some e ∧ parseSymbol S = .ok p ∧
        (∃ r ∈ t.emitted, r.id = e.descriptorSuffixID) ∧
        ∀ fuel, p.segments.length ≤ fuel →
          find t fuel S = some (p.segments.map (fun s => s.name)) ∧
          (pathOf t fuel S).map (List.map DescriptorNode.segment) = some p.segments :=
  C1_lookup_path_is_parsed_segments testSymbolNames counter counter_strictMono (by decide)

theorem testTable_eq : constructSymbolLookupTable testSymbolNames counter = .ok testTable := by
  rfl

/-- The assertion of `TestConstructSymbolLookupTable`: `find` returns the
expected parts for each of the three symbol names. -/
theorem find_testTable :
    testSymbolNames.map (find testTable 6) =
      [ some ["node", "pnpm", "pkg1", "0.1.0", "", "foo.bar.ident#"],
        some ["node", "pnpm", "pkg1", "0.1.1", "bar/`types.ts`/baz/", "longerName#"],
        some ["node", "pnpm", "pkg2", "0.1.2", "", "baz.bonk.quux#"] ] := by
  rfl

/-- C2: for every accepted symbol name made of four well-formed fields and a
descriptor, separated by single spaces, the root-to-leaf path built by
`constructSymbolLookupTable` has exactly six nodes whose names are: scheme,
manager, package name, package version, descriptor namespace, descriptor
suffix.  Namespace and suffix concatenate to the descriptor; the namespace is
empty or ends at a slash outside backtick quoting; the suffix has no slash
outside quoting (so the namespace runs up to and including the last such
slash, quoted spans staying whole); and the namespace is empty, the suffix
being the whole descriptor, when the descriptor has no slash.  Dots do not
divide the suffix. -/
theorem C2_six_nodes_namespace_suffix (symbolNames : List String) (alloc : Nat → Int)
    (halloc : StrictMono alloc) (hacc : ∀ S ∈ symbolNames, (parseSymbol S).isOk = true)
    (scheme manager packageName packageVersion descriptor : List Char)
    (h1 : wellFormedField scheme) (h2 : wellFormedField manager)
    (h3 : wellFormedField packageName) (h4 : wellFormedField packageVersion)
    (hd : ¬ unterminated descriptor)
    (hS : String.mk (scheme ++ space :: (manager ++ space :: (packageName ++ space ::
      (packageVersion ++ space :: descriptor)))) ∈ symbolNames) :
    ∃ t ns suffix, constructSymbolLookupTable symbolNames alloc = .ok t ∧
      (∀ fuel, 6 ≤ fuel →
        find t fuel (String.mk (scheme ++ space :: (manager ++ space :: (packageName ++ space ::
          (packageVersion ++ space :: descriptor)))))
        = some [String.mk scheme, String.mk manager, String.mk packageName,
            String.mk packageVersion, String.mk ns, String.mk suffix]) ∧
      ns ++ suffix = descriptor ∧
      (ns = [] ∨ ∃ m, ns = m ++ [slash] ∧ ¬ unterminated m) ∧
      topLevelCount slash false suffix = 0 ∧
      (slash ∉ descriptor → ns = [] ∧ suffix = descriptor) := by
  have wf : ∀ f, wellFormedField f →
      endsQuoted false f = false ∧ topLevelCount space false f = 0 := by
    intro f hf
    refine ⟨?_, hf.2⟩
    have := (endsQuoted_false_iff f).not.mpr hf.1
    simpa using this
  have hdq : endsQuoted false descriptor = false := by
    have := (endsQuoted_false_iff descriptor).not.mpr hd
    simpa using this
  obtain ⟨t, ht⟩ := construct_ok symbolNames alloc
    (fun n hn => (isOk_iff _).mp (hacc n hn))
  obtain ⟨st, e, p, ids, hli, hrows, he, hp, hc, hl, hpath⟩ :=
    pathOf_spec symbolNames alloc halloc.injective t ht _ hS
  have hparse := parseChars_fields scheme manager packageName packageVersion descriptor
    (wf _ h1) (wf _ h2) (wf _ h3) (wf _ h4) hdq
  have hp2 : p = ⟨scheme, manager, packageName, packageVersion,
      (splitDescriptor false descriptor).1, (splitDescriptor false descriptor).2⟩ := by
    have : parseChars (scheme ++ space :: (manager ++ space :: (packageName ++ space ::
      (packageVersion ++ space :: descriptor)))) = .ok p := hp
    rw [hparse] at this
    simpa using this.symm
  have hlen := chain_length_eq _ _ _ hc
  obtain ⟨hsp1, hsp2⟩ := splitDescriptor_spec false descriptor
  refine ⟨t, (splitDescriptor false descriptor).1, (splitDescriptor false descriptor).2, ht,
    ?_, splitDescriptor_append false descriptor, ?_, ?_, ?_⟩
  · intro fuel hfuel
    rw [find_eq_pathOf, hpath fuel hfuel]
    simp only [Option.map_some', Option.some.injEq]
    rw [chainRows_names none _ _ hlen, hp2]
    rfl
  · rcases hsp1 with h | ⟨m, hm, hm2⟩
    · exact Or.inl h
    · refine Or.inr ⟨m, hm, ?_⟩
      rw [← endsQuoted_false_iff, hm2]
      simp
  · rcases hsp1 with h | ⟨m, hm, hm2⟩
    · rw [h] at hsp2
      simpa [endsQuoted] using hsp2
    · rw [hm, endsQuoted_append, hm2] at hsp2
      simpa [endsQuoted, slash_ne_backtick] using hsp2
  · intro hns
    have h0 := splitDescriptor_no_slash false descriptor hns
    refine ⟨h0, ?_⟩
    have := splitDescriptor_append false descriptor
    rw [h0] at this
    simpa using this

theorem C2_six_nodes_namespace_suffix_witness :
    ∃ t ns suffix, constructSymbolLookupTable testSymbolNames counter = .ok t ∧
      (∀ fuel, 6 ≤ fuel →
        find t fuel (String.mk ("node".data ++ space :: ("pnpm".data ++ space :: ("pkg1".data
          ++ space :: ("0.1.1".data ++ space :: "bar/`types.ts`/baz/longerName#".data)))))
        = some [String.mk "node".data, String.mk "pnpm".data, String.mk "pkg1".data,
            String.mk "0.1.1".data, String.mk ns, String.mk suffix]) ∧
      ns ++ suffix = "bar/`types.ts`/baz/longerName#".data ∧
      (ns = [] ∨ ∃ m, ns = m ++ [slash] ∧ ¬ unterminated m) ∧
      topLevelCount slash false suffix = 0 ∧
      (slash ∉ "bar/`types.ts`/baz/longerName#".data →
        ns = [] ∧ suffix = "bar/`types.ts`/baz/longerName#".data) :=
  C2_six_nodes_namespace_suffix testSymbolNames counter counter_strictMono (by decide)
    "node".data "pnpm".data "pkg1".data "0.1.1".data "bar/`types.ts`/baz/longerName#".data
    (by decide) (by decide) (by decide) (by decide) (by decide) (by decide)

theorem parent_first_index (l : List DescriptorNode)
    (h : ∀ (pre : List DescriptorNode) (r : DescriptorNode), pre ++ [r] <+: l →
      ∀ p, r.parentID = some p → ∃ r' ∈ pre, r'.id = p) :
    ∀ (i : Nat) (r : DescriptorNode) (p : Int), l[i]? = some r → r.parentID = some p →
      ∃ j r', j < i ∧ l[j]? = some r' ∧ r'.id = p := by
  intro i r p hi hp
  have hpre : l.take i ++ [r] <+: l := by
    have : l.take (i + 1) = l.take i ++ [r] := by
      rw [List.take_succ, hi]; rfl
    rw [← this]
    exact List.take_prefix _ _
  obtain ⟨r', hr', hid⟩ := h _ r hpre p hp
  obtain ⟨j, hj, hjr⟩ := List.mem_take_iff_getElem.mp hr'
  have hj1 : j < i := lt_of_lt_of_le hj (min_le_left _ _)
  have hj2 : j < l.length := lt_of_lt_of_le hj (min_le_right _ _)
  exact ⟨j, r', hj1, by rw [List.getElem?_eq_getElem hj2, hjr], hid⟩

theorem foldlM_ok {σ : Type} (g : DescriptorNode → σ → σ) (rows : List DescriptorNode)
    (init : σ) :
    rows.foldlM (fun acc r => (Except.ok (g r acc) : Except Unit σ)) init
      = .ok (rows.foldl (fun a r => g r a) init) := by
  induction rows generalizing init with
  | nil => rfl
  | cons r rs ih =>
    rw [List.foldlM_cons, List.foldl_cons]
    exact ih (g r init)

/-- C3: in the rows produced by one build of the descriptor tree (with a
strictly increasing id allocator) no two rows with different ids have the
same (parentID, segmentType, name) triple; and two symbol names of the batch
whose segment sequences agree on their first k segments have the same node
ids on the first k nodes of their root-to-leaf paths, in particular on the
first four when scheme, manager, package name and version agree. -/
theorem C3_no_duplicate_triple (symbolNames : List String) (alloc : Nat → Int)
    (halloc : StrictMono alloc) (t : SymbolLookupTable)
    (h : constructSymbolLookupTable symbolNames alloc = .ok t) :
    (∀ r1 ∈ t.emitted, ∀ r2 ∈ t.emitted, r1.parentID = r2.parentID →
        r1.segmentType = r2.segmentType → r1.name = r2.name → r1.id = r2.id)
    ∧ ∀ S1 ∈ symbolNames, ∀ S2 ∈ symbolNames, ∀ p1 p2,
        parseSymbol S1 = .ok p1 → parseSymbol S2 = .ok p2 → ∀ fuel, 6 ≤ fuel →
        ∃ path1 path2, pathOf t fuel S1 = some path1 ∧ pathOf t fuel S2 = some path2
          ∧ (∀ k, p1.segments.take k = p2.segments.take k →
              (path1.map (fun r => r.id)).take k = (path2.map (fun r => r.id)).take k)
          ∧ (p1.scheme = p2.scheme → p1.manager = p2.manager →
              p1.packageName = p2.packageName → p1.packageVersion = p2.packageVersion →
              (path1.map (fun r => r.id)).take 4 = (path2.map (fun r => r.id)).take 4) := by
  obtain ⟨st, hli, hrows, _, _⟩ := construct_spec symbolNames alloc t h
  have hem : t.emitted = st.rows := by rw [emitted_eq_rows, hrows]
  constructor
  · intro r1 hr1 r2 hr2 hp hty hn
    rw [hem] at hr1 hr2
    have hk : r1.key = r2.key := by
      simp only [DescriptorNode.key, CacheKey.mk.injEq]
      exact ⟨hp, hty, by rw [hli.qnone r1 hr1, hli.qnone r2 hr2], hn⟩
    have a1 := hli.inv.cache_of_row r1 hr1
    have a2 := hli.inv.cache_of_row r2 hr2
    rw [hk, a2] at a1
    simpa using a1.symm
  · intro S1 hS1 S2 hS2 p1 p2 hp1 hp2 fuel hfuel
    obtain ⟨st1, e1, q1, ids1, hli1, hrows1, he1, hq1, hc1, hl1, hpath1⟩ :=
      pathOf_spec symbolNames alloc halloc.injective t h S1 hS1
    obtain ⟨st2, e2, q2, ids2, hli2, hrows2, he2, hq2, hc2, hl2, hpath2⟩ :=
      pathOf_spec symbolNames alloc halloc.injective t h S2 hS2
    rw [hp1] at hq1
    rw [hp2] at hq2
    simp only [Except.ok.injEq] at hq1 hq2
    subst hq1 hq2
    have hlen1 := chain_length_eq _ _ _ hc1
    have hlen2 := chain_length_eq _ _ _ hc2
    -- both chains are read off the cache; the cache is determined by the rows
    have hcache : ∀ k id, cacheGet st1.cache k = some id → cacheGet st2.cache k = some id := by
      intro k id hk
      obtain ⟨r, hr, hrk, hrid⟩ := hli1.inv.row_of_cache k id hk
      rw [← hrows1, hrows2] at hr
      rw [← hrk, ← hrid]
      exact hli2.inv.cache_of_row r hr
    have hc1' := chain_mono hcache _ _ _ hc1
    have hgen : ∀ k, p1.segments.take k = p2.segments.take k →
        ((chainRows none p1.segments ids1).map (fun r => r.id)).take k
          = ((chainRows none p2.segments ids2).map (fun r => r.id)).take k := by
      intro k hk
      rw [chainRows_ids none _ _ hlen1, chainRows_ids none _ _ hlen2]
      exact chain_take_eq k none _ _ _ _ hc1' hc2 hk
    refine ⟨_, _, hpath1 fuel hfuel, hpath2 fuel hfuel, hgen, ?_⟩
    intro a1 a2 a3 a4
    apply hgen 4
    simp [ExplodedSymbol.segments, a1, a2, a3, a4]

theorem C3_no_duplicate_triple_witness :
    (∀ r1 ∈ testTable.emitted, ∀ r2 ∈ testTable.emitted, r1.parentID = r2.parentID →
        r1.segmentType = r2.segmentType → r1.name = r2.name → r1.id = r2.id)
    ∧ ∀ S1 ∈ testSymbolNames, ∀ S2 ∈ testSymbolNames, ∀ p1 p2,
        parseSymbol S1 = .ok p1 → parseSymbol S2 = .ok p2 → ∀ fuel, 6 ≤ fuel →
        ∃ path1 path2, pathOf testTable fuel S1 = some path1
          ∧ pathOf testTable fuel S2 = some path2
          ∧ (∀ k, p1.segments.take k = p2.segments.take k →
              (path1.map (fun r => r.id)).take k = (path2.map (fun r => r.id)).take k)
          ∧ (p1.scheme = p2.scheme → p1.manager = p2.manager →
              p1.packageName = p2.packageName → p1.packageVersion = p2.packageVersion →
              (path1.map (fun r => r.id)).take 4 = (path2.map (fun r => r.id)).take 4) :=
  C3_no_duplicate_triple testSymbolNames counter counter_strictMono testTable testTable_eq

/-- C4: driving the traverser returned by `constructSymbolLookupTable` (built
with a strictly increasing id allocator) invokes the callback once for each
id the allocator handed out, in that order: the emitted ids are exactly the
allocated ones, none twice and none missing, a callback that never fails is
folded over exactly these rows, and every row with a non-nil parentID comes
strictly after a row whose id is that parentID. -/
theorem C4_traverser_once_parent_first (symbolNames : List String) (alloc : Nat → Int)
    (halloc : StrictMono alloc) (t : SymbolLookupTable)
    (h : constructSymbolLookupTable symbolNames alloc = .ok t) :
    t.emitted.map (fun r => r.id) = (List.range t.calls).map alloc
    ∧ (t.emitted.map (fun r => r.id)).Nodup
    ∧ t.emitted.length = t.calls
    ∧ (∀ (σ : Type) (g : DescriptorNode → σ → σ) (init : σ),
        t.traverser (fun r a => (Except.ok (g r a) : Except Unit σ)) init
          = .ok (t.emitted.foldl (fun a r => g r a) init))
    ∧ ∀ (i : Nat) (r : DescriptorNode) (p : Int), t.emitted[i]? = some r →
        r.parentID = some p → ∃ j r', j < i ∧ t.emitted[j]? = some r' ∧ r'.id = p := by
  obtain ⟨st, hli, hrows, hcalls, _⟩ := construct_spec symbolNames alloc t h
  have hem : t.emitted = st.rows := by rw [emitted_eq_rows, hrows]
  have hids : t.emitted.map (fun r => r.id) = (List.range t.calls).map alloc := by
    rw [hem, hcalls]; exact hli.inv.ids
  refine ⟨hids, ?_, ?_, ?_, ?_⟩
  · rw [hem]; exact rows_nodup alloc halloc.injective st hli.inv
  · have := congrArg List.length hids
    simpa using this
  · intro σ g init
    rw [emitted_eq_rows]
    exact foldlM_ok g t.rows init
  · rw [hem]
    exact parent_first_index st.rows hli.inv.parent_first

theorem C4_traverser_once_parent_first_witness :
    testTable.emitted.map (fun r => r.id) = (List.range testTable.calls).map counter
    ∧ (testTable.emitted.map (fun r => r.id)).Nodup
    ∧ testTable.emitted.length = testTable.calls
    ∧ (∀ (σ : Type) (g : DescriptorNode → σ → σ) (init : σ),
        testTable.traverser (fun r a => (Except.ok (g r a) : Except Unit σ)) init
          = .ok (testTable.emitted.foldl (fun a r => g r a) init))
    ∧ ∀ (i : Nat) (r : DescriptorNode) (p : Int), testTable.emitted[i]? = some r →
        r.parentID = some p → ∃ j r', j < i ∧ testTable.emitted[j]? = some r' ∧ r'.id = p :=
  C4_traverser_once_parent_first testSymbolNames counter counter_strictMono testTable
    testTable_eq

/-- The parser rejects exactly the strings with fewer than four top-level
spaces (fewer than five fields) or with an unterminated quote. -/
theorem parseSymbol_error_iff (S : String) :
    (∃ e, parseSymbol S = .error e) ↔
      (topLevelCount space false S.data < 4 ∨ unterminated S.data) := by
  constructor
  · rintro ⟨e, he⟩
    exact parseChars_error_counts he
  · intro h
    rcases hp : parseSymbol S with e | p
    · exact ⟨e, rfl⟩
    · have := parseChars_ok_counts hp
      rcases h with h | h
      · omega
      · exact absurd h this.2

theorem applyOps_none (ops : List WriteOp) :
    ∀ (tx : Tx), tx.writeBudget = none →
      applyOps tx ops = (⟨ops.foldl applyOp tx.work, none⟩, true) := by
  induction ops with
  | nil => intro tx h; cases tx; simp only at h; subst h; rfl
  | cons op ops ih =>
    intro tx h
    rw [applyOps]
    simp only [h]
    rw [ih _ rfl]
    rfl

theorem Flush_parse_error (tx : Tx) (w : scipWriter) (e : ParseError)
    (h : constructSymbolLookupTable w.symbolNames (fun k => ((w.nextID + k : Nat) : Int))
      = .error e) :
    w.Flush tx = (tx, w, .error (Error.parse e)) := by
  simp only [scipWriter.Flush, h]

theorem Flush_ok (tx : Tx) (w : scipWriter) (t : SymbolLookupTable)
    (h : constructSymbolLookupTable w.symbolNames (fun k => ((w.nextID + k : Nat) : Int))
      = .ok t) (hb : tx.writeBudget = none) :
    w.Flush tx = (⟨(flushOps w t).foldl applyOp tx.work, none⟩,
      { w with batch := [], nextID := w.nextID + t.calls }, .ok w.symbolNames.length) := by
  simp only [scipWriter.Flush, h, applyOps_none _ tx hb, if_true]

theorem construct_error (names : List String) (alloc : Nat → Int)
    (h : ∃ n ∈ names, ∃ e, parseSymbol n = .error e) :
    ∃ e, constructSymbolLookupTable names alloc = .error e
      ∧ ∃ n ∈ names, parseSymbol n = .error e := by
  obtain ⟨e, he, hn⟩ := buildLoop_error alloc names BuildState.empty [] h
  exact ⟨e, by simp [constructSymbolLookupTable, he], hn⟩

/-- C8: a string with fewer than five top-level fields (fewer than four spaces
outside quoting) or with an unterminated backtick quote is rejected by the
parser; when such a string is among the symbol names of a batch the tree
build returns the parse error of a name of the batch and no table; and when
it is referenced by a staged occurrence `Flush` returns that parse error,
leaving the transaction and the writer as they were. -/
theorem C8_parse_error_fails_batch (S : String) (symbolNames : List String)
    (alloc : Nat → Int) (tx : Tx) (w : scipWriter)
    (hS : topLevelCount space false S.data < 4 ∨ unterminated S.data) :
    (∃ e, parseSymbol S = .error e)
    ∧ (S ∈ symbolNames → ∃ e, constructSymbolLookupTable symbolNames alloc = .error e
        ∧ ∃ S' ∈ symbolNames, parseSymbol S' = .error e)
    ∧ (S ∈ w.referencedSymbols → ∃ e, w.Flush tx = (tx, w, .error (Error.parse e))
        ∧ ∃ S' ∈ w.referencedSymbols, parseSymbol S' = .error e) := by
  have hfail := (parseSymbol_error_iff S).mpr hS
  refine ⟨hfail, ?_, ?_⟩
  · intro hmem
    exact construct_error symbolNames alloc ⟨S, hmem, hfail⟩
  · intro hmem
    have hmem2 : S ∈ w.symbolNames := by
      unfold scipWriter.symbolNames
      exact List.mem_dedup.mpr hmem
    obtain ⟨e, he, S', hS', hpe⟩ := construct_error w.symbolNames
      (fun k => ((w.nextID + k : Nat) : Int)) ⟨S, hmem2, hfail⟩
    refine ⟨e, Flush_parse_error tx w e he, S', ?_, hpe⟩
    unfold scipWriter.symbolNames at hS'
    exact List.mem_dedup.mp hS'

theorem C8_parse_error_fails_batch_witness :
    (∃ e, parseSymbol "node pnpm pkg1" = .error e)
    ∧ ("node pnpm pkg1" ∈ ["node pnpm pkg1 0.1.0 foo.bar.ident#", "node pnpm pkg1"] →
        ∃ e, constructSymbolLookupTable
            ["node pnpm pkg1 0.1.0 foo.bar.ident#", "node pnpm pkg1"] counter = .error e
          ∧ ∃ S' ∈ ["node pnpm pkg1 0.1.0 foo.bar.ident#", "node pnpm pkg1"],
              parseSymbol S' = .error e)
    ∧ ("node pnpm pkg1" ∈ badWriter.referencedSymbols →
        ∃ e, badWriter.Flush (Transact Store.empty none).tx
            = ((Transact Store.empty none).tx, badWriter, .error (Error.parse e))
          ∧ ∃ S' ∈ badWriter.referencedSymbols, parseSymbol S' = .error e) :=
  C8_parse_error_fails_batch "node pnpm pkg1"
    ["node pnpm pkg1 0.1.0 foo.bar.ident#", "node pnpm pkg1"] counter
    (Transact Store.empty none).tx badWriter (by decide)

theorem joinNames_segments (p : ExplodedSymbol) :
    joinNames (p.segments.map (fun s => s.name)) = String.mk p.join := by
  apply String.ext
  simp [joinNames, ExplodedSymbol.segments, ExplodedSymbol.join, String.data_append, space]

/-- C9: for every string the parser accepts, re-joining the names of the
parsed segments in order, with a space after each of the first four and
nothing between namespace and suffix, gives back the string. -/
theorem C9_parse_join_identity (S : String) (p : ExplodedSymbol)
    (h : parseSymbol S = .ok p) :
    joinNames (p.segments.map (fun s => s.name)) = S := by
  rw [joinNames_segments]
  obtain ⟨d, hs, _, _, _, _, _, hsplit⟩ := parseChars_ok_inv h
  apply String.ext
  show p.join = S.data
  rw [hs, ExplodedSymbol.join]
  have := splitDescriptor_append false d
  rw [hsplit] at this
  simp only at this
  rw [this]

theorem C9_parse_join_identity_witness :
    joinNames ((ExplodedSymbol.mk "node".data "pnpm".data "pkg1".data "0.1.1".data
        "bar/`types.ts`/baz/".data "longerName#".data).segments.map (fun s => s.name))
      = "node pnpm pkg1 0.1.1 bar/`types.ts`/baz/longerName#" :=
  C9_parse_join_identity "node pnpm pkg1 0.1.1 bar/`types.ts`/baz/longerName#"
    ⟨"node".data, "pnpm".data, "pkg1".data, "0.1.1".data, "bar/`types.ts`/baz/".data,
      "longerName#".data⟩ rfl

/-- C5: when every symbol name referenced by the staged occurrences is
accepted by the parser, a `Flush` that meets no storage failure returns the
number of distinct symbol names referenced by the staged occurrences (the
cardinality of their set, whatever the number of occurrences per name), and
any count `Flush` returns is that number; the only other outcome is the
storage error. -/
theorem C5_flush_returns_distinct_symbol_count (tx : Tx) (w : scipWriter)
    (hacc : ∀ S ∈ w.referencedSymbols, (parseSymbol S).isOk = true) :
    (tx.writeBudget = none → (w.Flush tx).2.2 = .ok w.referencedSymbols.toFinset.card)
    ∧ (∀ n, (w.Flush tx).2.2 = .ok n → n = w.referencedSymbols.toFinset.card)
    ∧ ((w.Flush tx).2.2 = .ok w.referencedSymbols.toFinset.card
        ∨ (w.Flush tx).2.2 = .error Error.storage) := by
  have hacc2 : ∀ n ∈ w.symbolNames, ∃ p, parseSymbol n = .ok p := by
    intro n hn
    unfold scipWriter.symbolNames at hn
    exact (isOk_iff _).mp (hacc n (List.mem_dedup.mp hn))
  obtain ⟨t, ht⟩ := construct_ok w.symbolNames (fun k => ((w.nextID + k : Nat) : Int)) hacc2
  have hcard : w.symbolNames.length = w.referencedSymbols.toFinset.card := by
    rw [List.card_toFinset]; rfl
  have hcases : (w.Flush tx).2.2 = .ok w.referencedSymbols.toFinset.card
      ∨ (w.Flush tx).2.2 = .error Error.storage := by
    simp only [scipWriter.Flush, ht]
    by_cases hb : (applyOps tx (flushOps w t)).2 = true
    · left; simp only [hb, if_true, hcard]
    · right; simp only [hb, if_false, Bool.false_eq_true]
  refine ⟨?_, ?_, hcases⟩
  · intro hb
    rw [Flush_ok tx w t ht hb, hcard]
  · intro n hn
    rcases hcases with h | h
    · rw [h] at hn; simpa using hn.symm
    · rw [h] at hn; exact Except.noConfusion hn

theorem C5_flush_returns_distinct_symbol_count_witness :
    ((Transact Store.empty none).tx.writeBudget = none →
      (symbolsWriter.Flush (Transact Store.empty none).tx).2.2
        = .ok symbolsWriter.referencedSymbols.toFinset.card)
    ∧ (∀ n, (symbolsWriter.Flush (Transact Store.empty none).tx).2.2 = .ok n →
        n = symbolsWriter.referencedSymbols.toFinset.card)
    ∧ ((symbolsWriter.Flush (Transact Store.empty none).tx).2.2
          = .ok symbolsWriter.referencedSymbols.toFinset.card
        ∨ (symbolsWriter.Flush (Transact Store.empty none).tx).2.2 = .error Error.storage) :=
  C5_flush_returns_distinct_symbol_count (Transact Store.empty none).tx symbolsWriter
    (by decide)

/-- The flush of `TestInsertDocumentWithSymbols`: five occurrences over three
distinct names, and `Flush` returns 3. -/
theorem flush_symbolsWriter :
    symbolsWriter.referencedSymbols.length = 5
    ∧ (symbolsWriter.Flush (Transact Store.empty none).tx).2.2 = .ok 3 := by
  constructor <;> rfl

/-- C10: `session.Done(err)` commits exactly when `err` is nil (the store
becomes the state the transaction worked on, nil is returned) and otherwise
rolls back (the store is the one the session began on, `err` is returned);
`WithTransaction(db, fn)` is `Done`, on the session begun on `db`, of the
error `fn` returned from its single run on the transactional handle, so it
returns the error of `fn` whenever `fn` returns one, leaving `db`
unchanged, and commits what `fn` wrote otherwise; the wrapper
`workflowStore.WithTransact` passes this on unchanged. -/
theorem C10_done_commits_iff_nil (db : Store) (budget : Option Nat) (s : Session)
    (err : Option Error) (fn : Tx → Tx × Option Error)
    (f : Database.workflowStore Tx → Tx × Option Error) :
    ((s.Done err).2.1 = Outcome.committed ↔ err = none)
    ∧ ((s.Done err).2.1 = Outcome.rolledBack ↔ err ≠ none)
    ∧ s.Done none = (s.tx.work, Outcome.committed, none)
    ∧ (∀ e, s.Done (some e) = (s.base, Outcome.rolledBack, some e))
    ∧ WithTransaction db budget fn
        = Session.Done ⟨db, (fn ⟨db, budget⟩).1⟩ (fn ⟨db, budget⟩).2
    ∧ (∀ e, (fn ⟨db, budget⟩).2 = some e →
        WithTransaction db budget fn = (db, Outcome.rolledBack, some e))
    ∧ ((fn ⟨db, budget⟩).2 = none →
        WithTransaction db budget fn = ((fn ⟨db, budget⟩).1.work, Outcome.committed, none))
    ∧ Database.workflowStore.WithTransact (WithTransaction db budget) f
        = Session.Done ⟨db, (f ⟨⟨db, budget⟩⟩).1⟩ (f ⟨⟨db, budget⟩⟩).2 := by
  refine ⟨?_, ?_, rfl, fun e => rfl, rfl, ?_, ?_, rfl⟩
  · cases err <;> simp [Session.Done]
  · cases err <;> simp [Session.Done]
  · intro e he
    simp only [WithTransaction, Transact, he, Session.Done]
  · intro he
    simp only [WithTransaction, Transact, he, Session.Done]

theorem foldl_applyOp_documents (ops : List WriteOp) :
    ∀ (st : Store), (ops.foldl applyOp st).codeintel_scip_documents
      = (ops.filterMap WriteOp.lookupRow).foldl (fun ds r => addDocument ds r.document)
          st.codeintel_scip_documents := by
  induction ops with
  | nil => intro st; rfl
  | cons op ops ih =>
    intro st
    rw [List.foldl_cons, ih]
    cases op <;> rfl

theorem foldl_applyOp_lookup (ops : List WriteOp) :
    ∀ (st : Store), (ops.foldl applyOp st).documentLookup
      = (ops.filterMap WriteOp.lookupRow).foldl setLookupRow st.documentLookup := by
  induction ops with
  | nil => intro st; rfl
  | cons op ops ih =>
    intro st
    rw [List.foldl_cons, ih]
    cases op <;> rfl

theorem flushOps_lookupRows (w : scipWriter) (t : SymbolLookupTable) :
    (flushOps w t).filterMap WriteOp.lookupRow
      = w.batch.map (fun e => (⟨w.uploadID, e.1, e.2⟩ : DocumentLookupRow)) := by
  unfold flushOps
  rw [List.filterMap_append, List.filterMap_append]
  have h1 : (t.emitted.map (fun r => WriteOp.symbol ⟨w.uploadID, r⟩)).filterMap
      WriteOp.lookupRow = [] := by
    rw [List.filterMap_eq_nil_iff]
    intro a ha
    obtain ⟨r, _, rfl⟩ := List.mem_map.mp ha
    rfl
  have h3 : (w.batch.flatMap (fun e => e.2.occurrences.map (fun o =>
        WriteOp.occurrence ⟨w.uploadID, e.1, o.range,
          ((lookupGet t.lookup o.symbol).getD ⟨0⟩).descriptorSuffixID,
          o.symbolRoles⟩))).filterMap WriteOp.lookupRow = [] := by
    rw [List.filterMap_eq_nil_iff]
    intro a ha
    obtain ⟨e, _, he⟩ := List.mem_flatMap.mp ha
    obtain ⟨o, _, rfl⟩ := List.mem_map.mp he
    rfl
  have h2 : ∀ (l : List (String × Document)),
      (l.map (fun e => WriteOp.document w.uploadID e.1 e.2)).filterMap WriteOp.lookupRow
        = l.map (fun e => (⟨w.uploadID, e.1, e.2⟩ : DocumentLookupRow)) := by
    intro l
    induction l with
    | nil => rfl
    | cons e es ih => simp only [List.map_cons, List.filterMap_cons, WriteOp.lookupRow, ih]
  rw [h1, h3, h2]
  simp

/-- Staging documents with pairwise distinct paths keeps all of them, in
order. -/
theorem batch_of_inserts (docs : List (String × Document)) :
    ∀ (w : scipWriter), (∀ e ∈ w.batch, e.1 ∉ docs.map (fun d => d.1)) →
      (docs.map (fun d => d.1)).Nodup →
      docs.foldl (fun w e => w.InsertDocument e.1 e.2) w
        = { w with batch := w.batch ++ docs } := by
  induction docs with
  | nil => intro w _ _; simp
  | cons d ds ih =>
    intro w hw hnd
    rw [List.foldl_cons]
    have hfilter : w.batch.filter (fun e => decide (e.1 ≠ d.1)) = w.batch := by
      rw [List.filter_eq_self]
      intro e he
      have := hw e he
      simp only [List.map_cons, List.mem_cons, not_or] at this
      simpa using this.1
    have hins : w.InsertDocument d.1 d.2 = { w with batch := w.batch ++ [d] } := by
      simp only [scipWriter.InsertDocument, hfilter]
    rw [hins]
    simp only [List.map_cons, List.nodup_cons] at hnd
    rw [ih _ ?_ hnd.2]
    · simp
    · intro e he
      simp only [List.mem_append, List.mem_singleton] at he
      rcases he with he | rfl
      · have := hw e he
        simp only [List.map_cons, List.mem_cons, not_or] at this
        exact this.2
      · exact hnd.1

/-- What one upload with accepted symbol names and pairwise distinct paths
leaves in the document tables. -/
theorem runUpload_effect (db : Store) (u : Int) (docs : List (String × Document))
    (hacc : ∀ S ∈ docs.flatMap (fun e => e.2.occurrences.map (fun o => o.symbol)),
      (parseSymbol S).isOk = true)
    (hnd : (docs.map (fun d => d.1)).Nodup) :
    (runUpload db (u, docs)).codeintel_scip_documents
        = (docs.map (fun e => (⟨u, e.1, e.2⟩ : DocumentLookupRow))).foldl
            (fun ds r => addDocument ds r.document) db.codeintel_scip_documents
    ∧ (runUpload db (u, docs)).documentLookup
        = (docs.map (fun e => (⟨u, e.1, e.2⟩ : DocumentLookupRow))).foldl
            setLookupRow db.documentLookup := by
  have hw : docs.foldl (fun w e => w.InsertDocument e.1 e.2) (NewSCIPWriter u)
      = ⟨u, docs, 0⟩ := by
    rw [batch_of_inserts docs (NewSCIPWriter u) (by simp [NewSCIPWriter]) hnd]
    simp [NewSCIPWriter]
  have hacc2 : ∀ n ∈ (⟨u, docs, 0⟩ : scipWriter).symbolNames, ∃ p, parseSymbol n = .ok p := by
    intro n hn
    unfold scipWriter.symbolNames at hn
    exact (isOk_iff _).mp (hacc n (List.mem_dedup.mp hn))
  obtain ⟨t, ht⟩ := construct_ok _ (fun k => (((⟨u, docs, 0⟩ : scipWriter).nextID + k : Nat) : Int))
    hacc2
  have hflush := Flush_ok ⟨db, none⟩ ⟨u, docs, 0⟩ t ht rfl
  unfold runUpload
  simp only [hw, Transact, hflush, errOf, Session.Done]
  rw [foldl_applyOp_documents, foldl_applyOp_lookup, flushOps_lookupRows]
  exact ⟨rfl, rfl⟩

theorem runUploads_effect (us : List (Int × List (String × Document))) :
    ∀ (db : Store), (∀ S ∈ stagedSymbols us, (parseSymbol S).isOk = true) →
      (∀ u ∈ us, (u.2.map (fun d => d.1)).Nodup) →
      (runUploads db us).codeintel_scip_documents
          = (stagedLookupRows us).foldl (fun ds r => addDocument ds r.document)
              db.codeintel_scip_documents
      ∧ (runUploads db us).documentLookup
          = (stagedLookupRows us).foldl setLookupRow db.documentLookup := by
  induction us with
  | nil => intro db _ _; exact ⟨rfl, rfl⟩
  | cons u rest ih =>
    intro db hacc hnd
    obtain ⟨uid, docs⟩ := u
    have hacc1 : ∀ S ∈ docs.flatMap (fun e => e.2.occurrences.map (fun o => o.symbol)),
        (parseSymbol S).isOk = true := by
      intro S hS
      apply hacc
      simp only [stagedSymbols, List.flatMap_cons, List.mem_append]
      exact Or.inl hS
    have hacc2 : ∀ S ∈ stagedSymbols rest, (parseSymbol S).isOk = true := by
      intro S hS
      apply hacc
      simp only [stagedSymbols, List.flatMap_cons, List.mem_append]
      exact Or.inr hS
    obtain ⟨e1, e2⟩ := runUpload_effect db uid docs hacc1 (hnd _ (List.mem_cons_self _ _))
    obtain ⟨k1, k2⟩ := ih (runUpload db (uid, docs)) hacc2
      (fun u hu => hnd u (List.mem_cons_of_mem _ hu))
    have hr : runUploads db ((uid, docs) :: rest) = runUploads (runUpload db (uid, docs)) rest :=
      rfl
    rw [hr, k1, k2, e1, e2]
    have hs : stagedLookupRows ((uid, docs) :: rest)
        = docs.map (fun e => (⟨uid, e.1, e.2⟩ : DocumentLookupRow)) ++ stagedLookupRows rest := by
      simp only [stagedLookupRows, List.flatMap_cons]
    rw [hs, List.foldl_append, List.foldl_append]
    exact ⟨rfl, rfl⟩

theorem foldl_addDocument_spec (ds : List Document) :
    ∀ (S : List Document), S.Nodup →
      (ds.foldl addDocument S).Nodup ∧ ∀ d, d ∈ ds.foldl addDocument S ↔ d ∈ S ∨ d ∈ ds := by
  induction ds with
  | nil => intro S hS; simp [hS]
  | cons x xs ih =>
    intro S hS
    rw [List.foldl_cons]
    by_cases hx : x ∈ S
    · have hadd : addDocument S x = S := by simp [addDocument, hx]
      rw [hadd]
      obtain ⟨a, b⟩ := ih S hS
      refine ⟨a, ?_⟩
      intro d
      rw [b, List.mem_cons]
      constructor
      · rintro (h | h)
        · exact Or.inl h
        · exact Or.inr (Or.inr h)
      · rintro (h | h | h)
        · exact Or.inl h
        · exact Or.inl (h ▸ hx)
        · exact Or.inr h
    · have hadd : addDocument S x = S ++ [x] := by simp [addDocument, hx]
      rw [hadd]
      have hS2 : (S ++ [x]).Nodup := by
        rw [List.nodup_append]
        refine ⟨hS, List.nodup_singleton x, ?_⟩
        intro a ha hb
        simp only [List.mem_singleton] at hb
        exact hx (hb ▸ ha)
      obtain ⟨a, b⟩ := ih (S ++ [x]) hS2
      refine ⟨a, ?_⟩
      intro d
      rw [b, List.mem_cons, List.mem_append, List.mem_singleton]
      tauto

theorem foldl_setLookupRow_nodup (rows : List DocumentLookupRow) :
    ∀ (S : List DocumentLookupRow),
      ((S ++ rows).map (fun r => (r.uploadID, r.path))).Nodup →
      rows.foldl setLookupRow S = S ++ rows := by
  induction rows with
  | nil => intro S _; simp
  | cons r rs ih =>
    intro S hnd
    rw [List.foldl_cons]
    have hset : setLookupRow S r = S ++ [r] := by
      unfold setLookupRow
      congr 1
      rw [List.filter_eq_self]
      intro x hx
      simp only [decide_eq_true_eq]
      intro hk
      rw [List.map_append, List.nodup_append] at hnd
      exact hnd.2.2 (List.mem_map.mpr ⟨x, hx, by rw [hk.1, hk.2]⟩)
        (List.mem_map.mpr ⟨r, List.mem_cons_self _ _, rfl⟩)
    rw [hset, ih (S ++ [r]) (by simpa using hnd)]
    simp

theorem stagedKeys_eq (us : List (Int × List (String × Document))) :
    (stagedLookupRows us).map (fun r => (r.uploadID, r.path)) = stagedKeys us := by
  simp only [stagedLookupRows, stagedKeys, List.map_flatMap, List.map_map]
  rfl

theorem stagedDocuments_eq (us : List (Int × List (String × Document))) :
    (stagedLookupRows us).map (fun r => r.document) = stagedDocuments us := by
  simp only [stagedLookupRows, stagedDocuments, List.map_flatMap, List.map_map]
  rfl

theorem paths_nodup_of_keys (us : List (Int × List (String × Document)))
    (h : (stagedKeys us).Nodup) : ∀ u ∈ us, (u.2.map (fun d => d.1)).Nodup := by
  intro u hu
  unfold stagedKeys at h
  have h1 := (List.nodup_flatMap.mp h).1 u hu
  have h2 : u.2.map (fun e => (u.1, e.1)) = (u.2.map (fun d => d.1)).map (fun p => (u.1, p)) := by
    rw [List.map_map]; rfl
  rw [h2] at h1
  exact h1.of_map _

/-- The transcription of the test body and the run of its two uploads are the
same store. -/
theorem sharedDocumentsRun_eq : runUploads Store.empty sharedDocumentsRun = sharedDocumentsScenario := by
  rfl

/-- The count `TestInsertSharedDocumentsConcurrently` asserts: two rows in
`codeintel_scip_documents` after three staged documents. -/
theorem sharedDocumentsScenario_count :
    sharedDocumentsScenario.codeintel_scip_documents.length = 2 := by
  rfl

/-- C6 (as stated, refuted): two uploads, 24 and 25, each with its own session
and writer, each inserting the same document at `internal/util.go`, each
flushed and committed, do not leave two rows in `codeintel_scip_documents`:
they leave one. -/
theorem C6_counterexample :
    ¬ ((runUploads Store.empty identicalDocumentRun).codeintel_scip_documents.length = 2)
    ∧ (runUploads Store.empty identicalDocumentRun).codeintel_scip_documents.length = 1 := by
  decide

/-- C6 (amended): two independent writers under two independent sessions with
different upload ids, each inserting a document at the identical path with
identical content, each flushed and committed independently, leave one row
in `codeintel_scip_documents`, shared by both uploads, and two lookup rows,
one per uploadID, both holding that document. -/
theorem C6_identical_documents_share_one_row (u1 u2 : Int) (path : String) (doc : Document)
    (hne : u1 ≠ u2)
    (hacc : ∀ o ∈ doc.occurrences, (parseSymbol o.symbol).isOk = true) :
    (runUploads Store.empty [(u1, [(path, doc)]), (u2, [(path, doc)])]).codeintel_scip_documents
        = [doc]
    ∧ (runUploads Store.empty [(u1, [(path, doc)]), (u2, [(path, doc)])]).documentLookup
        = [⟨u1, path, doc⟩, ⟨u2, path, doc⟩] := by
  have hacc2 : ∀ S ∈ stagedSymbols [(u1, [(path, doc)]), (u2, [(path, doc)])],
      (parseSymbol S).isOk = true := by
    intro S hS
    simp only [stagedSymbols, List.flatMap_cons, List.flatMap_nil, List.append_nil,
      List.mem_append, or_self, List.mem_map] at hS
    obtain ⟨o, ho, rfl⟩ := hS
    exact hacc o ho
  obtain ⟨h1, h2⟩ := runUploads_effect [(u1, [(path, doc)]), (u2, [(path, doc)])] Store.empty
    hacc2 (by intro u hu; simp at hu; rcases hu with rfl | rfl <;> simp)
  rw [h1, h2]
  constructor
  · simp [stagedLookupRows, addDocument, Store.empty]
  · simp [stagedLookupRows, setLookupRow, Store.empty, hne]

theorem C6_identical_documents_share_one_row_witness :
    (runUploads Store.empty [(24, [("internal/util.go", loremDocument)]),
        (25, [("internal/util.go", loremDocument)])]).codeintel_scip_documents
        = [loremDocument]
    ∧ (runUploads Store.empty [(24, [("internal/util.go", loremDocument)]),
        (25, [("internal/util.go", loremDocument)])]).documentLookup
        = [⟨24, "internal/util.go", loremDocument⟩, ⟨25, "internal/util.go", loremDocument⟩] :=
  C6_identical_documents_share_one_row 24 25 "internal/util.go" loremDocument (by decide)
    (by decide)

/-- C7 (as stated, refuted): in the run of `TestInsertSharedDocumentsConcurrently`
the three staged documents have pairwise distinct (uploadID, path) keys, all
flushes succeed and are committed, and `codeintel_scip_documents` holds two
rows, not three. -/
theorem C7_counterexample :
    (stagedKeys sharedDocumentsRun).Nodup
    ∧ (stagedDocuments sharedDocumentsRun).length = 3
    ∧ ¬ ((runUploads Store.empty sharedDocumentsRun).codeintel_scip_documents.length
          = (stagedDocuments sharedDocumentsRun).length)
    ∧ (runUploads Store.empty sharedDocumentsRun).codeintel_scip_documents.length = 2 := by
  decide

/-- C7 (amended): after a sequence of InsertDocument calls with pairwise
distinct (uploadID, path) keys, each upload flushed successfully and
committed, on a store that was empty before, `codeintel_scip_documents` holds
one row per distinct document content among the staged documents (no content
twice, every staged content present), and the lookup holds exactly one row
per staged document, keyed by (uploadID, path). -/
theorem C7_one_row_per_distinct_content (us : List (Int × List (String × Document)))
    (hacc : ∀ S ∈ stagedSymbols us, (parseSymbol S).isOk = true)
    (hkeys : (stagedKeys us).Nodup) :
    (runUploads Store.empty us).codeintel_scip_documents.length
        = (stagedDocuments us).toFinset.card
    ∧ (runUploads Store.empty us).codeintel_scip_documents.Nodup
    ∧ (∀ d, d ∈ (runUploads Store.empty us).codeintel_scip_documents ↔ d ∈ stagedDocuments us)
    ∧ (runUploads Store.empty us).documentLookup = stagedLookupRows us
    ∧ (runUploads Store.empty us).documentLookup.length = (stagedDocuments us).length := by
  obtain ⟨h1, h2⟩ := runUploads_effect us Store.empty hacc (paths_nodup_of_keys us hkeys)
  have hfold : (stagedLookupRows us).foldl (fun ds r => addDocument ds r.document) []
      = (stagedDocuments us).foldl addDocument [] := by
    rw [← stagedDocuments_eq, List.foldl_map]
  have hd : (runUploads Store.empty us).codeintel_scip_documents
      = (stagedDocuments us).foldl addDocument [] := by
    rw [h1]; exact hfold
  obtain ⟨a, b⟩ := foldl_addDocument_spec (stagedDocuments us) [] List.nodup_nil
  have hl : (runUploads Store.empty us).documentLookup = stagedLookupRows us := by
    rw [h2]
    have := foldl_setLookupRow_nodup (stagedLookupRows us) []
      (by rw [List.nil_append, stagedKeys_eq]; exact hkeys)
    simpa [Store.empty] using this
  refine ⟨?_, ?_, ?_, hl, ?_⟩
  · rw [hd, ← List.toFinset_card_of_nodup a]
    congr 1
    ext d
    simp only [List.mem_toFinset]
    rw [b]
    simp
  · rw [hd]; exact a
  · intro d
    rw [hd, b]
    simp
  · rw [hl, ← stagedDocuments_eq, List.length_map]

theorem C7_one_row_per_distinct_content_witness :
    (runUploads Store.empty sharedDocumentsRun).codeintel_scip_documents.length
        = (stagedDocuments sharedDocumentsRun).toFinset.card
    ∧ (runUploads Store.empty sharedDocumentsRun).codeintel_scip_documents.Nodup
    ∧ (∀ d, d ∈ (runUploads Store.empty sharedDocumentsRun).codeintel_scip_documents
        ↔ d ∈ stagedDocuments sharedDocumentsRun)
    ∧ (runUploads Store.empty sharedDocumentsRun).documentLookup
        = stagedLookupRows sharedDocumentsRun
    ∧ (runUploads Store.empty sharedDocumentsRun).documentLookup.length
        = (stagedDocuments sharedDocumentsRun).length :=
  C7_one_row_per_distinct_content sharedDocumentsRun (by decide) (by decide)

end Lsifstore

namespace Lsifstore

/-! ## Theorems: atomicity of a failed flush -/

/-- Row writes under a budget smaller than their number: the first `n` are
applied and the store then fails. -/
theorem applyOps_exhausted (ops : List WriteOp) :
    ∀ (n : Nat) (work : Store), n < ops.length →
      applyOps ⟨work, some n⟩ ops = (⟨(ops.take n).foldl applyOp work, some 0⟩, false) := by
  induction ops with
  | nil => intro n work h; simp at h
  | cons op ops ih =>
    intro n work h
    cases n with
    | zero => rfl
    | succ k =>
      rw [applyOps]
      simp only
      rw [ih k _ (by simpa using h)]
      rfl

/-- C11: if `Flush` fails (with any error, after any number of row writes) and
the session is then ended with `Done(err)` for that error, the store visible
afterwards is the store the session began on, whatever the flush had written
inside the transaction, so no document, occurrence or descriptor row of the
attempt is present; the same holds when the flush runs inside
`WithTransaction`.  When the failure is a storage failure after `n` row
writes, the transaction had really applied the first `n` writes of the
flush. -/
theorem C11_failed_flush_rolled_back (db : Store) (budget : Option Nat) (w : scipWriter)
    (e : Error) (h : (w.Flush (Transact db budget).tx).2.2 = .error e) :
    Session.Done ⟨(Transact db budget).base, (w.Flush (Transact db budget).tx).1⟩ (some e)
        = (db, Outcome.rolledBack, some e)
    ∧ WithTransaction db budget (fun tx => ((w.Flush tx).1, errOf (w.Flush tx).2.2))
        = (db, Outcome.rolledBack, some e)
    ∧ ∀ n t, budget = some n →
        constructSymbolLookupTable w.symbolNames (fun k => ((w.nextID + k : Nat) : Int)) = .ok t →
        n < (flushOps w t).length →
        e = Error.storage
          ∧ (w.Flush (Transact db budget).tx).1.work
              = ((flushOps w t).take n).foldl applyOp db := by
  refine ⟨rfl, ?_, ?_⟩
  · have h2 : (w.Flush ⟨db, budget⟩).2.2 = .error e := h
    simp only [WithTransaction, Transact, h2, errOf, Session.Done]
  · intro n t hb ht hn
    subst hb
    have hf : w.Flush (Transact db (some n)).tx
        = (⟨((flushOps w t).take n).foldl applyOp db, some 0⟩, w, .error Error.storage) := by
      simp only [scipWriter.Flush, Transact, ht, applyOps_exhausted _ n db hn]
      rfl
    rw [hf] at h
    simp only [Except.error.injEq] at h
    exact ⟨h.symm, by rw [hf]⟩

theorem C11_failed_flush_rolled_back_witness :
    Session.Done ⟨(Transact Store.empty (some 15)).base,
        (symbolsWriter.Flush (Transact Store.empty (some 15)).tx).1⟩ (some Error.storage)
        = (Store.empty, Outcome.rolledBack, some Error.storage)
    ∧ WithTransaction Store.empty (some 15)
          (fun tx => ((symbolsWriter.Flush tx).1, errOf (symbolsWriter.Flush tx).2.2))
        = (Store.empty, Outcome.rolledBack, some Error.storage)
    ∧ ∀ n t, some 15 = some n →
        constructSymbolLookupTable symbolsWriter.symbolNames
            (fun k => ((symbolsWriter.nextID + k : Nat) : Int)) = .ok t →
        n < (flushOps symbolsWriter t).length →
        Error.storage = Error.storage
          ∧ (symbolsWriter.Flush (Transact Store.empty (some 15)).tx).1.work
              = ((flushOps symbolsWriter t).take n).foldl applyOp Store.empty :=
  C11_failed_flush_rolled_back Store.empty (some 15) symbolsWriter Error.storage rfl

/-- The failed flush of the witness had written rows of each kind inside the
transaction: thirteen descriptor rows, the document and one occurrence. -/
theorem failed_flush_partial_rows :
    (symbolsWriter.Flush (Transact Store.empty (some 15)).tx).2.2 = .error Error.storage
    ∧ (symbolsWriter.Flush (Transact Store.empty (some 15)).tx).1.work.symbols.length = 13
    ∧ (symbolsWriter.Flush (Transact Store.empty (some 15)).tx).1.work.codeintel_scip_documents.length
        = 1
    ∧ (symbolsWriter.Flush (Transact Store.empty (some 15)).tx).1.work.occurrences.length = 1 := by
  refine ⟨rfl, rfl, rfl, rfl⟩

end Lsifstore

namespace Keyword

/-! ## Theorems: stemTerm -/

theorem stringsHasPrefix_iff (s p : String) :
    stringsHasPrefix s p = true ↔ p.data <+: s.data := by
  unfold stringsHasPrefix
  exact List.isPrefixOf_iff_prefix

theorem codeSearchStems_values (e : String × String) (h : e ∈ codeSearchStems) :
    e.2.data <+: e.1.data := by
  simp only [codeSearchStems, List.mem_cons, List.mem_singleton, List.mem_nil_iff,
    or_false] at h
  rcases h with rfl | rfl | rfl
  · exact (stringsHasPrefix_iff _ _).mp (by decide)
  · exact (stringsHasPrefix_iff _ _).mp (by decide)
  · exact (stringsHasPrefix_iff _ _).mp (by decide)

theorem mapGet_mem (m : List (String × String)) (key v : String)
    (h : mapGet m key = some v) : (key, v) ∈ m := by
  unfold mapGet at h
  rcases hf : m.find? (fun e => decide (e.1 = key)) with _ | e
  · rw [hf] at h; exact Option.noConfusion h
  · rw [hf] at h
    simp only [Option.map_some', Option.some.injEq] at h
    have hk := List.find?_some hf
    simp only [decide_eq_true_eq] at hk
    have hm := List.mem_of_find?_eq_some hf
    have : e = (key, v) := by
      cases e
      simp only at hk h
      rw [hk, h]
    rw [← this]
    exact hm

/-- C19: for every input string and whatever the stemmer does, `stemTerm`
returns a prefix of its input: a key of `codeSearchStems` is mapped to its
table value (repository to repo, configuration to config, authentication to
auth), each a prefix of its key; for any other input the stem of the stemmer
is returned when stemming succeeds and the stem is a prefix of the input, and
the input itself is returned in every other case. -/
theorem C19_stemTerm_prefix_of_input (snowballStem : String → Except String String)
    (input : String) :
    (stemTerm snowballStem input).data <+: input.data
    ∧ (∀ v, mapGet codeSearchStems input = some v → stemTerm snowballStem input = v)
    ∧ (mapGet codeSearchStems input = none → ∀ s, snowballStem input = .ok s →
        s.data <+: input.data → stemTerm snowballStem input = s)
    ∧ (mapGet codeSearchStems input = none → ∀ s, snowballStem input = .ok s →
        ¬ s.data <+: input.data → stemTerm snowballStem input = input)
    ∧ (mapGet codeSearchStems input = none → ∀ e, snowballStem input = .error e →
        stemTerm snowballStem input = input)
    ∧ mapGet codeSearchStems "repository" = some "repo"
    ∧ mapGet codeSearchStems "configuration" = some "config"
    ∧ mapGet codeSearchStems "authentication" = some "auth"
    ∧ (∀ key v, mapGet codeSearchStems key = some v → v.data <+: key.data) := by
  have htable : ∀ key v, mapGet codeSearchStems key = some v → v.data <+: key.data := by
    intro key v h
    exact codeSearchStems_values (key, v) (mapGet_mem _ _ _ h)
  refine ⟨?_, ?_, ?_, ?_, ?_, rfl, rfl, rfl, htable⟩
  · unfold stemTerm
    rcases hm : mapGet codeSearchStems input with _ | v
    · simp only
      rcases hs : snowballStem input with e | s
      · exact List.prefix_refl _
      · simp only
        by_cases hp : stringsHasPrefix input s = true
        · simp only [hp, Bool.not_true, Bool.false_eq_true, if_false]
          exact (stringsHasPrefix_iff _ _).mp hp
        · simp only [Bool.not_eq_true] at hp
          simp only [hp, Bool.not_false, if_true]
          exact List.prefix_refl _
    · exact htable input v hm
  · intro v hv
    simp only [stemTerm, hv]
  · intro hm s hs hp
    have := (stringsHasPrefix_iff input s).mpr hp
    simp only [stemTerm, hm, hs, this, Bool.not_true, Bool.false_eq_true, if_false]
  · intro hm s hs hp
    have : stringsHasPrefix input s = false := by
      rcases hb : stringsHasPrefix input s with _ | _
      · rfl
      · exact absurd ((stringsHasPrefix_iff input s).mp hb) hp
    simp only [stemTerm, hm, hs, this, Bool.not_false, if_true]
  · intro hm e he
    simp only [stemTerm, hm, he]

end Keyword

namespace InsightsStore

/-! ## Theorems: mock hook queue -/

theorem pushAll_spec {C : Type} (hs : List (C → List Int × Option Errors.Err)) :
    ∀ (m : MockInsightPermissionStore C),
      (pushAll m hs).GetUnauthorizedRepoIDsFunc.hooks = m.GetUnauthorizedRepoIDsFunc.hooks ++ hs
      ∧ (pushAll m hs).GetUnauthorizedRepoIDsFunc.defaultHook
          = m.GetUnauthorizedRepoIDsFunc.defaultHook
      ∧ (pushAll m hs).GetUnauthorizedRepoIDsFunc.history
          = m.GetUnauthorizedRepoIDsFunc.history := by
  induction hs with
  | nil => intro m; simp [pushAll]
  | cons h hs ih =>
    intro m
    have := ih ⟨m.GetUnauthorizedRepoIDsFunc.PushHook h⟩
    simp only [pushAll, List.foldl_cons] at this ⊢
    obtain ⟨a, b, c⟩ := this
    refine ⟨?_, ?_, ?_⟩
    · rw [a]; simp [InsightPermissionStoreGetUnauthorizedRepoIDsFunc.PushHook]
    · rw [b]; rfl
    · rw [c]; rfl

theorem invokeAll_spec {C : Type} (vs : List C) :
    ∀ (m : MockInsightPermissionStore C),
      (invokeAll m vs).2
          = List.zipWith (fun h v => h v)
              (servingHooks m.GetUnauthorizedRepoIDsFunc.hooks
                m.GetUnauthorizedRepoIDsFunc.defaultHook vs.length) vs
      ∧ (invokeAll m vs).1.GetUnauthorizedRepoIDsFunc.hooks
          = m.GetUnauthorizedRepoIDsFunc.hooks.drop vs.length
      ∧ (invokeAll m vs).1.GetUnauthorizedRepoIDsFunc.defaultHook
          = m.GetUnauthorizedRepoIDsFunc.defaultHook := by
  induction vs with
  | nil => intro m; simp [invokeAll, servingHooks]
  | cons v vs ih =>
    intro m
    obtain ⟨⟨d, hooks, hist⟩⟩ := m
    rcases hooks with _ | ⟨h, rest⟩
    · obtain ⟨a, b, c⟩ := ih ⟨⟨d, [], hist ++ [⟨v, (d v).1, (d v).2⟩]⟩⟩
      refine ⟨?_, ?_, ?_⟩
      · simp only [invokeAll, MockInsightPermissionStore.GetUnauthorizedRepoIDs,
          InsightPermissionStoreGetUnauthorizedRepoIDsFunc.nextHook,
          InsightPermissionStoreGetUnauthorizedRepoIDsFunc.appendCall]
        rw [a]
        simp [servingHooks, List.replicate_succ]
      · simp only [invokeAll, MockInsightPermissionStore.GetUnauthorizedRepoIDs,
          InsightPermissionStoreGetUnauthorizedRepoIDsFunc.nextHook,
          InsightPermissionStoreGetUnauthorizedRepoIDsFunc.appendCall]
        rw [b]; simp
      · simp only [invokeAll, MockInsightPermissionStore.GetUnauthorizedRepoIDs,
          InsightPermissionStoreGetUnauthorizedRepoIDsFunc.nextHook,
          InsightPermissionStoreGetUnauthorizedRepoIDsFunc.appendCall]
        rw [c]
    · obtain ⟨a, b, c⟩ := ih ⟨⟨d, rest, hist ++ [⟨v, (h v).1, (h v).2⟩]⟩⟩
      refine ⟨?_, ?_, ?_⟩
      · simp only [invokeAll, MockInsightPermissionStore.GetUnauthorizedRepoIDs,
          InsightPermissionStoreGetUnauthorizedRepoIDsFunc.nextHook,
          InsightPermissionStoreGetUnauthorizedRepoIDsFunc.appendCall]
        rw [a]
        simp [servingHooks]
      · simp only [invokeAll, MockInsightPermissionStore.GetUnauthorizedRepoIDs,
          InsightPermissionStoreGetUnauthorizedRepoIDsFunc.nextHook,
          InsightPermissionStoreGetUnauthorizedRepoIDsFunc.appendCall]
        rw [b]; simp
      · simp only [invokeAll, MockInsightPermissionStore.GetUnauthorizedRepoIDs,
          InsightPermissionStoreGetUnauthorizedRepoIDsFunc.nextHook,
          InsightPermissionStoreGetUnauthorizedRepoIDsFunc.appendCall]
        rw [c]

end InsightsStore

namespace InsightsStore

theorem servingHooks_get {C : Type} (hs : List (C → List Int × Option Errors.Err))
    (d : C → List Int × Option Errors.Err) (n i : Nat) (hi : i < n) :
    (servingHooks hs d n)[i]? = some (hs.getD i d) := by
  unfold servingHooks
  by_cases h : i < hs.length
  · rw [List.getElem?_append_left (by simp; omega), List.getElem?_take_of_lt hi,
      List.getD_eq_getElem?_getD, List.getElem?_eq_getElem h]
    rfl
  · have hlen : (hs.take n).length = hs.length := by simp; omega
    rw [List.getElem?_append_right (by omega), hlen, List.getElem?_replicate,
      List.getD_eq_getElem?_getD, List.getElem?_eq_none (by omega)]
    simp
    omega

/-- C20: on a mock function with an empty queue and default hook `d`, after
`PushHook(h1) ... PushHook(hn)` a run of invocations is served by `h1 ... hn`
in that order and then by `d`: the invocation number `i` (from 0) returns
what `hi+1` returns on its argument when `i < n` and what `d` returns
otherwise; each used hook is taken off the queue, which afterwards holds the
hooks not yet used; the default hook stays `d`.  `SetDefaultHook` leaves the
queue and the history as they are and changes nothing for a run that the
queue serves entirely; it changes what serves the invocations after the
queue is empty. -/
theorem C20_hook_queue_fifo {C : Type} (d d' : C → List Int × Option Errors.Err)
    (hist : List (InsightPermissionStoreGetUnauthorizedRepoIDsFuncCall C))
    (hs : List (C → List Int × Option Errors.Err)) (vs : List C) :
    (invokeAll (pushAll ⟨⟨d, [], hist⟩⟩ hs) vs).2
        = List.zipWith (fun h v => h v) (servingHooks hs d vs.length) vs
    ∧ (∀ i v, vs[i]? = some v →
        (invokeAll (pushAll ⟨⟨d, [], hist⟩⟩ hs) vs).2[i]? = some ((hs.getD i d) v))
    ∧ (invokeAll (pushAll ⟨⟨d, [], hist⟩⟩ hs) vs).1.GetUnauthorizedRepoIDsFunc.hooks
        = hs.drop vs.length
    ∧ (invokeAll (pushAll ⟨⟨d, [], hist⟩⟩ hs) vs).1.GetUnauthorizedRepoIDsFunc.defaultHook = d
    ∧ ((pushAll ⟨⟨d, [], hist⟩⟩ hs).GetUnauthorizedRepoIDsFunc.SetDefaultHook d').hooks = hs
    ∧ ((pushAll ⟨⟨d, [], hist⟩⟩ hs).GetUnauthorizedRepoIDsFunc.SetDefaultHook d').history = hist
    ∧ (∀ i v, vs[i]? = some v →
        (invokeAll ⟨(pushAll ⟨⟨d, [], hist⟩⟩ hs).GetUnauthorizedRepoIDsFunc.SetDefaultHook d'⟩
          vs).2[i]? = some ((hs.getD i d') v))
    ∧ (vs.length ≤ hs.length →
        (invokeAll ⟨(pushAll ⟨⟨d, [], hist⟩⟩ hs).GetUnauthorizedRepoIDsFunc.SetDefaultHook d'⟩
          vs).2 = (invokeAll (pushAll ⟨⟨d, [], hist⟩⟩ hs) vs).2) := by
  obtain ⟨p1, p2, p3⟩ := pushAll_spec hs (⟨⟨d, [], hist⟩⟩ : MockInsightPermissionStore C)
  simp only [List.nil_append] at p1 p2 p3
  obtain ⟨a, b, c⟩ := invokeAll_spec vs (pushAll ⟨⟨d, [], hist⟩⟩ hs)
  rw [p1, p2] at a
  rw [p1] at b
  rw [p2] at c
  have a' : (invokeAll
      ⟨(pushAll ⟨⟨d, [], hist⟩⟩ hs).GetUnauthorizedRepoIDsFunc.SetDefaultHook d'⟩ vs).2
      = List.zipWith (fun h v => h v) (servingHooks hs d' vs.length) vs := by
    rw [(invokeAll_spec vs _).1]
    simp only [InsightPermissionStoreGetUnauthorizedRepoIDsFunc.SetDefaultHook, p1]
  have hget : ∀ (e : C → List Int × Option Errors.Err) i v, vs[i]? = some v →
      (List.zipWith (fun h v => h v) (servingHooks hs e vs.length) vs)[i]?
        = some ((hs.getD i e) v) := by
    intro e i v hv
    have hi : i < vs.length := by
      by_contra hc
      rw [List.getElem?_eq_none (by omega)] at hv
      exact Option.noConfusion hv
    rw [List.getElem?_zipWith, servingHooks_get hs e vs.length i hi, hv]
  refine ⟨a, ?_, b, c, ?_, ?_, ?_, ?_⟩
  · intro i v hv
    rw [a]; exact hget d i v hv
  · simp only [InsightPermissionStoreGetUnauthorizedRepoIDsFunc.SetDefaultHook, p1]
  · simp only [InsightPermissionStoreGetUnauthorizedRepoIDsFunc.SetDefaultHook, p3]
  · intro i v hv
    rw [a']; exact hget d' i v hv
  · intro hle
    rw [a, a']
    have : ∀ (e : C → List Int × Option Errors.Err),
        servingHooks hs e vs.length = hs.take vs.length := by
      intro e
      simp [servingHooks, Nat.sub_eq_zero_of_le hle]
    rw [this d, this d']

end InsightsStore

namespace Httpapi

/-! ## Theorems: token scopes middleware and error handler -/

theorem firstMissingScope_none (a : Actor) (scopes : List String) :
    firstMissingScope a scopes = none ↔ ∀ s ∈ scopes, a.scope s = true := by
  induction scopes with
  | nil => simp [firstMissingScope]
  | cons x xs ih =>
    rw [firstMissingScope]
    rcases hx : a.scope x with _ | _
    · simp [hx]
    · simp [hx, ih]

theorem firstMissingScope_some (a : Actor) (scopes : List String) (s : String)
    (h : firstMissingScope a scopes = some s) :
    ∃ pre post, scopes = pre ++ s :: post ∧ (∀ x ∈ pre, a.scope x = true)
      ∧ a.scope s = false := by
  induction scopes with
  | nil => simp [firstMissingScope] at h
  | cons x xs ih =>
    rw [firstMissingScope] at h
    rcases hx : a.scope x with _ | _
    · simp only [hx, Bool.not_false, if_true, Option.some.injEq] at h
      subst h
      exact ⟨[], xs, rfl, by simp, hx⟩
    · simp only [hx, Bool.not_true, Bool.false_eq_true, if_false] at h
      obtain ⟨pre, post, h1, h2, h3⟩ := ih h
      refine ⟨x :: pre, post, by rw [h1]; rfl, ?_, h3⟩
      intro y hy
      simp only [List.mem_cons] at hy
      rcases hy with rfl | hy
      · exact hx
      · exact h2 y hy

/-- The branch the middleware takes when the condition holds. -/
theorem middleware_forwards {W : Type} (ops : ResponseOps W) (U S : String)
    (scopes : List String) (next : W → Request → W) (w : W) (r : Request)
    (h : scopesSatisfied U S scopes r.Actor) :
    restTokenScopesMiddleware ops U S scopes next w r = next w r := by
  unfold restTokenScopesMiddleware
  by_cases hl : scopes.length > 0
  · simp only [hl, if_true]
    by_cases hc : (r.Actor.FromToken && !r.Actor.Internal
        && !(r.Actor.scope U || r.Actor.scope S)) = true
    · simp only [hc, if_true]
      have hall : ∀ s ∈ scopes, r.Actor.scope s = true := by
        simp only [Bool.and_eq_true, Bool.not_eq_true', Bool.or_eq_false_iff] at hc
        obtain ⟨⟨c1, c2⟩, c3, c4⟩ := hc
        rcases h with h | h | h | h | h | h
        · subst h; simp at hl
        · rw [c1] at h; exact Bool.noConfusion h
        · rw [c2] at h; exact Bool.noConfusion h
        · rw [c3] at h; exact Bool.noConfusion h
        · rw [c4] at h; exact Bool.noConfusion h
        · exact h
      rw [(firstMissingScope_none _ _).mpr hall]
    · simp only [hc, if_false, Bool.false_eq_true]
  · simp only [hl, if_false]

/-- The branch the middleware takes when the condition fails. -/
theorem middleware_forbids {W : Type} (ops : ResponseOps W) (U S : String)
    (scopes : List String) (next : W → Request → W) (w : W) (r : Request)
    (h : ¬ scopesSatisfied U S scopes r.Actor) :
    ∃ s pre post, scopes = pre ++ s :: post ∧ (∀ x ∈ pre, r.Actor.scope x = true)
      ∧ r.Actor.scope s = false
      ∧ restTokenScopesMiddleware ops U S scopes next w r
          = ops.Error w ("forbidden, missing token scope: " ++ s) 403 := by
  unfold scopesSatisfied at h
  simp only [not_or] at h
  obtain ⟨g1, g2, g3, g4, g5, g6⟩ := h
  have hl : scopes.length > 0 := by
    rcases scopes with _ | ⟨x, xs⟩
    · exact absurd rfl g1
    · simp
  have hc : (r.Actor.FromToken && !r.Actor.Internal
      && !(r.Actor.scope U || r.Actor.scope S)) = true := by
    simp only [Bool.not_eq_false] at g2
    simp only [Bool.not_eq_true] at g3 g4 g5
    simp [g2, g3, g4, g5]
  rcases hf : firstMissingScope r.Actor scopes with _ | s
  · exact absurd ((firstMissingScope_none _ _).mp hf) g6
  · obtain ⟨pre, post, e1, e2, e3⟩ := firstMissingScope_some _ _ _ hf
    refine ⟨s, pre, post, e1, e2, e3, ?_⟩
    unfold restTokenScopesMiddleware
    simp only [hl, if_true, hc, hf]
    rfl

/-- C17: `restTokenScopesMiddleware(scopes, next)` answers with what `next`
answers when `scopes` is empty, or the actor is not token-authenticated, or
is internal, or holds the user-all or the site-admin-sudo scope, or holds
every scope of `scopes`; in the remaining case it answers
`http.Error(w, "forbidden, missing token scope: <s>", 403)` for the first
scope `s` of the list that the actor lacks.  On a recording response writer
`next` is invoked exactly in the first case, and in the other the 403 answer
is all that is written. -/
theorem C17_token_scopes_middleware {W : Type} (ops : ResponseOps W) (U S : String)
    (scopes : List String) (next : W → Request → W) (w : W) (r : Request) :
    (scopesSatisfied U S scopes r.Actor →
      restTokenScopesMiddleware ops U S scopes next w r = next w r)
    ∧ (¬ scopesSatisfied U S scopes r.Actor →
        ∃ s pre post, scopes = pre ++ s :: post ∧ (∀ x ∈ pre, r.Actor.scope x = true)
          ∧ r.Actor.scope s = false
          ∧ restTokenScopesMiddleware ops U S scopes next w r
              = ops.Error w ("forbidden, missing token scope: " ++ s) 403)
    ∧ (Written.served ∈ restTokenScopesMiddleware recorder U S scopes recordingNext [] r
        ↔ scopesSatisfied U S scopes r.Actor)
    ∧ (¬ scopesSatisfied U S scopes r.Actor →
        ∃ s, restTokenScopesMiddleware recorder U S scopes recordingNext [] r
          = [Written.error ("forbidden, missing token scope: " ++ s) 403]) := by
  refine ⟨middleware_forwards ops U S scopes next w r,
    middleware_forbids ops U S scopes next w r, ?_, ?_⟩
  · constructor
    · intro hs
      by_contra hn
      obtain ⟨s, _, _, _, _, _, he⟩ := middleware_forbids recorder U S scopes recordingNext [] r hn
      rw [he] at hs
      simp [recorder] at hs
    · intro h
      rw [middleware_forwards recorder U S scopes recordingNext [] r h]
      simp [recordingNext]
  · intro hn
    obtain ⟨s, _, _, _, _, _, he⟩ := middleware_forbids recorder U S scopes recordingNext [] r hn
    exact ⟨s, by rw [he]; rfl⟩

/-- A token with the scope `repo:read` asked for `repo:read` and `repo:write`
is refused for `repo:write`, and is let through when only `repo:read` is
required. -/
theorem middleware_example :
    restTokenScopesMiddleware recorder "user:all" "site-admin:sudo" ["repo:read", "repo:write"]
        recordingNext [] tokenRequest
      = [Written.error "forbidden, missing token scope: repo:write" 403]
    ∧ restTokenScopesMiddleware recorder "user:all" "site-admin:sudo" ["repo:read"]
        recordingNext [] tokenRequest = [Written.served] := by
  constructor <;> rfl

/-- C18: for an error that has no URLMovedError in its chain, the response
`Handle` writes with `WriteErrBody` false is `http.Error` with the empty body
and the given status, after the header cache-control is set to
`no-cache, max-age=0`; it is therefore the same for any two such errors,
whatever their messages.  With `WriteErrBody` true the body is the message of
the error, header and status being the same. -/
theorem C18_error_text_not_disclosed {W : Type} (ops : ResponseOps W) (w : W) (r : Request)
    (status : Int) (err1 err2 : Errors.Err)
    (h1 : err1.As "*handlerutil.URLMovedError" = none)
    (h2 : err2.As "*handlerutil.URLMovedError" = none) :
    ((newErrorHandler false).Handle ops w r status err1).1
        = ((newErrorHandler false).Handle ops w r status err2).1
    ∧ ((newErrorHandler false).Handle ops w r status err1).1
        = ops.Error (ops.HeaderSet w "cache-control" "no-cache, max-age=0") "" status
    ∧ ((newErrorHandler true).Handle ops w r status err1).1
        = ops.Error (ops.HeaderSet w "cache-control" "no-cache, max-age=0") err1.Error status := by
  have hf : ∀ (b : Bool) (err : Errors.Err), err.As "*handlerutil.URLMovedError" = none →
      ((newErrorHandler b).Handle ops w r status err).1
        = ops.Error (ops.HeaderSet w "cache-control" "no-cache, max-age=0")
            (if b then err.Error else "") status := by
    intro b err he
    unfold errorHandler.Handle newErrorHandler
    simp only [he]
    split <;> rfl
  refine ⟨?_, ?_, ?_⟩
  · rw [hf false err1 h1, hf false err2 h2]
    rfl
  · rw [hf false err1 h1]; rfl
  · rw [hf true err1 h1]; rfl

theorem C18_error_text_not_disclosed_witness :
    ((newErrorHandler false).Handle recorder [] tokenRequest 500
        (Errors.Err.new "Get https://host/?key=SECRET: connection refused")).1
        = ((newErrorHandler false).Handle recorder [] tokenRequest 500
            (Errors.Err.wrap (Errors.Err.new "no rows") "lookup")).1
    ∧ ((newErrorHandler false).Handle recorder [] tokenRequest 500
        (Errors.Err.new "Get https://host/?key=SECRET: connection refused")).1
        = recorder.Error (recorder.HeaderSet [] "cache-control" "no-cache, max-age=0") "" 500
    ∧ ((newErrorHandler true).Handle recorder [] tokenRequest 500
        (Errors.Err.new "Get https://host/?key=SECRET: connection refused")).1
        = recorder.Error (recorder.HeaderSet [] "cache-control" "no-cache, max-age=0")
            (Errors.Err.new "Get https://host/?key=SECRET: connection refused").Error 500 :=
  C18_error_text_not_disclosed recorder [] tokenRequest 500
    (Errors.Err.new "Get https://host/?key=SECRET: connection refused")
    (Errors.Err.wrap (Errors.Err.new "no rows") "lookup") rfl rfl

end Httpapi

namespace Database

open Errors

/-- An error wrapped by `scanWorkflow` or `scanSavedSearch` reads `Scan: ...`,
which is neither of the two validation messages. -/
theorem scan_error_text (err : Err) :
    (Err.wrap err "Scan").Error ≠ "newWorkflow.ID must be zero"
      ∧ (Err.wrap err "Scan").Error ≠ "newSavedSearch.ID must be zero" := by
  constructor <;>
  · intro h
    have h2 := congrArg String.data h
    simp [Err.Error, String.data_append] at h2

/-- An error `scanWorkflow` returns is a wrapped one. -/
theorem scanWorkflow_error {s : Except Err (List SQLValue)} {err : Err}
    (h : scanWorkflow s = .error err) : ∃ cause, err = Err.wrap cause "Scan" := by
  unfold scanWorkflow at h
  split at h
  · exact ⟨_, (Except.error.inj h).symm⟩
  · split at h
    · cases h
    · exact ⟨_, (Except.error.inj h).symm⟩

/-- An error `scanSavedSearch` returns is a wrapped one. -/
theorem scanSavedSearch_error {s : Except Err (List SQLValue)} {err : Err}
    (h : scanSavedSearch s = .error err) : ∃ cause, err = Err.wrap cause "Scan" := by
  unfold scanSavedSearch at h
  split at h
  · exact ⟨_, (Except.error.inj h).symm⟩
  · split at h
    · cases h
    · exact ⟨_, (Except.error.inj h).symm⟩

/-- C12: for a workflow with a non-zero ID, `workflowStore.Create` returns the
error `newWorkflow.ID must be zero` and no workflow, whatever the base store
is and with the database state untouched (no query is issued);
`savedSearchStore.Create` does the same with `newSavedSearch.ID must be zero`.
For ID zero the result is that of the one `INSERT`: an error it returns is a
wrapped scan error and never reads as the validation message. -/
theorem C12_create_rejects_nonzero_id {σ : Type} (base : BaseStore σ) (db : σ) :
    (∀ (w : Workflow) (uid : Int), w.ID ≠ 0 →
      workflowStore.Create ⟨base⟩ w uid db
        = (db, .error (Err.new "newWorkflow.ID must be zero"))) ∧
    (∀ (ss : SavedSearch), ss.ID ≠ 0 →
      savedSearchStore.Create ⟨base⟩ ss db
        = (db, .error (Err.new "newSavedSearch.ID must be zero"))) ∧
    (∀ (w : Workflow) (uid : Int), w.ID = 0 →
      workflowStore.Create ⟨base⟩ w uid db
          = ((base.QueryRow (workflowCreateStatement w uid) db).1,
              scanWorkflow (base.QueryRow (workflowCreateStatement w uid) db).2) ∧
        ∀ err, (workflowStore.Create ⟨base⟩ w uid db).2 = .error err →
          err.Error ≠ "newWorkflow.ID must be zero") ∧
    (∀ (ss : SavedSearch), ss.ID = 0 →
      savedSearchStore.Create ⟨base⟩ ss db
          = ((base.QueryRow (savedSearchCreateStatement ss) db).1,
              scanSavedSearch (base.QueryRow (savedSearchCreateStatement ss) db).2) ∧
        ∀ err, (savedSearchStore.Create ⟨base⟩ ss db).2 = .error err →
          err.Error ≠ "newSavedSearch.ID must be zero") := by
  refine ⟨?_, ?_, ?_, ?_⟩
  · intro w uid h
    simp [workflowStore.Create, h]
  · intro ss h
    simp [savedSearchStore.Create, h]
  · intro w uid h
    have e : workflowStore.Create ⟨base⟩ w uid db
        = ((base.QueryRow (workflowCreateStatement w uid) db).1,
            scanWorkflow (base.QueryRow (workflowCreateStatement w uid) db).2) := by
      simp [workflowStore.Create, h]
    refine ⟨e, ?_⟩
    intro err herr
    rw [e] at herr
    obtain ⟨cause, rfl⟩ := scanWorkflow_error herr
    exact (scan_error_text cause).1
  · intro ss h
    have e : savedSearchStore.Create ⟨base⟩ ss db
        = ((base.QueryRow (savedSearchCreateStatement ss) db).1,
            scanSavedSearch (base.QueryRow (savedSearchCreateStatement ss) db).2) := by
      simp [savedSearchStore.Create, h]
    refine ⟨e, ?_⟩
    intro err herr
    rw [e] at herr
    obtain ⟨cause, rfl⟩ := scanSavedSearch_error herr
    exact (scan_error_text cause).2

/-- C12 at the test database: a workflow with ID 5 and a saved search with
ID 7 are rejected and the database keeps no row; the workflow of
`TestWorkflowsCreate`, with ID zero, is stored. -/
theorem C12_create_rejects_nonzero_id_witness :
    ({ testCreateInput with ID := 5 } : Workflow).ID ≠ 0
      ∧ workflowStore.Create testWorkflowStore { testCreateInput with ID := 5 } 1 emptyTestDB
          = (emptyTestDB, .error (Err.new "newWorkflow.ID must be zero"))
      ∧ savedSearchStore.Create testSavedSearchStore ⟨7, "d", "q", NamespaceUser 1⟩ emptyTestDB
          = (emptyTestDB, .error (Err.new "newSavedSearch.ID must be zero"))
      ∧ (workflowStore.Create testWorkflowStore testCreateInput 1 emptyTestDB).2
          = .ok { testCreateInput with
                    ID := 1, CreatedByUser := some 1, UpdatedByUser := some 1,
                    CreatedAt := 100, UpdatedAt := 100 } :=
  ⟨by decide,
    (C12_create_rejects_nonzero_id testBaseStore emptyTestDB).1 _ 1 (by decide),
    (C12_create_rejects_nonzero_id testBaseStore emptyTestDB).2.1 _ (by decide),
    by rfl⟩

end Database

namespace Resolvers

open Errors Database

/-- `UpdateWorkflow` on an id that does not decode. -/
theorem updateWorkflow_bad_id {σ A P C : Type} (r : Resolver σ A P C) (args : UpdateWorkflowArgs)
    (db : σ) {e : Err} (hid : unmarshalWorkflowID r args.ID = .error e) :
    r.UpdateWorkflow args db = (db, .error e, []) := by
  simp only [Resolver.UpdateWorkflow, hid]

/-- `UpdateWorkflow` when the lookup of the stored workflow fails. -/
theorem updateWorkflow_get_fails {σ A P C : Type} (r : Resolver σ A P C)
    (args : UpdateWorkflowArgs) (db : σ) {id : Int} {db1 : σ} {e : Err}
    (hid : unmarshalWorkflowID r args.ID = .ok id)
    (hg : r.db.Workflows.GetByID id db = (db1, .error e)) :
    r.UpdateWorkflow args db
      = (db1, .error (Err.wrap e "get existing workflow"), [Event.GetByID id]) := by
  simp only [Resolver.UpdateWorkflow, hid, hg]

/-- `UpdateWorkflow` when the check on the owner of the stored workflow fails. -/
theorem updateWorkflow_unauthorized {σ A P C : Type} (r : Resolver σ A P C)
    (args : UpdateWorkflowArgs) (db : σ) {id : Int} {db1 db2 : σ} {old : Workflow} {e : Err}
    (hid : unmarshalWorkflowID r args.ID = .ok id)
    (hg : r.db.Workflows.GetByID id db = (db1, .ok old))
    (hc : r.CheckAuthorizedForNamespaceByIDs old.Owner db1 = (db2, some e)) :
    r.UpdateWorkflow args db
      = (db2, .error e, [Event.GetByID id, Event.CheckAuthorizedForNamespaceByIDs old.Owner]) := by
  simp only [Resolver.UpdateWorkflow, hid, hg, hc]

/-- `UpdateWorkflow` when the check passes: the store's `Update` is called
once, with the decoded id and the owner of the stored workflow. -/
theorem updateWorkflow_authorized {σ A P C : Type} (r : Resolver σ A P C)
    (args : UpdateWorkflowArgs) (db : σ) {id : Int} {db1 db2 : σ} {old : Workflow}
    (hid : unmarshalWorkflowID r args.ID = .ok id)
    (hg : r.db.Workflows.GetByID id db = (db1, .ok old))
    (hc : r.CheckAuthorizedForNamespaceByIDs old.Owner db1 = (db2, none)) :
    r.UpdateWorkflow args db
      = ((r.db.Workflows.Update (updateWorkflowValue id args.Input old) r.ActorUID db2).1,
          (r.db.Workflows.Update (updateWorkflowValue id args.Input old) r.ActorUID db2).2.map
            toWorkflowResolver,
          [Event.GetByID id, Event.CheckAuthorizedForNamespaceByIDs old.Owner,
            Event.Update (updateWorkflowValue id args.Input old) r.ActorUID]) := by
  simp only [Resolver.UpdateWorkflow, hid, hg, hc]
  rcases r.db.Workflows.Update (updateWorkflowValue id args.Input old) r.ActorUID db2
    with ⟨db3, (e | ss)⟩ <;> rfl

/-- `DeleteWorkflow` on an id that does not decode. -/
theorem deleteWorkflow_bad_id {σ A P C : Type} (r : Resolver σ A P C) (args : DeleteWorkflowArgs)
    (db : σ) {e : Err} (hid : unmarshalWorkflowID r args.ID = .error e) :
    r.DeleteWorkflow args db = (db, .error e, []) := by
  simp only [Resolver.DeleteWorkflow, hid]

/-- `DeleteWorkflow` when the lookup of the stored workflow fails. -/
theorem deleteWorkflow_get_fails {σ A P C : Type} (r : Resolver σ A P C)
    (args : DeleteWorkflowArgs) (db : σ) {id : Int} {db1 : σ} {e : Err}
    (hid : unmarshalWorkflowID r args.ID = .ok id)
    (hg : r.db.Workflows.GetByID id db = (db1, .error e)) :
    r.DeleteWorkflow args db = (db1, .error e, [Event.GetByID id]) := by
  simp only [Resolver.DeleteWorkflow, hid, hg]

/-- `DeleteWorkflow` when the check on the owner of the stored workflow fails. -/
theorem deleteWorkflow_unauthorized {σ A P C : Type} (r : Resolver σ A P C)
    (args : DeleteWorkflowArgs) (db : σ) {id : Int} {db1 db2 : σ} {old : Workflow} {e : Err}
    (hid : unmarshalWorkflowID r args.ID = .ok id)
    (hg : r.db.Workflows.GetByID id db = (db1, .ok old))
    (hc : r.CheckAuthorizedForNamespaceByIDs old.Owner db1 = (db2, some e)) :
    r.DeleteWorkflow args db
      = (db2, .error e, [Event.GetByID id, Event.CheckAuthorizedForNamespaceByIDs old.Owner]) := by
  simp only [Resolver.DeleteWorkflow, hid, hg, hc]

/-- `DeleteWorkflow` when the check passes: the store's `Delete` is called
once, with the decoded id. -/
theorem deleteWorkflow_authorized {σ A P C : Type} (r : Resolver σ A P C)
    (args : DeleteWorkflowArgs) (db : σ) {id : Int} {db1 db2 : σ} {old : Workflow}
    (hid : unmarshalWorkflowID r args.ID = .ok id)
    (hg : r.db.Workflows.GetByID id db = (db1, .ok old))
    (hc : r.CheckAuthorizedForNamespaceByIDs old.Owner db1 = (db2, none)) :
    (r.DeleteWorkflow args db).1 = (r.db.Workflows.Delete id db2).1
      ∧ (r.DeleteWorkflow args db).2.2
          = [Event.GetByID id, Event.CheckAuthorizedForNamespaceByIDs old.Owner,
              Event.Delete id]
      ∧ ((r.DeleteWorkflow args db).2.1.isOk = true ↔ (r.db.Workflows.Delete id db2).2 = none) := by
  simp only [Resolver.DeleteWorkflow, hid, hg, hc]
  rcases r.db.Workflows.Delete id db2 with ⟨db3, (_ | e)⟩ <;> simp [Except.isOk, Except.toBool]

/-- The ways `UpdateWorkflow` can go, by the three calls before the update. -/
theorem updateWorkflow_stages {σ A P C : Type} (r : Resolver σ A P C)
    (args : UpdateWorkflowArgs) (db : σ) :
    (∃ e, unmarshalWorkflowID r args.ID = .error e)
    ∨ (∃ id db1 e, unmarshalWorkflowID r args.ID = .ok id
        ∧ r.db.Workflows.GetByID id db = (db1, .error e))
    ∨ (∃ id db1 old db2 e, unmarshalWorkflowID r args.ID = .ok id
        ∧ r.db.Workflows.GetByID id db = (db1, .ok old)
        ∧ r.CheckAuthorizedForNamespaceByIDs old.Owner db1 = (db2, some e))
    ∨ (∃ id db1 old db2, unmarshalWorkflowID r args.ID = .ok id
        ∧ r.db.Workflows.GetByID id db = (db1, .ok old)
        ∧ r.CheckAuthorizedForNamespaceByIDs old.Owner db1 = (db2, none)) := by
  rcases hid : unmarshalWorkflowID r args.ID with e | id
  · exact Or.inl ⟨e, rfl⟩
  · rcases hg : r.db.Workflows.GetByID id db with ⟨db1, (e | old)⟩
    · exact Or.inr (Or.inl ⟨id, db1, e, rfl, hg⟩)
    · rcases hc : r.CheckAuthorizedForNamespaceByIDs old.Owner db1 with ⟨db2, (_ | e)⟩
      · exact Or.inr (Or.inr (Or.inr ⟨id, db1, old, db2, rfl, hg, hc⟩))
      · exact Or.inr (Or.inr (Or.inl ⟨id, db1, old, db2, e, rfl, hg, hc⟩))

/-- The ways `DeleteWorkflow` can go, by the three calls before the delete. -/
theorem deleteWorkflow_stages {σ A P C : Type} (r : Resolver σ A P C)
    (args : DeleteWorkflowArgs) (db : σ) :
    (∃ e, unmarshalWorkflowID r args.ID = .error e)
    ∨ (∃ id db1 e, unmarshalWorkflowID r args.ID = .ok id
        ∧ r.db.Workflows.GetByID id db = (db1, .error e))
    ∨ (∃ id db1 old db2 e, unmarshalWorkflowID r args.ID = .ok id
        ∧ r.db.Workflows.GetByID id db = (db1, .ok old)
        ∧ r.CheckAuthorizedForNamespaceByIDs old.Owner db1 = (db2, some e))
    ∨ (∃ id db1 old db2, unmarshalWorkflowID r args.ID = .ok id
        ∧ r.db.Workflows.GetByID id db = (db1, .ok old)
        ∧ r.CheckAuthorizedForNamespaceByIDs old.Owner db1 = (db2, none)) := by
  rcases hid : unmarshalWorkflowID r args.ID with e | id
  · exact Or.inl ⟨e, rfl⟩
  · rcases hg : r.db.Workflows.GetByID id db with ⟨db1, (e | old)⟩
    · exact Or.inr (Or.inl ⟨id, db1, e, rfl, hg⟩)
    · rcases hc : r.CheckAuthorizedForNamespaceByIDs old.Owner db1 with ⟨db2, (_ | e)⟩
      · exact Or.inr (Or.inr (Or.inr ⟨id, db1, old, db2, rfl, hg, hc⟩))
      · exact Or.inr (Or.inr (Or.inl ⟨id, db1, old, db2, e, rfl, hg, hc⟩))

end Resolvers

namespace Resolvers

open Errors Database

/-- C15: `UpdateWorkflow` and `DeleteWorkflow` return the error, and make no
call of the store's `Update` or `Delete`, when the id does not decode, when
`GetByID` fails (the update wraps that error with `get existing workflow`) or
when the authorization check fails; the check is made on the owner of the
workflow `GetByID` returned for the decoded id, and a call of `Update` or
`Delete` is made only after that check has passed. -/
theorem C15_update_delete_check_stored_owner {σ A P C : Type} (r : Resolver σ A P C) (db : σ) :
    (∀ (args : UpdateWorkflowArgs) (e : Err), unmarshalWorkflowID r args.ID = .error e →
      r.UpdateWorkflow args db = (db, .error e, []))
    ∧ (∀ (args : UpdateWorkflowArgs) (id : Int) (db1 : σ) (e : Err),
        unmarshalWorkflowID r args.ID = .ok id →
        r.db.Workflows.GetByID id db = (db1, .error e) →
        r.UpdateWorkflow args db
          = (db1, .error (Err.wrap e "get existing workflow"), [Event.GetByID id]))
    ∧ (∀ (args : UpdateWorkflowArgs) (id : Int) (db1 : σ) (old : Workflow) (db2 : σ) (e : Err),
        unmarshalWorkflowID r args.ID = .ok id →
        r.db.Workflows.GetByID id db = (db1, .ok old) →
        r.CheckAuthorizedForNamespaceByIDs old.Owner db1 = (db2, some e) →
        r.UpdateWorkflow args db
          = (db2, .error e,
              [Event.GetByID id, Event.CheckAuthorizedForNamespaceByIDs old.Owner]))
    ∧ (∀ (args : UpdateWorkflowArgs) (ev : Event),
        ev ∈ (r.UpdateWorkflow args db).2.2 → ev.isWrite = true →
        ∃ id db1 old db2, unmarshalWorkflowID r args.ID = .ok id
          ∧ r.db.Workflows.GetByID id db = (db1, .ok old)
          ∧ r.CheckAuthorizedForNamespaceByIDs old.Owner db1 = (db2, none)
          ∧ ev = Event.Update (updateWorkflowValue id args.Input old) r.ActorUID
          ∧ (r.UpdateWorkflow args db).2.2
              = [Event.GetByID id, Event.CheckAuthorizedForNamespaceByIDs old.Owner, ev])
    ∧ (∀ (args : DeleteWorkflowArgs) (e : Err), unmarshalWorkflowID r args.ID = .error e →
        r.DeleteWorkflow args db = (db, .error e, []))
    ∧ (∀ (args : DeleteWorkflowArgs) (id : Int) (db1 : σ) (e : Err),
        unmarshalWorkflowID r args.ID = .ok id →
        r.db.Workflows.GetByID id db = (db1, .error e) →
        r.DeleteWorkflow args db = (db1, .error e, [Event.GetByID id]))
    ∧ (∀ (args : DeleteWorkflowArgs) (id : Int) (db1 : σ) (old : Workflow) (db2 : σ) (e : Err),
        unmarshalWorkflowID r args.ID = .ok id →
        r.db.Workflows.GetByID id db = (db1, .ok old) →
        r.CheckAuthorizedForNamespaceByIDs old.Owner db1 = (db2, some e) →
        r.DeleteWorkflow args db
          = (db2, .error e,
              [Event.GetByID id, Event.CheckAuthorizedForNamespaceByIDs old.Owner]))
    ∧ (∀ (args : DeleteWorkflowArgs) (ev : Event),
        ev ∈ (r.DeleteWorkflow args db).2.2 → ev.isWrite = true →
        ∃ id db1 old db2, unmarshalWorkflowID r args.ID = .ok id
          ∧ r.db.Workflows.GetByID id db = (db1, .ok old)
          ∧ r.CheckAuthorizedForNamespaceByIDs old.Owner db1 = (db2, none)
          ∧ ev = Event.Delete id
          ∧ (r.DeleteWorkflow args db).2.2
              = [Event.GetByID id, Event.CheckAuthorizedForNamespaceByIDs old.Owner, ev]) := by
  refine ⟨?_, ?_, ?_, ?_, ?_, ?_, ?_, ?_⟩
  · intro args e h
    exact updateWorkflow_bad_id r args db h
  · intro args id db1 e h1 h2
    exact updateWorkflow_get_fails r args db h1 h2
  · intro args id db1 old db2 e h1 h2 h3
    exact updateWorkflow_unauthorized r args db h1 h2 h3
  · intro args ev hev hw
    rcases updateWorkflow_stages r args db with ⟨e, h1⟩ | ⟨id, db1, e, h1, h2⟩
      | ⟨id, db1, old, db2, e, h1, h2, h3⟩ | ⟨id, db1, old, db2, h1, h2, h3⟩
    · rw [updateWorkflow_bad_id r args db h1] at hev
      simp at hev
    · rw [updateWorkflow_get_fails r args db h1 h2] at hev
      simp only [List.mem_singleton] at hev
      subst hev
      simp [Event.isWrite] at hw
    · rw [updateWorkflow_unauthorized r args db h1 h2 h3] at hev
      simp only [List.mem_cons, List.mem_singleton, List.not_mem_nil, or_false] at hev
      rcases hev with rfl | rfl <;> simp [Event.isWrite] at hw
    · rw [updateWorkflow_authorized r args db h1 h2 h3] at hev ⊢
      simp only [List.mem_cons, List.mem_singleton, List.not_mem_nil, or_false] at hev
      rcases hev with rfl | rfl | rfl
      · simp [Event.isWrite] at hw
      · simp [Event.isWrite] at hw
      · exact ⟨id, db1, old, db2, h1, h2, h3, rfl, rfl⟩
  · intro args e h
    exact deleteWorkflow_bad_id r args db h
  · intro args id db1 e h1 h2
    exact deleteWorkflow_get_fails r args db h1 h2
  · intro args id db1 old db2 e h1 h2 h3
    exact deleteWorkflow_unauthorized r args db h1 h2 h3
  · intro args ev hev hw
    rcases deleteWorkflow_stages r args db with ⟨e, h1⟩ | ⟨id, db1, e, h1, h2⟩
      | ⟨id, db1, old, db2, e, h1, h2, h3⟩ | ⟨id, db1, old, db2, h1, h2, h3⟩
    · rw [deleteWorkflow_bad_id r args db h1] at hev
      simp at hev
    · rw [deleteWorkflow_get_fails r args db h1 h2] at hev
      simp only [List.mem_singleton] at hev
      subst hev
      simp [Event.isWrite] at hw
    · rw [deleteWorkflow_unauthorized r args db h1 h2 h3] at hev
      simp only [List.mem_cons, List.mem_singleton, List.not_mem_nil, or_false] at hev
      rcases hev with rfl | rfl <;> simp [Event.isWrite] at hw
    · have hl := (deleteWorkflow_authorized r args db h1 h2 h3).2.1
      rw [hl] at hev ⊢
      simp only [List.mem_cons, List.mem_singleton, List.not_mem_nil, or_false] at hev
      rcases hev with rfl | rfl | rfl
      · simp [Event.isWrite] at hw
      · simp [Event.isWrite] at hw
      · exact ⟨id, db1, old, db2, h1, h2, h3, rfl, rfl⟩

/-- C15 on the test database, which holds workflow 1 of user 1: user 2, who is
no site admin, gets the authorization error from both operations and the
store is not written. -/
theorem C15_update_delete_check_stored_owner_witness :
    (unmarshalWorkflowID (testResolver ⟨2, false⟩ testStore) testUpdateArgs.ID = .ok 1
      ∧ testStore.GetByID 1 testDBWithWorkflow
          = (testDBWithWorkflow,
              .ok { testCreateInput with
                      ID := 1, CreatedByUser := some 1, UpdatedByUser := some 1,
                      CreatedAt := 100, UpdatedAt := 100 }))
    ∧ (testResolver ⟨2, false⟩ testStore).UpdateWorkflow testUpdateArgs testDBWithWorkflow
        = (testDBWithWorkflow, .error InsufficientAuthorizationError,
            [Event.GetByID 1, Event.CheckAuthorizedForNamespaceByIDs (NamespaceUser 1)])
    ∧ (testResolver ⟨2, false⟩ testStore).DeleteWorkflow ⟨testUpdateArgs.ID⟩ testDBWithWorkflow
        = (testDBWithWorkflow, .error InsufficientAuthorizationError,
            [Event.GetByID 1, Event.CheckAuthorizedForNamespaceByIDs (NamespaceUser 1)]) :=
  ⟨⟨rfl, rfl⟩,
    (C15_update_delete_check_stored_owner (testResolver ⟨2, false⟩ testStore)
      testDBWithWorkflow).2.2.1 testUpdateArgs 1 testDBWithWorkflow _ testDBWithWorkflow
      InsufficientAuthorizationError rfl rfl rfl,
    (C15_update_delete_check_stored_owner (testResolver ⟨2, false⟩ testStore)
      testDBWithWorkflow).2.2.2.2.2.2.1 ⟨testUpdateArgs.ID⟩ 1 testDBWithWorkflow _
      testDBWithWorkflow InsufficientAuthorizationError rfl rfl rfl⟩

end Resolvers

namespace Resolvers

open Errors Database

/-- `Resolver.Workflows` when the namespace check of the owner fails. -/
theorem workflows_owner_check_fails {σ A P C : Type} (r : Resolver σ A P C)
    (args : WorkflowsArgs A) (db : σ) {id : String} {db1 : σ} {e : Err}
    (ho : args.Owner = some id)
    (hc : r.CheckAuthorizedForNamespace id db = (db1, .error e)) :
    r.Workflows args db = (db1, .error e, [Event.CheckAuthorizedForNamespace id]) := by
  simp only [Resolver.Workflows, ho, hc]

/-- The query `Resolver.Workflows` puts in the list arguments. -/
theorem workflows_query {A : Type} (args : WorkflowsArgs A) :
    (match args.Query with
      | some q => q
      | none => "") = args.Query.getD "" := by
  cases args.Query <;> rfl

/-- The ways `Resolver.Workflows` can go: the namespace check of the owner
fails; or, from the state, owner and calls it leaves, one of six outcomes. -/
theorem workflows_stages {σ A P C : Type} (r : Resolver σ A P C) (args : WorkflowsArgs A)
    (db : σ) :
    (∃ id db1 e, args.Owner = some id
      ∧ r.CheckAuthorizedForNamespace id db = (db1, .error e)
      ∧ r.Workflows args db = (db1, .error e, [Event.CheckAuthorizedForNamespace id]))
    ∨ ∃ db1 owner log1,
        ((args.Owner = none ∧ db1 = db ∧ owner = none ∧ log1 = [])
          ∨ ∃ id, args.Owner = some id
              ∧ r.CheckAuthorizedForNamespace id db = (db1, .ok owner)
              ∧ log1 = [Event.CheckAuthorizedForNamespace id])
        ∧ ((args.ViewerIsAffiliated = some true
              ∧ ∃ db2 e, r.CurrentUser db1 = (db2, .error e)
                ∧ r.Workflows args db = (db2, .error e, log1 ++ [Event.CurrentUser]))
          ∨ (args.ViewerIsAffiliated = some true
              ∧ ∃ db2, r.CurrentUser db1 = (db2, .ok none)
                ∧ r.Workflows args db = (db2, .panic, log1 ++ [Event.CurrentUser]))
          ∨ (args.ViewerIsAffiliated = some true
              ∧ ∃ db2 u, r.CurrentUser db1 = (db2, .ok (some u))
                ∧ r.Workflows args db
                  = (db2,
                      Result.ofExcept
                        (r.NewConnectionResolver ⟨workflowsListArgs args owner (some u.ID)⟩
                          args.ConnectionResolverArgs),
                      log1 ++ [Event.CurrentUser,
                        Event.NewConnectionResolver
                          ⟨workflowsListArgs args owner (some u.ID)⟩]))
          ∨ (args.ViewerIsAffiliated ≠ some true ∧ owner ≠ none
              ∧ r.Workflows args db
                  = (db1,
                      Result.ofExcept
                        (r.NewConnectionResolver ⟨workflowsListArgs args owner none⟩
                          args.ConnectionResolverArgs),
                      log1 ++ [Event.NewConnectionResolver
                        ⟨workflowsListArgs args owner none⟩]))
          ∨ (args.ViewerIsAffiliated ≠ some true ∧ owner = none
              ∧ ∃ db3 e, r.CheckCurrentUserIsSiteAdmin db1 = (db3, some e)
                ∧ r.Workflows args db
                  = (db3, .error (Err.wrap e "must specify owner or viewerIsAffiliated args"),
                      log1 ++ [Event.CheckCurrentUserIsSiteAdmin]))
          ∨ (args.ViewerIsAffiliated ≠ some true ∧ owner = none
              ∧ ∃ db3, r.CheckCurrentUserIsSiteAdmin db1 = (db3, none)
                ∧ r.Workflows args db
                  = (db3,
                      Result.ofExcept
                        (r.NewConnectionResolver ⟨workflowsListArgs args none none⟩
                          args.ConnectionResolverArgs),
                      log1 ++ [Event.CheckCurrentUserIsSiteAdmin,
                        Event.NewConnectionResolver ⟨workflowsListArgs args none none⟩]))) := by
  have key : ∀ (db1 : σ) (owner : Option Namespace) (log1 : List Event),
      (match args.Owner with
        | none =>
          ((db, Except.ok (workflowsListArgs args none none), []) :
            σ × Except Err WorkflowListArgs × List Event)
        | some id =>
          match r.CheckAuthorizedForNamespace id db with
          | (db, .error err) => (db, .error err, [Event.CheckAuthorizedForNamespace id])
          | (db, .ok owner) =>
            (db, .ok { workflowsListArgs args none none with Owner := owner },
              [Event.CheckAuthorizedForNamespace id]))
        = (db1, .ok (workflowsListArgs args owner none), log1) →
      ((args.ViewerIsAffiliated = some true
              ∧ ∃ db2 e, r.CurrentUser db1 = (db2, .error e)
                ∧ r.Workflows args db = (db2, .error e, log1 ++ [Event.CurrentUser]))
          ∨ (args.ViewerIsAffiliated = some true
              ∧ ∃ db2, r.CurrentUser db1 = (db2, .ok none)
                ∧ r.Workflows args db = (db2, .panic, log1 ++ [Event.CurrentUser]))
          ∨ (args.ViewerIsAffiliated = some true
              ∧ ∃ db2 u, r.CurrentUser db1 = (db2, .ok (some u))
                ∧ r.Workflows args db
                  = (db2,
                      Result.ofExcept
                        (r.NewConnectionResolver ⟨workflowsListArgs args owner (some u.ID)⟩
                          args.ConnectionResolverArgs),
                      log1 ++ [Event.CurrentUser,
                        Event.NewConnectionResolver
                          ⟨workflowsListArgs args owner (some u.ID)⟩]))
          ∨ (args.ViewerIsAffiliated ≠ some true ∧ owner ≠ none
              ∧ r.Workflows args db
                  = (db1,
                      Result.ofExcept
                        (r.NewConnectionResolver ⟨workflowsListArgs args owner none⟩
                          args.ConnectionResolverArgs),
                      log1 ++ [Event.NewConnectionResolver
                        ⟨workflowsListArgs args owner none⟩]))
          ∨ (args.ViewerIsAffiliated ≠ some true ∧ owner = none
              ∧ ∃ db3 e, r.CheckCurrentUserIsSiteAdmin db1 = (db3, some e)
                ∧ r.Workflows args db
                  = (db3, .error (Err.wrap e "must specify owner or viewerIsAffiliated args"),
                      log1 ++ [Event.CheckCurrentUserIsSiteAdmin]))
          ∨ (args.ViewerIsAffiliated ≠ some true ∧ owner = none
              ∧ ∃ db3, r.CheckCurrentUserIsSiteAdmin db1 = (db3, none)
                ∧ r.Workflows args db
                  = (db3,
                      Result.ofExcept
                        (r.NewConnectionResolver ⟨workflowsListArgs args none none⟩
                          args.ConnectionResolverArgs),
                      log1 ++ [Event.CheckCurrentUserIsSiteAdmin,
                        Event.NewConnectionResolver ⟨workflowsListArgs args none none⟩]))) := by
    intro db1 owner log1 hstep
    have hW : r.Workflows args db
        = (match ((db1, Except.ok (workflowsListArgs args owner none), log1) :
              σ × Except Err WorkflowListArgs × List Event) with
          | (db, .error err, log) => ((db, Result.error err, log) : σ × Result C × List Event)
          | (db, .ok listArgs, log) =>
            match (if args.ViewerIsAffiliated = some true then
                match r.CurrentUser db with
                | (db, .error err) => (db, Result.error err, log ++ [Event.CurrentUser])
                | (db, .ok none) => (db, Result.panic, log ++ [Event.CurrentUser])
                | (db, .ok (some currentUser)) =>
                  (db, Result.ok { listArgs with AffiliatedUser := some currentUser.ID },
                    log ++ [Event.CurrentUser])
              else (db, Result.ok listArgs, log) :
                σ × Result WorkflowListArgs × List Event) with
            | (db, .error err, log) => (db, .error err, log)
            | (db, .panic, log) => (db, .panic, log)
            | (db, .ok listArgs, log) =>
              match (if listArgs.Owner = none ∧ listArgs.AffiliatedUser = none then
                  match r.CheckCurrentUserIsSiteAdmin db with
                  | (db, some err) =>
                    (db, some (Err.wrap err "must specify owner or viewerIsAffiliated args"),
                      log ++ [Event.CheckCurrentUserIsSiteAdmin])
                  | (db, none) => (db, none, log ++ [Event.CheckCurrentUserIsSiteAdmin])
                else (db, none, log) : σ × Option Err × List Event) with
              | (db, some err, log) => (db, .error err, log)
              | (db, none, log) =>
                (db,
                  Result.ofExcept
                    (r.NewConnectionResolver ⟨listArgs⟩ args.ConnectionResolverArgs),
                  log ++ [Event.NewConnectionResolver ⟨listArgs⟩])) := by
      rw [← hstep]
      simp only [Resolver.Workflows, workflowsListArgs, workflows_query, WorkflowsOrderByID]
    rw [hW]
    by_cases hv : args.ViewerIsAffiliated = some true
    · rcases hu : r.CurrentUser db1 with ⟨db2, (e | (_ | u))⟩
      · exact Or.inl ⟨hv, db2, e, rfl, by simp only [hv, hu, if_true]⟩
      · exact Or.inr (Or.inl ⟨hv, db2, rfl, by simp only [hv, hu, if_true]⟩)
      · refine Or.inr (Or.inr (Or.inl ⟨hv, db2, u, rfl, ?_⟩))
        simp [hv, hu, workflowsListArgs]
    · cases owner with
      | some ns =>
        refine Or.inr (Or.inr (Or.inr (Or.inl ⟨hv, by simp, ?_⟩)))
        simp [hv, workflowsListArgs]
      | none =>
        rcases hs : r.CheckCurrentUserIsSiteAdmin db1 with ⟨db3, (_ | e)⟩
        · refine Or.inr (Or.inr (Or.inr (Or.inr (Or.inr ⟨hv, rfl, db3, rfl, ?_⟩))))
          simp [hv, hs, workflowsListArgs]
        · refine Or.inr (Or.inr (Or.inr (Or.inr (Or.inl ⟨hv, rfl, db3, e, rfl, ?_⟩))))
          simp [hv, hs, workflowsListArgs]
  rcases ho : args.Owner with _ | id
  · refine Or.inr ⟨db, none, [], Or.inl ⟨rfl, rfl, rfl, rfl⟩, ?_⟩
    have := key db none []
    rw [ho] at this
    exact this rfl
  · rcases hc : r.CheckAuthorizedForNamespace id db with ⟨db1, (e | owner)⟩
    · exact Or.inl ⟨id, db1, e, rfl, hc, workflows_owner_check_fails r args db ho hc⟩
    · refine Or.inr ⟨db1, owner, [Event.CheckAuthorizedForNamespace id],
        Or.inr ⟨id, rfl, hc, rfl⟩, ?_⟩
      have := key db1 owner [Event.CheckAuthorizedForNamespace id]
      rw [ho] at this
      simp only [hc] at this
      exact this rfl

end Resolvers

namespace Resolvers

open Errors Database

/-- C13: with no `Owner` argument and `ViewerIsAffiliated` nil or false,
`Resolver.Workflows` makes the site-admin check first: when it fails with an
error, the result is that error wrapped with
`must specify owner or viewerIsAffiliated args` and no connection resolver is
made; only when it passes is the connection resolver made, so a successful
result means the check passed.  When the owner of the list arguments is set
(the namespace check returned one) or the affiliated user is asked for, the
site-admin check is not made. -/
theorem C13_workflows_site_admin_without_filter {σ A P C : Type} (r : Resolver σ A P C)
    (args : WorkflowsArgs A) (db : σ) :
    (args.Owner = none → args.ViewerIsAffiliated ≠ some true →
      (∀ db1 e, r.CheckCurrentUserIsSiteAdmin db = (db1, some e) →
        r.Workflows args db
          = (db1, .error (Err.wrap e "must specify owner or viewerIsAffiliated args"),
              [Event.CheckCurrentUserIsSiteAdmin]))
      ∧ (∀ db1, r.CheckCurrentUserIsSiteAdmin db = (db1, none) →
        r.Workflows args db
          = (db1,
              Result.ofExcept
                (r.NewConnectionResolver ⟨workflowsListArgs args none none⟩
                  args.ConnectionResolverArgs),
              [Event.CheckCurrentUserIsSiteAdmin,
                Event.NewConnectionResolver ⟨workflowsListArgs args none none⟩]))
      ∧ (∀ c, (r.Workflows args db).2.1 = .ok c → (r.CheckCurrentUserIsSiteAdmin db).2 = none))
    ∧ (∀ id db1 owner, args.Owner = some id →
        r.CheckAuthorizedForNamespace id db = (db1, .ok (some owner)) →
        Event.CheckCurrentUserIsSiteAdmin ∉ (r.Workflows args db).2.2)
    ∧ (args.ViewerIsAffiliated = some true →
        Event.CheckCurrentUserIsSiteAdmin ∉ (r.Workflows args db).2.2)
    ∧ (∀ cs, Event.NewConnectionResolver cs ∈ (r.Workflows args db).2.2 →
        (Event.CheckCurrentUserIsSiteAdmin ∈ (r.Workflows args db).2.2
          ↔ cs.listArgs.Owner = none ∧ cs.listArgs.AffiliatedUser = none)) := by
  have st := workflows_stages r args db
  refine ⟨?_, ?_, ?_, ?_⟩
  · intro ho hv
    rcases st with ⟨id, db1, e, h1, -⟩ | ⟨db1, owner, log1, hown, hrest⟩
    · rw [ho] at h1
      cases h1
    · rcases hown with ⟨-, rfl, rfl, rfl⟩ | ⟨id, h1, -⟩
      · rcases hrest with ⟨h, -⟩ | ⟨h, -⟩ | ⟨h, -⟩ | ⟨-, h, -⟩ | ⟨-, -, db3, e, hs, hW⟩
          | ⟨-, -, db3, hs, hW⟩
        · exact absurd h hv
        · exact absurd h hv
        · exact absurd h hv
        · exact absurd rfl h
        · refine ⟨?_, ?_, ?_⟩
          · intro db4 e4 h
            rw [hs] at h
            cases h
            simpa using hW
          · intro db4 h
            rw [hs] at h
            cases h
          · intro c hc
            rw [hW] at hc
            cases hc
        · refine ⟨?_, ?_, ?_⟩
          · intro db4 e4 h
            rw [hs] at h
            cases h
          · intro db4 h
            rw [hs] at h
            cases h
            simpa using hW
          · intro c _
            rw [hs]
      · rw [ho] at h1
        cases h1
  · intro id db1 owner ho hc
    rcases st with ⟨id2, db2, e, h1, h2, -⟩ | ⟨db2, owner2, log1, hown, hrest⟩
    · rw [ho] at h1
      cases h1
      rw [hc] at h2
      cases h2
    · rcases hown with ⟨h1, -⟩ | ⟨id2, h1, h2, rfl⟩
      · rw [ho] at h1
        cases h1
      · rw [ho] at h1
        cases h1
        rw [hc] at h2
        cases h2
        rcases hrest with ⟨-, db3, e, -, hW⟩ | ⟨-, db3, -, hW⟩ | ⟨-, db3, u, -, hW⟩ | ⟨-, -, hW⟩
          | ⟨-, h, -⟩ | ⟨-, h, -⟩
        · rw [hW]
          simp
        · rw [hW]
          simp
        · rw [hW]
          simp
        · rw [hW]
          simp
        · cases h
        · cases h
  · intro hv
    rcases st with ⟨id2, db2, e, -, -, hW⟩ | ⟨db2, owner2, log1, hown, hrest⟩
    · rw [hW]
      simp
    · have hl : Event.CheckCurrentUserIsSiteAdmin ∉ log1 := by
        rcases hown with ⟨-, -, -, rfl⟩ | ⟨id2, -, -, rfl⟩ <;> simp
      rcases hrest with ⟨-, db3, e, -, hW⟩ | ⟨-, db3, -, hW⟩ | ⟨-, db3, u, -, hW⟩ | ⟨h, -⟩
        | ⟨h, -⟩ | ⟨h, -⟩
      · rw [hW]
        simpa using hl
      · rw [hW]
        simpa using hl
      · rw [hW]
        simpa using hl
      · exact absurd hv h
      · exact absurd hv h
      · exact absurd hv h
  · intro cs hcs
    rcases st with ⟨id2, db2, e, -, -, hW⟩ | ⟨db2, owner2, log1, hown, hrest⟩
    · rw [hW] at hcs
      simp at hcs
    · have hl : Event.CheckCurrentUserIsSiteAdmin ∉ log1 ∧ ∀ cs, Event.NewConnectionResolver cs ∉ log1 := by
        rcases hown with ⟨-, -, -, rfl⟩ | ⟨id2, -, -, rfl⟩ <;> simp
      rcases hrest with ⟨-, db3, e, -, hW⟩ | ⟨-, db3, -, hW⟩ | ⟨-, db3, u, -, hW⟩ | ⟨-, h, hW⟩
        | ⟨-, h, db3, e, -, hW⟩ | ⟨-, h, db3, -, hW⟩
      · rw [hW] at hcs
        simp [hl.2] at hcs
      · rw [hW] at hcs
        simp [hl.2] at hcs
      · rw [hW] at hcs ⊢
        simp [hl.2] at hcs
        subst hcs
        simp [hl.1, workflowsListArgs]
      · rw [hW] at hcs ⊢
        simp [hl.2] at hcs
        subst hcs
        simp [hl.1, workflowsListArgs, h]
      · rw [hW] at hcs
        simp [hl.2] at hcs
      · rw [hW] at hcs ⊢
        simp [hl.2] at hcs
        subst hcs
        simp [workflowsListArgs]

/-- C13 for user 1, who is no site admin, asking for all workflows with no
owner and no affiliation: the site-admin error comes back wrapped and no
connection resolver is made; asking for the affiliated workflows makes no
site-admin check. -/
theorem C13_workflows_site_admin_without_filter_witness :
    ((testWorkflowsArgs none none).Owner = none
      ∧ (testWorkflowsArgs none none).ViewerIsAffiliated ≠ some true)
    ∧ (testResolver ⟨1, false⟩ testStore).Workflows (testWorkflowsArgs none none) emptyTestDB
        = (emptyTestDB,
            .error (Err.wrap ErrMustBeSiteAdmin "must specify owner or viewerIsAffiliated args"),
            [Event.CheckCurrentUserIsSiteAdmin])
    ∧ Event.CheckCurrentUserIsSiteAdmin
        ∉ ((testResolver ⟨1, false⟩ testStore).Workflows (testWorkflowsArgs none (some true))
            emptyTestDB).2.2 :=
  ⟨⟨rfl, by decide⟩,
    ((C13_workflows_site_admin_without_filter (testResolver ⟨1, false⟩ testStore)
      (testWorkflowsArgs none none) emptyTestDB).1 rfl (by decide)).1 emptyTestDB
      ErrMustBeSiteAdmin rfl,
    (C13_workflows_site_admin_without_filter (testResolver ⟨1, false⟩ testStore)
      (testWorkflowsArgs none (some true)) emptyTestDB).2.2.1 rfl⟩

end Resolvers

namespace Resolvers

open Errors Database

/-- C14: when the namespace check of the `Owner` argument fails,
`Resolver.Workflows` returns that error after that one call: no connection
resolver is made and the store's `List` and `Count` are not called.
`Resolver.Workflows` itself never calls them; they are called by
`ComputeNodes` and `ComputeTotal` of a connection store, and one is made for
an `Owner` argument only after its namespace check has passed, with the owner
that check returned. -/
theorem C14_unauthorized_namespace_never_lists {σ A P C : Type} (r : Resolver σ A P C)
    (args : WorkflowsArgs A) (db : σ) :
    (∀ id db1 e, args.Owner = some id →
      r.CheckAuthorizedForNamespace id db = (db1, .error e) →
      r.Workflows args db = (db1, .error e, [Event.CheckAuthorizedForNamespace id]))
    ∧ (∀ ev ∈ (r.Workflows args db).2.2, ev.isListOrCount = false)
    ∧ (∀ cs id, Event.NewConnectionResolver cs ∈ (r.Workflows args db).2.2 →
        args.Owner = some id →
        ∃ db1 owner, r.CheckAuthorizedForNamespace id db = (db1, .ok owner)
          ∧ cs.listArgs.Owner = owner)
    ∧ (∀ (cs : workflowsConnectionStore) (pgArgs : Option P) (db2 : σ),
        (cs.ComputeNodes r pgArgs db2).2.2 = [Event.List cs.listArgs]
          ∧ (cs.ComputeTotal r db2).2.2 = [Event.Count cs.listArgs]) := by
  have st := workflows_stages r args db
  refine ⟨?_, ?_, ?_, ?_⟩
  · intro id db1 e ho hc
    exact workflows_owner_check_fails r args db ho hc
  · intro ev hev
    rcases st with ⟨id2, db2, e, -, -, hW⟩ | ⟨db2, owner2, log1, hown, hrest⟩
    · rw [hW] at hev
      simp only [List.mem_singleton] at hev
      subst hev
      rfl
    · have hl : ∀ ev ∈ log1, ev.isListOrCount = false := by
        rcases hown with ⟨-, -, -, rfl⟩ | ⟨id2, -, -, rfl⟩
        · simp
        · intro ev hev
          simp only [List.mem_singleton] at hev
          subst hev
          rfl
      rcases hrest with ⟨-, db3, e, -, hW⟩ | ⟨-, db3, -, hW⟩ | ⟨-, db3, u, -, hW⟩ | ⟨-, -, hW⟩
        | ⟨-, -, db3, e, -, hW⟩ | ⟨-, -, db3, -, hW⟩
      all_goals
        rw [hW] at hev
        simp only [List.mem_append, List.mem_cons, List.mem_singleton, List.not_mem_nil,
          or_false] at hev
        rcases hev with h | h
        · exact hl ev h
        · rcases h with rfl | rfl <;> rfl
  · intro cs id hcs ho
    rcases st with ⟨id2, db2, e, -, -, hW⟩ | ⟨db2, owner2, log1, hown, hrest⟩
    · rw [hW] at hcs
      simp at hcs
    · rcases hown with ⟨h1, -⟩ | ⟨id2, h1, h2, rfl⟩
      · rw [ho] at h1
        cases h1
      · rw [ho] at h1
        cases h1
        refine ⟨db2, owner2, h2, ?_⟩
        rcases hrest with ⟨-, db3, e, -, hW⟩ | ⟨-, db3, -, hW⟩ | ⟨-, db3, u, -, hW⟩ | ⟨-, -, hW⟩
          | ⟨-, h, db3, e, -, hW⟩ | ⟨-, h, db3, -, hW⟩
        · rw [hW] at hcs
          simp at hcs
        · rw [hW] at hcs
          simp at hcs
        · rw [hW] at hcs
          simp at hcs
          subst hcs
          rfl
        · rw [hW] at hcs
          simp at hcs
          subst hcs
          rfl
        · rw [hW] at hcs
          simp at hcs
        · rw [hW] at hcs
          simp at hcs
          subst hcs
          exact h.symm
  · intro cs pgArgs db2
    constructor
    · simp only [workflowsConnectionStore.ComputeNodes]
      rcases r.db.Workflows.List cs.listArgs pgArgs db2 with ⟨db3, (e | ws)⟩ <;> rfl
    · simp only [workflowsConnectionStore.ComputeTotal]
      rcases r.db.Workflows.Count cs.listArgs db2 with ⟨db3, (e | n)⟩ <;> rfl

/-- C14 as in `TestWorkflowsForDifferentOrg` and
`TestWorkflowsForDifferentUser`: user 1 asks for the workflows of org 2, and
user 2 for those of user 3; each gets the error of the namespace check and
only that check is made. -/
theorem C14_unauthorized_namespace_never_lists_witness :
    ((testWorkflowsArgs (some "T3JnOjI=") none).Owner = some "T3JnOjI="
      ∧ (testResolver ⟨1, false⟩ testStore).CheckAuthorizedForNamespace "T3JnOjI=" emptyTestDB
          = (emptyTestDB, .error ErrNotAnOrgMember))
    ∧ (testResolver ⟨1, false⟩ testStore).Workflows (testWorkflowsArgs (some "T3JnOjI=") none)
          emptyTestDB
        = (emptyTestDB, .error ErrNotAnOrgMember,
            [Event.CheckAuthorizedForNamespace "T3JnOjI="])
    ∧ (testResolver ⟨2, false⟩ testStore).Workflows (testWorkflowsArgs (some "VXNlcjoz") none)
          emptyTestDB
        = (emptyTestDB, .error InsufficientAuthorizationError,
            [Event.CheckAuthorizedForNamespace "VXNlcjoz"]) :=
  ⟨⟨rfl, rfl⟩,
    (C14_unauthorized_namespace_never_lists (testResolver ⟨1, false⟩ testStore)
      (testWorkflowsArgs (some "T3JnOjI=") none) emptyTestDB).1 "T3JnOjI=" emptyTestDB
      ErrNotAnOrgMember rfl rfl,
    (C14_unauthorized_namespace_never_lists (testResolver ⟨2, false⟩ testStore)
      (testWorkflowsArgs (some "VXNlcjoz") none) emptyTestDB).1 "VXNlcjoz" emptyTestDB
      InsufficientAuthorizationError rfl rfl⟩

end Resolvers

namespace Database

open Errors

/-- A column that a `SET` list does not name keeps its value. -/
theorem row_get_assign (resolve : SQLValue → SQLValue) (sets : List (String × SQLValue))
    (row : Row) (c : String) (h : c ∉ sets.map Prod.fst) :
    (Row.assign resolve sets row).get c = row.get c := by
  induction sets with
  | nil => rfl
  | cons s sets ih =>
    simp only [List.map_cons, List.mem_cons, not_or] at h
    have ih2 := ih h.2
    simp only [Row.assign, Row.get, List.map_cons, List.cons_append, List.lookup_cons] at ih2 ⊢
    have hne : (c == s.1) = false := by simpa using h.1
    rw [hne]
    exact ih2

/-- A `SELECT` leaves the test database as it is. -/
theorem testBaseStore_select_read_only : SelectIsReadOnly testBaseStore := by
  intro table columns id db
  simp only [testBaseStore, TestDB.QueryRow]
  cases db.find table id <;> rfl

/-- The fields of a scanned workflow that come from the identity, owner and
creation columns. -/
theorem scanWorkflow_fields {v0 v1 v2 v3 v4 v5 v6 v7 v8 v9 v10 : SQLValue} {w : Workflow}
    (h : scanWorkflow (.ok [v0, v1, v2, v3, v4, v5, v6, v7, v8, v9, v10]) = .ok w) :
    v0.asInt = some w.ID ∧ v5.asOptInt = some w.Owner.User ∧ v6.asOptInt = some w.Owner.Org
      ∧ v7.asOptInt = some w.CreatedByUser ∧ v8.asTime = some w.CreatedAt := by
  simp only [scanWorkflow] at h
  cases hrow : scanWorkflowRow [v0, v1, v2, v3, v4, v5, v6, v7, v8, v9, v10] with
  | none => rw [hrow] at h; cases h
  | some w2 =>
    rw [hrow] at h
    cases h
    simp only [scanWorkflowRow] at hrow
    split at hrow
    · split at hrow
      · cases hrow
        simp_all
      · cases hrow
    · cases hrow

/-- The test database keeps the columns an `UPDATE` does not set. -/
theorem testBaseStore_keeps_unset_columns : KeepsUnsetColumns testBaseStore := by
  intro sets id db old new hold hnew hc
  simp only [testBaseStore, TestDB.QueryRow] at hold hnew
  cases hf : db.find "workflows" id with
  | none =>
    rw [hf] at hold
    simp [scanWorkflow] at hold
  | some row =>
    rw [hf] at hold hnew
    simp only [workflowReadColumns, workflowWriteColumns, List.cons_append, List.nil_append,
      List.map_cons, List.map_nil] at hold hnew
    have ho := scanWorkflow_fields hold
    have hn := scanWorkflow_fields hnew
    have g : ∀ c ∈ ["id", "owner_user_id", "owner_org_id", "created_by", "created_at"],
        (Row.assign db.resolve sets row).get c = row.get c :=
      fun c hcm => row_get_assign db.resolve sets row c (hc c hcm)
    rw [g "id" (by simp)] at hn
    rw [g "owner_user_id" (by simp), g "owner_org_id" (by simp), g "created_by" (by simp),
      g "created_at" (by simp)] at hn
    obtain ⟨o1, o2, o3, o4, o5⟩ := ho
    obtain ⟨n1, n2, n3, n4, n5⟩ := hn
    rw [o1] at n1
    rw [o2] at n2
    rw [o3] at n3
    rw [o4] at n4
    rw [o5] at n5
    have e1 := Option.some.inj n1
    have e2 := Option.some.inj n2
    have e3 := Option.some.inj n3
    have e4 := Option.some.inj n4
    have e5 := Option.some.inj n5
    refine ⟨e1.symm, ?_, e4.symm, e5.symm⟩
    cases hO : old.Owner
    cases hN : new.Owner
    rw [hO] at e2 e3
    rw [hN] at e2 e3
    simp only at e2 e3
    rw [e2, e3]

end Database

namespace Resolvers

open Errors Database

/-- The `SET` list of `workflowStore.Update` names none of the identity,
owner and creation columns. -/
theorem workflowFieldUpdates_columns (w : Workflow) (uid : Int) :
    ∀ c ∈ ["id", "owner_user_id", "owner_org_id", "created_by", "created_at"],
      c ∉ (workflowFieldUpdates w uid).map Prod.fst := by
  simp only [workflowFieldUpdates, List.map_cons, List.map_nil]
  decide

/-- On a database that keeps the columns an `UPDATE` does not set,
`workflowStore.Update` returns the workflow with the id, owner, creator and
creation time that `GetByID` returns for it in the same state. -/
theorem update_keeps_owner {σ : Type} (base : BaseStore σ) (hframe : KeepsUnsetColumns base)
    (w : Workflow) (uid : Int) (db : σ) (old new : Workflow)
    (hold : (workflowStore.GetByID ⟨base⟩ w.ID db).2 = .ok old)
    (hnew : (workflowStore.Update ⟨base⟩ w uid db).2 = .ok new) :
    new.ID = old.ID ∧ new.Owner = old.Owner ∧ new.CreatedByUser = old.CreatedByUser
      ∧ new.CreatedAt = old.CreatedAt :=
  hframe (workflowFieldUpdates w uid) w.ID db old new hold hnew (workflowFieldUpdates_columns w uid)

/-- C16: `workflowStore.Update` issues one `UPDATE` of the table `workflows`
whose `SET` list is exactly name, description, template_text, draft,
updated_by (the acting user) and updated_at (`now()`), for the row with the
ID of its argument; the `Owner` and `CreatedByUser` of the argument play no
part.  `Resolver.UpdateWorkflow` calls it with the id decoded from the request
and the owner of the workflow `GetByID` returned.  On a database that keeps
the columns an `UPDATE` does not set and that reads and authorization checks
leave as it is, the workflow returned has the owner and the creator that
`GetByID` returned before the update. -/
theorem C16_update_keeps_owner_and_creator {σ A P C : Type} (base : BaseStore σ)
    (r : Resolver σ A P C)
    (list : WorkflowListArgs → Option P → σ → σ × Except Err (List Workflow))
    (count : WorkflowListArgs → σ → σ × Except Err Int)
    (hstore : r.db.Workflows = workflowStore.asWorkflowStore ⟨base⟩ list count)
    (hframe : KeepsUnsetColumns base) (hread : SelectIsReadOnly base)
    (hcheck : ∀ owner db, (r.CheckAuthorizedForNamespaceByIDs owner db).1 = db) :
    (∀ (w : Workflow) (uid : Int) (db : σ),
      workflowStore.Update ⟨base⟩ w uid db
        = ((base.QueryRow
              (Statement.update "workflows"
                [("name", SQLValue.text w.Name), ("description", SQLValue.text w.Description),
                  ("template_text", SQLValue.text w.TemplateText),
                  ("draft", SQLValue.boolean w.Draft), ("updated_by", SQLValue.int uid),
                  ("updated_at", SQLValue.now)]
                w.ID ("id" :: workflowReadColumns)) db).1,
            scanWorkflow (base.QueryRow
              (Statement.update "workflows"
                [("name", SQLValue.text w.Name), ("description", SQLValue.text w.Description),
                  ("template_text", SQLValue.text w.TemplateText),
                  ("draft", SQLValue.boolean w.Draft), ("updated_by", SQLValue.int uid),
                  ("updated_at", SQLValue.now)]
                w.ID ("id" :: workflowReadColumns)) db).2))
    ∧ (∀ (w : Workflow) (uid : Int) (db : σ) (owner : Namespace) (creator : Option Int),
        workflowStore.Update ⟨base⟩ { w with Owner := owner, CreatedByUser := creator } uid db
          = workflowStore.Update ⟨base⟩ w uid db)
    ∧ (∀ (w : Workflow) (uid : Int) (db : σ) (old new : Workflow),
        (workflowStore.GetByID ⟨base⟩ w.ID db).2 = .ok old →
        (workflowStore.Update ⟨base⟩ w uid db).2 = .ok new →
        new.ID = old.ID ∧ new.Owner = old.Owner ∧ new.CreatedByUser = old.CreatedByUser
          ∧ new.CreatedAt = old.CreatedAt)
    ∧ (∀ (args : UpdateWorkflowArgs) (db : σ) (w : Workflow) (uid : Int),
        Event.Update w uid ∈ (r.UpdateWorkflow args db).2.2 →
        ∃ id old, unmarshalWorkflowID r args.ID = .ok id
          ∧ (r.db.Workflows.GetByID id db).2 = .ok old
          ∧ w.ID = id ∧ w.Owner = old.Owner
          ∧ w.Name = args.Input.Name ∧ w.Description = args.Input.Description
          ∧ w.TemplateText = args.Input.TemplateText ∧ w.Draft = args.Input.Draft
          ∧ uid = r.ActorUID)
    ∧ (∀ (args : UpdateWorkflowArgs) (db : σ) (res : workflowResolver),
        (r.UpdateWorkflow args db).2.1 = .ok res →
        ∃ id old, unmarshalWorkflowID r args.ID = .ok id
          ∧ (r.db.Workflows.GetByID id db).2 = .ok old
          ∧ res.s.Owner = old.Owner ∧ res.s.CreatedByUser = old.CreatedByUser) := by
  refine ⟨?_, ?_, ?_, ?_, ?_⟩
  · intro w uid db
    rfl
  · intro w uid db owner creator
    rfl
  · intro w uid db old new hold hnew
    exact update_keeps_owner base hframe w uid db old new hold hnew
  · intro args db w uid hev
    rcases updateWorkflow_stages r args db with ⟨e, h1⟩ | ⟨id, db1, e, h1, h2⟩
      | ⟨id, db1, old, db2, e, h1, h2, h3⟩ | ⟨id, db1, old, db2, h1, h2, h3⟩
    · rw [updateWorkflow_bad_id r args db h1] at hev
      simp at hev
    · rw [updateWorkflow_get_fails r args db h1 h2] at hev
      simp at hev
    · rw [updateWorkflow_unauthorized r args db h1 h2 h3] at hev
      simp at hev
    · rw [updateWorkflow_authorized r args db h1 h2 h3] at hev
      simp only [List.mem_cons, List.mem_singleton, List.not_mem_nil, or_false] at hev
      rcases hev with h | h | h
      · cases h
      · cases h
      · cases h
        exact ⟨id, old, h1, by rw [h2], rfl, rfl, rfl, rfl, rfl, rfl, rfl⟩
  · intro args db res hres
    rcases updateWorkflow_stages r args db with ⟨e, h1⟩ | ⟨id, db1, e, h1, h2⟩
      | ⟨id, db1, old, db2, e, h1, h2, h3⟩ | ⟨id, db1, old, db2, h1, h2, h3⟩
    · rw [updateWorkflow_bad_id r args db h1] at hres
      cases hres
    · rw [updateWorkflow_get_fails r args db h1 h2] at hres
      cases hres
    · rw [updateWorkflow_unauthorized r args db h1 h2 h3] at hres
      cases hres
    · rw [updateWorkflow_authorized r args db h1 h2 h3] at hres
      refine ⟨id, old, h1, by rw [h2], ?_⟩
      have hdb1 : db1 = db := by
        have := hread "workflows" ("id" :: workflowReadColumns) id db
        have h4 := congrArg Prod.fst h2
        rw [hstore] at h4
        simp only [workflowStore.asWorkflowStore, workflowStore.GetByID] at h4
        rw [← h4]
        exact this
      have hdb2 : db2 = db1 := by
        have := hcheck old.Owner db1
        rw [h3] at this
        exact this
      subst hdb2
      subst hdb1
      have hold : (workflowStore.GetByID ⟨base⟩ (updateWorkflowValue id args.Input old).ID
          db2).2 = .ok old := by
        have h4 := congrArg Prod.snd h2
        rw [hstore] at h4
        exact h4
      rw [hstore] at hres
      simp only [workflowStore.asWorkflowStore] at hres
      cases hu : (workflowStore.Update ⟨base⟩ (updateWorkflowValue id args.Input old) r.ActorUID
          db2).2 with
      | error e =>
        rw [hu] at hres
        cases hres
      | ok ss =>
        rw [hu] at hres
        cases hres
        have := update_keeps_owner base hframe _ _ _ _ _ hold hu
        exact ⟨this.2.1, this.2.2.1⟩

/-- C16 as in `TestWorkflowsUpdate`: on the test database, which keeps the
columns an `UPDATE` does not set, the update of workflow 1 with a name and a
template only returns it with the owner and the creator it was created with;
and user 1 updating the workflow through the resolver gets it back with user
1 as the owner. -/
theorem C16_update_keeps_owner_and_creator_witness :
    (KeepsUnsetColumns testBaseStore ∧ SelectIsReadOnly testBaseStore)
    ∧ ((workflowStore.GetByID testWorkflowStore testUpdateInput.ID testDBWithWorkflow).2
          = .ok { testCreateInput with
                    ID := 1, CreatedByUser := some 1, UpdatedByUser := some 1,
                    CreatedAt := 100, UpdatedAt := 100 }
        ∧ (workflowStore.Update testWorkflowStore testUpdateInput 1 testDBWithWorkflow).2
          = .ok { testUpdateInput with
                    Owner := NamespaceUser 1, CreatedByUser := some 1, UpdatedByUser := some 1,
                    CreatedAt := 100, UpdatedAt := 101 })
    ∧ (({ testUpdateInput with
            Owner := NamespaceUser 1, CreatedByUser := some 1, UpdatedByUser := some 1,
            CreatedAt := 100, UpdatedAt := 101 } : Workflow).Owner
          = ({ testCreateInput with
                ID := 1, CreatedByUser := some 1, UpdatedByUser := some 1,
                CreatedAt := 100, UpdatedAt := 100 } : Workflow).Owner)
    ∧ ((testResolver ⟨1, false⟩ testStore).UpdateWorkflow testUpdateArgs testDBWithWorkflow).2.1
        = .ok ⟨{ testUpdateInput with
                  Name := "n2", TemplateText := "", Draft := true,
                  Owner := NamespaceUser 1, CreatedByUser := some 1, UpdatedByUser := some 1,
                  CreatedAt := 100, UpdatedAt := 101 }⟩ :=
  ⟨⟨testBaseStore_keeps_unset_columns, testBaseStore_select_read_only⟩,
    ⟨rfl, rfl⟩,
    ((C16_update_keeps_owner_and_creator testBaseStore (testResolver ⟨1, false⟩ testStore)
      _ _ rfl testBaseStore_keeps_unset_columns testBaseStore_select_read_only
      (fun _ _ => rfl)).2.2.1 testUpdateInput 1 testDBWithWorkflow _ _ rfl rfl).2.1,
    rfl⟩

end Resolvers

namespace Httpapi

/-- C17 for a token with the scope `repo:read` on a route that asks for
`repo:read` and `repo:write`: the condition fails and the one thing written
is the 403 answer; on a route that asks for `repo:read` the request is
served. -/
theorem C17_token_scopes_middleware_witness :
    (¬ scopesSatisfied "user:all" "site-admin:sudo" ["repo:read", "repo:write"]
        tokenRequest.Actor
      ∧ scopesSatisfied "user:all" "site-admin:sudo" ["repo:read"] tokenRequest.Actor)
    ∧ (∃ s, restTokenScopesMiddleware recorder "user:all" "site-admin:sudo"
          ["repo:read", "repo:write"] recordingNext [] tokenRequest
        = [Written.error ("forbidden, missing token scope: " ++ s) 403])
    ∧ restTokenScopesMiddleware recorder "user:all" "site-admin:sudo" ["repo:read"]
          recordingNext [] tokenRequest
        = recordingNext [] tokenRequest :=
  ⟨⟨by unfold scopesSatisfied; decide, by unfold scopesSatisfied; decide⟩,
    (C17_token_scopes_middleware recorder "user:all" "site-admin:sudo"
      ["repo:read", "repo:write"] recordingNext [] tokenRequest).2.2.2
      (by unfold scopesSatisfied; decide),
    (C17_token_scopes_middleware recorder "user:all" "site-admin:sudo" ["repo:read"]
      recordingNext [] tokenRequest).1 (by unfold scopesSatisfied; decide)⟩

end Httpapi

namespace Keyword

/-- C19 at the table key `repository`, with a stemmer that returns its input:
the result is `repo`. -/
theorem C19_stemTerm_prefix_of_input_witness :
    mapGet codeSearchStems "repository" = some "repo"
      ∧ stemTerm (fun s => .ok s) "repository" = "repo" :=
  ⟨rfl, (C19_stemTerm_prefix_of_input (fun s => .ok s) "repository").2.1 "repo" rfl⟩

end Keyword

namespace InsightsStore

/-- C20 for one pushed hook and two invocations: the first is served by the
pushed hook, the second by the default hook. -/
theorem C20_hook_queue_fifo_witness :
    (([5, 6] : List Nat)[0]? = some 5 ∧ ([5, 6] : List Nat)[1]? = some 6)
    ∧ (invokeAll (pushAll ⟨⟨fun _ => ([], none), [], []⟩⟩ [fun n => ([(n : Int)], none)])
          [5, 6]).2[0]?
        = some ((([fun n => ([(n : Int)], none)] :
            List (Nat → List Int × Option Errors.Err)).getD 0 (fun _ => ([], none))) 5)
    ∧ (invokeAll (pushAll ⟨⟨fun _ => ([], none), [], []⟩⟩ [fun n => ([(n : Int)], none)])
          [5, 6]).2[1]?
        = some ((([fun n => ([(n : Int)], none)] :
            List (Nat → List Int × Option Errors.Err)).getD 1 (fun _ => ([], none))) 6) :=
  ⟨⟨rfl, rfl⟩,
    (C20_hook_queue_fifo (fun _ => ([], none)) (fun _ => ([], none)) []
      [fun n => ([(n : Int)], none)] [5, 6]).2.1 0 5 rfl,
    (C20_hook_queue_fifo (fun _ => ([], none)) (fun _ => ([], none)) []
      [fun n => ([(n : Int)], none)] [5, 6]).2.1 1 6 rfl⟩

end InsightsStore

namespace Database

open Errors

/-- An order value is one of the three defined ones or none of them. -/
theorem orderBy_cases (ob : Nat) : ob = 0 ∨ ob = 1 ∨ ob = 2 ∨ (ob ≠ 0 ∧ ob ≠ 1 ∧ ob ≠ 2) := by
  omega

/-- `WorkflowListArgs.toSQL` against the specification: an invalid owner is
the first error, an `OrderBy` that is not defined the second, and otherwise
the where-list is that of the filter conditions in their order. -/
theorem workflow_toSQL_eq (a : WorkflowListArgs) :
    a.toSQL =
      if validOwner a.Owner = false then
        ([], ([], false), some (Err.new "invalid owner (no user or org ID)"))
      else
        match workflowOrder a.OrderBy with
        | none => ([], ([], false), some (Err.new "invalid OrderBy"))
        | some order => (whereOf a.filterConditions, order, none) := by
  rcases a with ⟨q, aff, owner, hd, ob⟩
  cases owner with
  | none =>
    by_cases hq : q = "" <;> cases aff <;> cases hd <;>
      rcases orderBy_cases ob with rfl | rfl | rfl | ⟨h0, h1, h2⟩ <;>
      simp [WorkflowListArgs.toSQL, validOwner, workflowOrder, whereOf,
        WorkflowListArgs.filterConditions, WorkflowsOrderByID,
        WorkflowsOrderByNameWithOwner, WorkflowsOrderByUpdatedAt, hq, *]
  | some o =>
    cases hu : nonZeroID o.User <;> cases ho : nonZeroID o.Org <;>
      by_cases hq : q = "" <;> cases aff <;> cases hd <;>
      rcases orderBy_cases ob with rfl | rfl | rfl | ⟨h0, h1, h2⟩ <;>
      simp [WorkflowListArgs.toSQL, validOwner, workflowOrder, whereOf,
        WorkflowListArgs.filterConditions, workflowOwnerCondition, WorkflowsOrderByID,
        WorkflowsOrderByNameWithOwner, WorkflowsOrderByUpdatedAt, hq, hu, ho, *]

/-- `SavedSearchListArgs.toSQL` against the specification. -/
theorem savedSearch_toSQL_eq (a : SavedSearchListArgs) :
    a.toSQL =
      if validOwner a.Owner = false then
        ([], ([], false), some (Err.new "invalid owner (no user or org ID)"))
      else
        match savedSearchOrder a.OrderBy with
        | none => ([], ([], false), some (Err.new "invalid OrderBy"))
        | some order => (whereOf a.filterConditions, order, none) := by
  rcases a with ⟨q, aff, owner, ob⟩
  cases owner with
  | none =>
    by_cases hq : q = "" <;> cases aff <;>
      rcases orderBy_cases ob with rfl | rfl | rfl | ⟨h0, h1, h2⟩ <;>
      simp [SavedSearchListArgs.toSQL, validOwner, savedSearchOrder, whereOf,
        SavedSearchListArgs.filterConditions, SavedSearchesOrderByID,
        SavedSearchesOrderByDescription, SavedSearchesOrderByUpdatedAt, hq, *]
  | some o =>
    cases hu : nonZeroID o.User <;> cases ho : nonZeroID o.Org <;>
      by_cases hq : q = "" <;> cases aff <;>
      rcases orderBy_cases ob with rfl | rfl | rfl | ⟨h0, h1, h2⟩ <;>
      simp [SavedSearchListArgs.toSQL, validOwner, savedSearchOrder, whereOf,
        SavedSearchListArgs.filterConditions, savedSearchOwnerCondition, SavedSearchesOrderByID,
        SavedSearchesOrderByDescription, SavedSearchesOrderByUpdatedAt, hq, hu, ho, *]

/-- The test `p != nil && *p != 0` fails exactly for nil and for a pointer
to 0. -/
theorem nonZeroID_eq_none (p : Option Int) : nonZeroID p = none ↔ p = none ∨ p = some 0 := by
  cases p with
  | none => simp [nonZeroID]
  | some n =>
    by_cases h : n = 0 <;> simp [nonZeroID, h]

/-- The test `p != nil && *p != 0` holds exactly for a pointer to an id that
is not 0. -/
theorem nonZeroID_eq_some (p : Option Int) (n : Int) :
    nonZeroID p = some n ↔ p = some n ∧ n ≠ 0 := by
  cases p with
  | none => simp [nonZeroID]
  | some m =>
    by_cases h : m = 0
    · subst h
      simp [nonZeroID]
      intro h2
      exact h2.symm
    · simp [nonZeroID, h]
      intro h2
      subst h2
      exact h

end Database

namespace Database

open Errors

/-- With a valid owner every active filter gives one condition. -/
theorem filterConditions_length (a : WorkflowListArgs) (hv : validOwner a.Owner = true) :
    a.filterConditions.length = a.activeFilters := by
  rcases a with ⟨q, aff, owner, hd, ob⟩
  cases owner with
  | none =>
    by_cases hq : q = "" <;> cases aff <;> cases hd <;>
      simp [WorkflowListArgs.filterConditions, WorkflowListArgs.activeFilters, hq]
  | some o =>
    cases hu : nonZeroID o.User <;> cases ho : nonZeroID o.Org <;>
      simp [validOwner, hu, ho] at hv <;>
      by_cases hq : q = "" <;> cases aff <;> cases hd <;>
      simp [WorkflowListArgs.filterConditions, WorkflowListArgs.activeFilters,
        workflowOwnerCondition, hq, hu, ho]

/-- No filter condition of workflows is the condition `TRUE`. -/
theorem true_not_mem_filterConditions (a : WorkflowListArgs) :
    SqlfQuery.Sprintf "TRUE" [] ∉ a.filterConditions := by
  rcases a with ⟨q, aff, owner, hd, ob⟩
  cases owner with
  | none =>
    by_cases hq : q = "" <;> cases aff <;> cases hd <;>
      simp [WorkflowListArgs.filterConditions, workflowQueryCondition,
        workflowAffiliatedCondition, hq]
  | some o =>
    cases hu : nonZeroID o.User <;> cases ho : nonZeroID o.Org <;>
      by_cases hq : q = "" <;> cases aff <;> cases hd <;>
      simp [WorkflowListArgs.filterConditions, workflowQueryCondition,
        workflowAffiliatedCondition, workflowOwnerCondition, hq, hu, ho]

/-- The condition `NOT draft` is among the filter conditions of workflows
exactly when `HideDrafts` is set. -/
theorem not_draft_mem_filterConditions (a : WorkflowListArgs) :
    SqlfQuery.Sprintf "NOT draft" [] ∈ a.filterConditions ↔ a.HideDrafts = true := by
  rcases a with ⟨q, aff, owner, hd, ob⟩
  cases owner with
  | none =>
    by_cases hq : q = "" <;> cases aff <;> cases hd <;>
      simp [WorkflowListArgs.filterConditions, workflowQueryCondition,
        workflowAffiliatedCondition, hq]
  | some o =>
    cases hu : nonZeroID o.User <;> cases ho : nonZeroID o.Org <;>
      by_cases hq : q = "" <;> cases aff <;> cases hd <;>
      simp [WorkflowListArgs.filterConditions, workflowQueryCondition,
        workflowAffiliatedCondition, workflowOwnerCondition, hq, hu, ho]

/-- The owner conditions among the filter conditions of workflows are the one
of the owner, if there is an owner and it is valid. -/
theorem filter_owner_filterConditions (a : WorkflowListArgs) :
    a.filterConditions.filter isWorkflowOwnerCondition
      = (match a.Owner with
        | some owner => (workflowOwnerCondition owner).toList
        | none => []) := by
  rcases a with ⟨q, aff, owner, hd, ob⟩
  cases owner with
  | none =>
    by_cases hq : q = "" <;> cases aff <;> cases hd <;>
      simp [WorkflowListArgs.filterConditions, workflowQueryCondition,
        workflowAffiliatedCondition, isWorkflowOwnerCondition, hq]
  | some o =>
    cases hu : nonZeroID o.User <;> cases ho : nonZeroID o.Org <;>
      by_cases hq : q = "" <;> cases aff <;> cases hd <;>
      simp [WorkflowListArgs.filterConditions, workflowQueryCondition,
        workflowAffiliatedCondition, workflowOwnerCondition, isWorkflowOwnerCondition, hq, hu, ho]

/-- The owner conditions among the filter conditions of saved searches. -/
theorem filter_owner_savedSearch_filterConditions (a : SavedSearchListArgs) :
    a.filterConditions.filter isSavedSearchOwnerCondition
      = (match a.Owner with
        | some owner => (savedSearchOwnerCondition owner).toList
        | none => []) := by
  rcases a with ⟨q, aff, owner, ob⟩
  cases owner with
  | none =>
    by_cases hq : q = "" <;> cases aff <;>
      simp [SavedSearchListArgs.filterConditions, savedSearchQueryCondition,
        savedSearchAffiliatedCondition, isSavedSearchOwnerCondition, hq]
  | some o =>
    cases hu : nonZeroID o.User <;> cases ho : nonZeroID o.Org <;>
      by_cases hq : q = "" <;> cases aff <;>
      simp [SavedSearchListArgs.filterConditions, savedSearchQueryCondition,
        savedSearchAffiliatedCondition, savedSearchOwnerCondition, isSavedSearchOwnerCondition,
        hq, hu, ho]

/-- The where-list of a successful `WorkflowListArgs.toSQL`. -/
theorem workflow_toSQL_ok (a : WorkflowListArgs) (h : a.toSQL.2.2 = none) :
    validOwner a.Owner = true ∧ ∃ order, workflowOrder a.OrderBy = some order
      ∧ a.toSQL = (whereOf a.filterConditions, order, none) := by
  have e := workflow_toSQL_eq a
  cases hv : validOwner a.Owner with
  | false =>
    rw [hv] at e
    simp only [if_true] at e
    rw [e] at h
    cases h
  | true =>
    rw [hv] at e
    cases ho : workflowOrder a.OrderBy with
    | none =>
      rw [ho] at e
      simp at e
      rw [e] at h
      cases h
    | some order =>
      rw [ho] at e
      simp at e
      exact ⟨rfl, order, rfl, e⟩

/-- The where-list of a successful `SavedSearchListArgs.toSQL`. -/
theorem savedSearch_toSQL_ok (a : SavedSearchListArgs) (h : a.toSQL.2.2 = none) :
    validOwner a.Owner = true ∧ ∃ order, savedSearchOrder a.OrderBy = some order
      ∧ a.toSQL = (whereOf a.filterConditions, order, none) := by
  have e := savedSearch_toSQL_eq a
  cases hv : validOwner a.Owner with
  | false =>
    rw [hv] at e
    simp only [if_true] at e
    rw [e] at h
    cases h
  | true =>
    rw [hv] at e
    cases ho : savedSearchOrder a.OrderBy with
    | none =>
      rw [ho] at e
      simp at e
      rw [e] at h
      cases h
    | some order =>
      rw [ho] at e
      simp at e
      exact ⟨rfl, order, rfl, e⟩

end Database

namespace Database

open Errors

/-- An owner whose user id and org id are both nil or zero is not valid. -/
theorem validOwner_false (owner : Namespace)
    (huser : owner.User = none ∨ owner.User = some 0)
    (horg : owner.Org = none ∨ owner.Org = some 0) : validOwner (some owner) = false := by
  simp [validOwner, (nonZeroID_eq_none owner.User).2 huser, (nonZeroID_eq_none owner.Org).2 horg]

/-- An owner with a user id or an org id that is not zero is valid. -/
theorem validOwner_true (owner : Namespace)
    (h : (∃ n, owner.User = some n ∧ n ≠ 0) ∨ (∃ n, owner.Org = some n ∧ n ≠ 0)) :
    validOwner (some owner) = true := by
  rcases h with ⟨n, h1, h2⟩ | ⟨n, h1, h2⟩
  · simp [validOwner, (nonZeroID_eq_some owner.User n).2 ⟨h1, h2⟩]
  · simp [validOwner, (nonZeroID_eq_some owner.Org n).2 ⟨h1, h2⟩]

/-- C22: for list arguments of workflows, and of saved searches, with an
owner whose user id is nil or 0 and whose org id is nil or 0, `toSQL` returns
the error `invalid owner (no user or org ID)` and an empty where-list, and
`List` and `Count` return that error on any base store with the state
untouched and no query recorded; with an owner that has a user id or an org
id that is not 0, `toSQL` does not return that error. -/
theorem C22_invalid_owner_rejected {σ R QA : Type} (pgn : PaginationOps R QA)
    (base : QueryStore σ) (db : σ) (log : List SqlfQuery) :
    (∀ (a : WorkflowListArgs) (owner : Namespace), a.Owner = some owner →
      (owner.User = none ∨ owner.User = some 0) → (owner.Org = none ∨ owner.Org = some 0) →
      a.toSQL = ([], ([], false), some (Err.new "invalid owner (no user or org ID)"))
        ∧ (∀ p, workflowStore.List pgn ⟨base⟩ a p db
            = (db, .error (Err.new "invalid owner (no user or org ID)")))
        ∧ workflowStore.Count ⟨base⟩ a db
            = (db, .error (Err.new "invalid owner (no user or org ID)"))
        ∧ (∀ p, (workflowStore.List pgn ⟨base.logged⟩ a p (db, log)).1 = (db, log))
        ∧ (workflowStore.Count ⟨base.logged⟩ a (db, log)).1 = (db, log))
    ∧ (∀ (a : SavedSearchListArgs) (owner : Namespace), a.Owner = some owner →
      (owner.User = none ∨ owner.User = some 0) → (owner.Org = none ∨ owner.Org = some 0) →
      a.toSQL = ([], ([], false), some (Err.new "invalid owner (no user or org ID)"))
        ∧ (∀ p, savedSearchStore.List pgn ⟨base⟩ a p db
            = (db, .error (Err.new "invalid owner (no user or org ID)")))
        ∧ savedSearchStore.Count ⟨base⟩ a db
            = (db, .error (Err.new "invalid owner (no user or org ID)"))
        ∧ (∀ p, (savedSearchStore.List pgn ⟨base.logged⟩ a p (db, log)).1 = (db, log))
        ∧ (savedSearchStore.Count ⟨base.logged⟩ a (db, log)).1 = (db, log))
    ∧ (∀ (a : WorkflowListArgs) (owner : Namespace), a.Owner = some owner →
      ((∃ n, owner.User = some n ∧ n ≠ 0) ∨ (∃ n, owner.Org = some n ∧ n ≠ 0)) →
      a.toSQL.2.2 ≠ some (Err.new "invalid owner (no user or org ID)"))
    ∧ (∀ (a : SavedSearchListArgs) (owner : Namespace), a.Owner = some owner →
      ((∃ n, owner.User = some n ∧ n ≠ 0) ∨ (∃ n, owner.Org = some n ∧ n ≠ 0)) →
      a.toSQL.2.2 ≠ some (Err.new "invalid owner (no user or org ID)")) := by
  refine ⟨?_, ?_, ?_, ?_⟩
  · intro a owner ho huser horg
    have e : a.toSQL = ([], ([], false), some (Err.new "invalid owner (no user or org ID)")) := by
      rw [workflow_toSQL_eq a, ho, validOwner_false owner huser horg]
      rfl
    refine ⟨e, ?_, ?_, ?_, ?_⟩
    · intro p
      simp only [workflowStore.List, e]
    · simp only [workflowStore.Count, e]
    · intro p
      simp only [workflowStore.List, e]
    · simp only [workflowStore.Count, e]
  · intro a owner ho huser horg
    have e : a.toSQL = ([], ([], false), some (Err.new "invalid owner (no user or org ID)")) := by
      rw [savedSearch_toSQL_eq a, ho, validOwner_false owner huser horg]
      rfl
    refine ⟨e, ?_, ?_, ?_, ?_⟩
    · intro p
      simp only [savedSearchStore.List, e]
    · simp only [savedSearchStore.Count, e]
    · intro p
      simp only [savedSearchStore.List, e]
    · simp only [savedSearchStore.Count, e]
  · intro a owner ho hv
    rw [workflow_toSQL_eq a, ho, validOwner_true owner hv]
    cases workflowOrder a.OrderBy <;> simp
  · intro a owner ho hv
    rw [savedSearch_toSQL_eq a, ho, validOwner_true owner hv]
    cases savedSearchOrder a.OrderBy <;> simp

/-- C22 for an owner whose user id points to 0 and whose org id is nil: the
list of workflows fails with the error and records no query; the owner of
`TestWorkflows_ListCount`, user 1, is accepted. -/
theorem C22_invalid_owner_rejected_witness :
    ((⟨"", none, some ⟨some 0, none⟩, false, 0⟩ : WorkflowListArgs).Owner = some ⟨some 0, none⟩
      ∧ ((⟨some 0, none⟩ : Namespace).User = none ∨ (⟨some 0, none⟩ : Namespace).User = some 0)
      ∧ ((⟨some 0, none⟩ : Namespace).Org = none ∨ (⟨some 0, none⟩ : Namespace).Org = some 0))
    ∧ (workflowStore.List testPagination ⟨testQueryStore.logged⟩
          ⟨"", none, some ⟨some 0, none⟩, false, 0⟩ none (emptyTestDB, [])).1
        = (emptyTestDB, [])
    ∧ (⟨"", none, some (NamespaceUser 1), false, 0⟩ : WorkflowListArgs).toSQL.2.2
        ≠ some (Err.new "invalid owner (no user or org ID)") :=
  ⟨⟨rfl, Or.inr rfl, Or.inl rfl⟩,
    ((C22_invalid_owner_rejected testPagination testQueryStore emptyTestDB []).1
      ⟨"", none, some ⟨some 0, none⟩, false, 0⟩ ⟨some 0, none⟩ rfl (Or.inr rfl)
      (Or.inl rfl)).2.2.2.1 none,
    (C22_invalid_owner_rejected testPagination testQueryStore emptyTestDB []).2.2.1
      ⟨"", none, some (NamespaceUser 1), false, 0⟩ (NamespaceUser 1) rfl
      (Or.inl ⟨1, rfl, by decide⟩)⟩

end Database

namespace Database

open Errors

/-- C28: when `WorkflowListArgs.toSQL` succeeds, its where-list is not empty
and has `max 1 k` conditions, `k` the number of active filters; it is the one
condition `TRUE` exactly when no filter is active; and otherwise it is the
conditions of the active filters in the order query, affiliated user, owner,
drafts. -/
theorem C28_where_list_shape (a : WorkflowListArgs) (h : a.toSQL.2.2 = none) :
    a.toSQL.1 ≠ []
    ∧ a.toSQL.1.length = max 1 a.activeFilters
    ∧ (a.toSQL.1 = [SqlfQuery.Sprintf "TRUE" []] ↔ a.activeFilters = 0)
    ∧ (0 < a.activeFilters →
        a.toSQL.1
          = (if a.Query ≠ "" then [workflowQueryCondition a.Query] else [])
            ++ (match a.AffiliatedUser with
                | some user => [workflowAffiliatedCondition user]
                | none => [])
            ++ (match a.Owner with
                | some owner => (workflowOwnerCondition owner).toList
                | none => [])
            ++ (if a.HideDrafts then [SqlfQuery.Sprintf "NOT draft" []] else [])) := by
  obtain ⟨hv, order, -, e⟩ := workflow_toSQL_ok a h
  have hl := filterConditions_length a hv
  have ht := true_not_mem_filterConditions a
  rw [e]
  simp only
  cases hc : a.filterConditions with
  | nil =>
    rw [hc] at hl
    simp only [List.length_nil] at hl
    simp [whereOf, ← hl]
  | cons c cs =>
    rw [hc] at hl ht
    simp only [List.length_cons] at hl
    have hk : 0 < a.activeFilters := by omega
    refine ⟨by simp [whereOf], ?_, ?_, ?_⟩
    · simp only [whereOf, List.isEmpty_cons, Bool.false_eq_true, if_false, List.length_cons]
      omega
    · constructor
      · intro h1
        simp only [whereOf, List.isEmpty_cons, Bool.false_eq_true, if_false] at h1
        rw [h1] at ht
        simp at ht
      · intro h0
        omega
    · intro _
      simp only [whereOf, List.isEmpty_cons, Bool.false_eq_true, if_false]
      rw [← hc]
      rfl

/-- C28 for the arguments of the test case `hide drafts`, an owner and
`HideDrafts`: two conditions, the owner's and then `NOT draft`. -/
theorem C28_where_list_shape_witness :
    (⟨"", none, some (NamespaceUser 1), true, 0⟩ : WorkflowListArgs).toSQL.2.2 = none
    ∧ (⟨"", none, some (NamespaceUser 1), true, 0⟩ : WorkflowListArgs).toSQL.1.length
        = max 1 (⟨"", none, some (NamespaceUser 1), true, 0⟩ : WorkflowListArgs).activeFilters
    ∧ (⟨"", none, some (NamespaceUser 1), true, 0⟩ : WorkflowListArgs).activeFilters = 2
    ∧ (⟨"", none, some (NamespaceUser 1), true, 0⟩ : WorkflowListArgs).toSQL.1
        = [SqlfQuery.Sprintf "owner_user_id=%v" [.value (.int 1)],
            SqlfQuery.Sprintf "NOT draft" []] :=
  ⟨rfl, (C28_where_list_shape ⟨"", none, some (NamespaceUser 1), true, 0⟩ rfl).2.1, rfl, rfl⟩

/-- C29: in `toSQL` of workflows and of saved searches, for an owner with a
user id that is not 0 the one owner condition is on the user column with that
id, whatever the org id is; the condition on the org column is the one owner
condition exactly when the user id is nil or 0 and the org id is not 0; a
successful `toSQL` has one owner condition for an owner and none without. -/
theorem C29_owner_filter_user_first :
    (∀ (a : WorkflowListArgs), a.toSQL.2.2 = none →
      (∀ owner u, a.Owner = some owner → owner.User = some u → u ≠ 0 →
        a.toSQL.1.filter isWorkflowOwnerCondition
          = [SqlfQuery.Sprintf "owner_user_id=%v" [.value (.int u)]])
      ∧ (∀ owner o, a.Owner = some owner → (owner.User = none ∨ owner.User = some 0) →
          owner.Org = some o → o ≠ 0 →
          a.toSQL.1.filter isWorkflowOwnerCondition
            = [SqlfQuery.Sprintf "owner_org_id=%v" [.value (.int o)]])
      ∧ (∀ owner o, a.Owner = some owner →
          SqlfQuery.Sprintf "owner_org_id=%v" [.value (.int o)] ∈ a.toSQL.1 →
          (owner.User = none ∨ owner.User = some 0) ∧ owner.Org = some o ∧ o ≠ 0)
      ∧ (∀ owner, a.Owner = some owner →
          (a.toSQL.1.filter isWorkflowOwnerCondition).length = 1)
      ∧ (a.Owner = none → a.toSQL.1.filter isWorkflowOwnerCondition = []))
    ∧ (∀ (a : SavedSearchListArgs), a.toSQL.2.2 = none →
      (∀ owner u, a.Owner = some owner → owner.User = some u → u ≠ 0 →
        a.toSQL.1.filter isSavedSearchOwnerCondition
          = [SqlfQuery.Sprintf "user_id=%v" [.value (.int u)]])
      ∧ (∀ owner o, a.Owner = some owner → (owner.User = none ∨ owner.User = some 0) →
          owner.Org = some o → o ≠ 0 →
          a.toSQL.1.filter isSavedSearchOwnerCondition
            = [SqlfQuery.Sprintf "org_id=%v" [.value (.int o)]])
      ∧ (∀ owner o, a.Owner = some owner →
          SqlfQuery.Sprintf "org_id=%v" [.value (.int o)] ∈ a.toSQL.1 →
          (owner.User = none ∨ owner.User = some 0) ∧ owner.Org = some o ∧ o ≠ 0)
      ∧ (∀ owner, a.Owner = some owner →
          (a.toSQL.1.filter isSavedSearchOwnerCondition).length = 1)
      ∧ (a.Owner = none → a.toSQL.1.filter isSavedSearchOwnerCondition = [])) := by
  constructor
  · intro a h
    obtain ⟨hv, order, -, e⟩ := workflow_toSQL_ok a h
    have hf := filter_owner_filterConditions a
    have hw : a.toSQL.1.filter isWorkflowOwnerCondition
        = a.filterConditions.filter isWorkflowOwnerCondition := by
      rw [e]
      simp only [whereOf]
      cases hc : a.filterConditions with
      | nil => simp [isWorkflowOwnerCondition]
      | cons c cs => simp
    have hmem : ∀ q, isWorkflowOwnerCondition q = true → q ∈ a.toSQL.1 →
        q ∈ a.toSQL.1.filter isWorkflowOwnerCondition := by
      intro q hq hm
      exact List.mem_filter.2 ⟨hm, hq⟩
    refine ⟨?_, ?_, ?_, ?_, ?_⟩
    · intro owner u ho hu hne
      rw [hw, hf, ho]
      simp [workflowOwnerCondition, (nonZeroID_eq_some owner.User u).2 ⟨hu, hne⟩]
    · intro owner o ho hu hO hne
      rw [hw, hf, ho]
      simp [workflowOwnerCondition, (nonZeroID_eq_none owner.User).2 hu,
        (nonZeroID_eq_some owner.Org o).2 ⟨hO, hne⟩]
    · intro owner o ho hm
      have hm2 := hmem _ (by simp [isWorkflowOwnerCondition]) hm
      rw [hw, hf, ho] at hm2
      simp only [workflowOwnerCondition] at hm2
      cases hu : nonZeroID owner.User with
      | some u =>
        rw [hu] at hm2
        simp at hm2
      | none =>
        rw [hu] at hm2
        cases hO : nonZeroID owner.Org with
        | none =>
          rw [hO] at hm2
          simp at hm2
        | some o2 =>
          rw [hO] at hm2
          simp at hm2
          subst hm2
          have := (nonZeroID_eq_some owner.Org o).1 hO
          exact ⟨(nonZeroID_eq_none owner.User).1 hu, this.1, this.2⟩
    · intro owner ho
      rw [hw, hf, ho]
      rw [ho] at hv
      simp only [validOwner] at hv
      simp only [workflowOwnerCondition]
      cases hu : nonZeroID owner.User with
      | some u => simp
      | none =>
        cases hO : nonZeroID owner.Org with
        | none => simp [hu, hO] at hv
        | some o2 => simp
    · intro ho
      rw [hw, hf, ho]
  · intro a h
    obtain ⟨hv, order, -, e⟩ := savedSearch_toSQL_ok a h
    have hf := filter_owner_savedSearch_filterConditions a
    have hw : a.toSQL.1.filter isSavedSearchOwnerCondition
        = a.filterConditions.filter isSavedSearchOwnerCondition := by
      rw [e]
      simp only [whereOf]
      cases hc : a.filterConditions with
      | nil => simp [isSavedSearchOwnerCondition]
      | cons c cs => simp
    have hmem : ∀ q, isSavedSearchOwnerCondition q = true → q ∈ a.toSQL.1 →
        q ∈ a.toSQL.1.filter isSavedSearchOwnerCondition := by
      intro q hq hm
      exact List.mem_filter.2 ⟨hm, hq⟩
    refine ⟨?_, ?_, ?_, ?_, ?_⟩
    · intro owner u ho hu hne
      rw [hw, hf, ho]
      simp [savedSearchOwnerCondition, (nonZeroID_eq_some owner.User u).2 ⟨hu, hne⟩]
    · intro owner o ho hu hO hne
      rw [hw, hf, ho]
      simp [savedSearchOwnerCondition, (nonZeroID_eq_none owner.User).2 hu,
        (nonZeroID_eq_some owner.Org o).2 ⟨hO, hne⟩]
    · intro owner o ho hm
      have hm2 := hmem _ (by simp [isSavedSearchOwnerCondition]) hm
      rw [hw, hf, ho] at hm2
      simp only [savedSearchOwnerCondition] at hm2
      cases hu : nonZeroID owner.User with
      | some u =>
        rw [hu] at hm2
        simp at hm2
      | none =>
        rw [hu] at hm2
        cases hO : nonZeroID owner.Org with
        | none =>
          rw [hO] at hm2
          simp at hm2
        | some o2 =>
          rw [hO] at hm2
          simp at hm2
          subst hm2
          have := (nonZeroID_eq_some owner.Org o).1 hO
          exact ⟨(nonZeroID_eq_none owner.User).1 hu, this.1, this.2⟩
    · intro owner ho
      rw [hw, hf, ho]
      rw [ho] at hv
      simp only [validOwner] at hv
      simp only [savedSearchOwnerCondition]
      cases hu : nonZeroID owner.User with
      | some u => simp
      | none =>
        cases hO : nonZeroID owner.Org with
        | none => simp [hu, hO] at hv
        | some o2 => simp
    · intro ho
      rw [hw, hf, ho]

/-- C29 for an owner with user 7 and org 2: the one owner condition is on the
user column; with user 0 and org 2 it is on the org column. -/
theorem C29_owner_filter_user_first_witness :
    ((⟨"q", none, some ⟨some 7, some 2⟩, true, 0⟩ : WorkflowListArgs).toSQL.2.2 = none
      ∧ (⟨"", none, some ⟨some 0, some 2⟩, 0⟩ : SavedSearchListArgs).toSQL.2.2 = none)
    ∧ (⟨"q", none, some ⟨some 7, some 2⟩, true, 0⟩ : WorkflowListArgs).toSQL.1.filter
          isWorkflowOwnerCondition
        = [SqlfQuery.Sprintf "owner_user_id=%v" [.value (.int 7)]]
    ∧ (⟨"", none, some ⟨some 0, some 2⟩, 0⟩ : SavedSearchListArgs).toSQL.1.filter
          isSavedSearchOwnerCondition
        = [SqlfQuery.Sprintf "org_id=%v" [.value (.int 2)]] :=
  ⟨⟨rfl, rfl⟩,
    (C29_owner_filter_user_first.1 ⟨"q", none, some ⟨some 7, some 2⟩, true, 0⟩ rfl).1
      ⟨some 7, some 2⟩ 7 rfl rfl (by decide),
    (C29_owner_filter_user_first.2 ⟨"", none, some ⟨some 0, some 2⟩, 0⟩ rfl).2.1
      ⟨some 0, some 2⟩ 2 rfl (Or.inr rfl) rfl (by decide)⟩

end Database

namespace Database

open Errors

/-- `workflowStore.List` when `toSQL` fails. -/
theorem list_of_toSQL_error {σ R QA : Type} (pgn : PaginationOps R QA) (base : QueryStore σ)
    (a : WorkflowListArgs) (p : Option (PaginationArgs R)) (db : σ) (e : Err)
    (h : a.toSQL.2.2 = some e) : workflowStore.List pgn ⟨base⟩ a p db = (db, .error e) := by
  rcases ht : a.toSQL with ⟨w, ob, err⟩
  rw [ht] at h
  simp only at h
  subst h
  simp only [workflowStore.List, ht]

/-- `workflowStore.List` when `toSQL` succeeds. -/
theorem list_of_toSQL_ok {σ R QA : Type} (pgn : PaginationOps R QA) (base : QueryStore σ)
    (a : WorkflowListArgs) (p : Option (PaginationArgs R)) (db : σ) (h : a.toSQL.2.2 = none) :
    workflowStore.List pgn ⟨base⟩ a p db
      = base.QueryWorkflows
          (workflowListQuery pgn a.toSQL.1 (listPaginationArgs pgn p a.toSQL.2.1)) db := by
  rcases ht : a.toSQL with ⟨w, ob, err⟩
  rw [ht] at h
  simp only at h
  subst h
  simp only [workflowStore.List, ht]

/-- `workflowStore.Count` when `toSQL` fails. -/
theorem count_of_toSQL_error {σ : Type} (base : QueryStore σ) (a : WorkflowListArgs) (db : σ)
    (e : Err) (h : a.toSQL.2.2 = some e) : workflowStore.Count ⟨base⟩ a db = (db, .error e) := by
  rcases ht : a.toSQL with ⟨w, ob, err⟩
  rw [ht] at h
  simp only at h
  subst h
  simp only [workflowStore.Count, ht]

/-- `workflowStore.Count` when `toSQL` succeeds: the state is the one the
count query leaves. -/
theorem count_of_toSQL_ok {σ : Type} (base : QueryStore σ) (a : WorkflowListArgs) (db : σ)
    (h : a.toSQL.2.2 = none) :
    (workflowStore.Count ⟨base⟩ a db).1
        = (base.QueryFirstInt (workflowCountQuery a.toSQL.1) db).1
      ∧ (workflowStore.Count ⟨base⟩ a db).2
        = (match (base.QueryFirstInt (workflowCountQuery a.toSQL.1) db).2 with
          | (_, _, some err) => .error err
          | (count, _, none) => .ok count) := by
  rcases ht : a.toSQL with ⟨w, ob, err⟩
  rw [ht] at h
  simp only at h
  subst h
  simp only [workflowStore.Count, ht]
  rcases base.QueryFirstInt (workflowCountQuery w) db with ⟨db1, n, b, (_ | e)⟩ <;> simp

/-- C30: `workflowStore.List` and `workflowStore.Count` return the error of
`toSQL`, with the state untouched and no query recorded, exactly when `toSQL`
fails, which is when the owner is invalid or `OrderBy` is none of the three
defined values; with a valid owner and such an `OrderBy`, `Count` returns
`invalid OrderBy`.  When `toSQL` succeeds each of them issues one query, and
the two queries are built on the same where-list, that of `toSQL`. -/
theorem C30_list_count_reject_same {σ R QA : Type} (pgn : PaginationOps R QA)
    (base : QueryStore σ) (a : WorkflowListArgs) (p : Option (PaginationArgs R)) (db : σ)
    (log : List SqlfQuery) :
    (a.toSQL.2.2 ≠ none ↔
      validOwner a.Owner = false
        ∨ (a.OrderBy ≠ WorkflowsOrderByID ∧ a.OrderBy ≠ WorkflowsOrderByNameWithOwner
            ∧ a.OrderBy ≠ WorkflowsOrderByUpdatedAt))
    ∧ (∀ e, a.toSQL.2.2 = some e →
        workflowStore.List pgn ⟨base⟩ a p db = (db, .error e)
          ∧ workflowStore.Count ⟨base⟩ a db = (db, .error e))
    ∧ (validOwner a.Owner = true → a.OrderBy ≠ WorkflowsOrderByID →
        a.OrderBy ≠ WorkflowsOrderByNameWithOwner → a.OrderBy ≠ WorkflowsOrderByUpdatedAt →
        workflowStore.Count ⟨base⟩ a db = (db, .error (Err.new "invalid OrderBy"))
          ∧ workflowStore.List pgn ⟨base⟩ a p db = (db, .error (Err.new "invalid OrderBy")))
    ∧ ((workflowStore.List pgn ⟨base.logged⟩ a p (db, log)).1.2 = log ↔ a.toSQL.2.2 ≠ none)
    ∧ ((workflowStore.Count ⟨base.logged⟩ a (db, log)).1.2 = log ↔ a.toSQL.2.2 ≠ none)
    ∧ (a.toSQL.2.2 = none →
        (workflowStore.List pgn ⟨base.logged⟩ a p (db, log)).1.2
            = log ++ [workflowListQuery pgn a.toSQL.1 (listPaginationArgs pgn p a.toSQL.2.1)]
          ∧ (workflowStore.Count ⟨base.logged⟩ a (db, log)).1.2
            = log ++ [workflowCountQuery a.toSQL.1]) := by
  have hiff : a.toSQL.2.2 ≠ none ↔
      validOwner a.Owner = false
        ∨ (a.OrderBy ≠ WorkflowsOrderByID ∧ a.OrderBy ≠ WorkflowsOrderByNameWithOwner
            ∧ a.OrderBy ≠ WorkflowsOrderByUpdatedAt) := by
    rw [workflow_toSQL_eq a]
    cases hv : validOwner a.Owner with
    | false => simp
    | true =>
      rcases orderBy_cases a.OrderBy with h | h | h | ⟨h0, h1, h2⟩
      · simp [workflowOrder, h, WorkflowsOrderByID]
      · simp [workflowOrder, h, WorkflowsOrderByNameWithOwner]
      · simp [workflowOrder, h, WorkflowsOrderByUpdatedAt]
      · simp [workflowOrder, h0, h1, h2, WorkflowsOrderByID, WorkflowsOrderByNameWithOwner,
          WorkflowsOrderByUpdatedAt]
  have hinv : validOwner a.Owner = true → a.OrderBy ≠ WorkflowsOrderByID →
      a.OrderBy ≠ WorkflowsOrderByNameWithOwner → a.OrderBy ≠ WorkflowsOrderByUpdatedAt →
      a.toSQL.2.2 = some (Err.new "invalid OrderBy") := by
    intro hv h0 h1 h2
    rw [workflow_toSQL_eq a, hv]
    simp only [WorkflowsOrderByID, WorkflowsOrderByNameWithOwner, WorkflowsOrderByUpdatedAt]
      at h0 h1 h2
    simp [workflowOrder, h0, h1, h2]
  have hlist : a.toSQL.2.2 = none →
      (workflowStore.List pgn ⟨base.logged⟩ a p (db, log)).1.2
        = log ++ [workflowListQuery pgn a.toSQL.1 (listPaginationArgs pgn p a.toSQL.2.1)] := by
    intro h
    rw [list_of_toSQL_ok pgn base.logged a p (db, log) h]
    rfl
  have hcount : a.toSQL.2.2 = none →
      (workflowStore.Count ⟨base.logged⟩ a (db, log)).1.2
        = log ++ [workflowCountQuery a.toSQL.1] := by
    intro h
    rw [(count_of_toSQL_ok base.logged a (db, log) h).1]
    rfl
  refine ⟨hiff, ?_, ?_, ?_, ?_, ?_⟩
  · intro e he
    exact ⟨list_of_toSQL_error pgn base a p db e he, count_of_toSQL_error base a db e he⟩
  · intro hv h0 h1 h2
    have he := hinv hv h0 h1 h2
    exact ⟨count_of_toSQL_error base a db _ he, list_of_toSQL_error pgn base a p db _ he⟩
  · constructor
    · intro h hn
      rw [hlist hn] at h
      simp at h
    · intro h
      cases he : a.toSQL.2.2 with
      | none => exact absurd he h
      | some e => rw [list_of_toSQL_error pgn base.logged a p (db, log) e he]
  · constructor
    · intro h hn
      rw [hcount hn] at h
      simp at h
    · intro h
      cases he : a.toSQL.2.2 with
      | none => exact absurd he h
      | some e => rw [count_of_toSQL_error base.logged a (db, log) e he]
  · intro h
    exact ⟨hlist h, hcount h⟩

/-- C30 for the order value 7 and no owner: `Count` and `List` return
`invalid OrderBy` and no query is recorded; for the arguments of the test
case `list all` each records one query on the where-list `TRUE`. -/
theorem C30_list_count_reject_same_witness :
    (validOwner (⟨"", none, none, false, 7⟩ : WorkflowListArgs).Owner = true
      ∧ (⟨"", none, none, false, 0⟩ : WorkflowListArgs).toSQL.2.2 = none)
    ∧ workflowStore.Count ⟨testQueryStore⟩ ⟨"", none, none, false, 7⟩ emptyTestDB
        = (emptyTestDB, .error (Err.new "invalid OrderBy"))
    ∧ (workflowStore.Count ⟨testQueryStore.logged⟩ ⟨"", none, none, false, 0⟩
          (emptyTestDB, [])).1.2
        = [] ++ [workflowCountQuery (⟨"", none, none, false, 0⟩ : WorkflowListArgs).toSQL.1]
    ∧ (⟨"", none, none, false, 0⟩ : WorkflowListArgs).toSQL.1 = [SqlfQuery.Sprintf "TRUE" []] :=
  ⟨⟨rfl, rfl⟩,
    ((C30_list_count_reject_same testPagination testQueryStore ⟨"", none, none, false, 7⟩ none
      emptyTestDB []).2.2.1 rfl (by decide) (by decide) (by decide)).1,
    ((C30_list_count_reject_same testPagination testQueryStore ⟨"", none, none, false, 0⟩ none
      emptyTestDB []).2.2.2.2.2 rfl).2,
    rfl⟩

end Database

namespace Database

open Errors

/-- C21: the pagination arguments `workflowStore.List` hands to `SQL`, from
which the order of the query is made, have the `OrderBy` and `Ascending` that
`toSQL` derives from `args.OrderBy`: `id` ascending for `WorkflowsOrderByID`,
`name_with_owner` ascending for `WorkflowsOrderByNameWithOwner`, `updated_at`
descending for `WorkflowsOrderByUpdatedAt`; what the caller put in these two
fields changes nothing, and of the caller's arguments only the other fields
are kept. -/
theorem C21_order_from_args_only {σ R QA : Type} (pgn : PaginationOps R QA)
    (base : QueryStore σ) (a : WorkflowListArgs) (db : σ) :
    (∀ (p : PaginationArgs R) (obs : List OrderByOption) (asc : Bool),
      workflowStore.List pgn ⟨base⟩ a (some { p with OrderBy := obs, Ascending := asc }) db
        = workflowStore.List pgn ⟨base⟩ a (some p) db)
    ∧ (validOwner a.Owner = true → a.OrderBy = WorkflowsOrderByID →
        ∀ p : Option (PaginationArgs R), workflowStore.List pgn ⟨base⟩ a p db
          = base.QueryWorkflows
              (workflowListQuery pgn (whereOf a.filterConditions)
                ⟨[⟨"id"⟩], true,
                  match p with
                  | some p => p.rest
                  | none => pgn.zero⟩) db)
    ∧ (validOwner a.Owner = true → a.OrderBy = WorkflowsOrderByNameWithOwner →
        ∀ p : Option (PaginationArgs R), workflowStore.List pgn ⟨base⟩ a p db
          = base.QueryWorkflows
              (workflowListQuery pgn (whereOf a.filterConditions)
                ⟨[⟨"name_with_owner"⟩], true,
                  match p with
                  | some p => p.rest
                  | none => pgn.zero⟩) db)
    ∧ (validOwner a.Owner = true → a.OrderBy = WorkflowsOrderByUpdatedAt →
        ∀ p : Option (PaginationArgs R), workflowStore.List pgn ⟨base⟩ a p db
          = base.QueryWorkflows
              (workflowListQuery pgn (whereOf a.filterConditions)
                ⟨[⟨"updated_at"⟩], false,
                  match p with
                  | some p => p.rest
                  | none => pgn.zero⟩) db) := by
  have key : ∀ order, validOwner a.Owner = true → workflowOrder a.OrderBy = some order →
      ∀ p : Option (PaginationArgs R), workflowStore.List pgn ⟨base⟩ a p db
        = base.QueryWorkflows
            (workflowListQuery pgn (whereOf a.filterConditions)
              ⟨order.1, order.2,
                match p with
                | some p => p.rest
                | none => pgn.zero⟩) db := by
    intro order hv ho p
    have e : a.toSQL = (whereOf a.filterConditions, order, none) := by
      rw [workflow_toSQL_eq a, hv, ho]
      rfl
    rw [list_of_toSQL_ok pgn base a p db (by rw [e]), e]
    cases p <;> rfl
  refine ⟨?_, ?_, ?_, ?_⟩
  · intro p obs asc
    simp only [workflowStore.List]
    rcases a.toSQL with ⟨w, ob, (_ | e)⟩ <;> rfl
  · intro hv ho p
    exact key ([⟨"id"⟩], true) hv (by rw [ho]; rfl) p
  · intro hv ho p
    exact key ([⟨"name_with_owner"⟩], true) hv (by rw [ho]; rfl) p
  · intro hv ho p
    exact key ([⟨"updated_at"⟩], false) hv (by rw [ho]; rfl) p

/-- C21 as in the test case `order by`: the caller passes `Ascending: true`
and the arguments ask for `WorkflowsOrderByUpdatedAt`; the query issued is
ordered by `updated_at DESC`. -/
theorem C21_order_from_args_only_witness :
    (validOwner (⟨"", none, none, false, WorkflowsOrderByUpdatedAt⟩ : WorkflowListArgs).Owner
        = true
      ∧ (⟨"", none, none, false, WorkflowsOrderByUpdatedAt⟩ : WorkflowListArgs).OrderBy
        = WorkflowsOrderByUpdatedAt)
    ∧ workflowStore.List testPagination ⟨testQueryStore.logged⟩
          ⟨"", none, none, false, WorkflowsOrderByUpdatedAt⟩ (some ⟨[], true, ()⟩)
          (emptyTestDB, [])
        = testQueryStore.logged.QueryWorkflows
            (workflowListQuery testPagination
              (whereOf (⟨"", none, none, false, WorkflowsOrderByUpdatedAt⟩ :
                WorkflowListArgs).filterConditions)
              ⟨[⟨"updated_at"⟩], false, ()⟩) (emptyTestDB, [])
    ∧ (workflowStore.List testPagination ⟨testQueryStore.logged⟩
          ⟨"", none, none, false, WorkflowsOrderByUpdatedAt⟩ (some ⟨[], true, ()⟩)
          (emptyTestDB, [])).1.2
        = [SqlfQuery.Sprintf "%v ORDER BY %v"
            [.query (.Sprintf "SELECT id, %v FROM workflows_view WHERE (%v)"
                [.query workflowReadColumnsQuery,
                  .query (.Join [SqlfQuery.Sprintf "TRUE" []] ") AND (")]),
              .query (.Sprintf "updated_at DESC" [])]] :=
  ⟨⟨rfl, rfl⟩,
    (C21_order_from_args_only testPagination testQueryStore.logged
      ⟨"", none, none, false, WorkflowsOrderByUpdatedAt⟩ (emptyTestDB, [])).2.2.2 rfl rfl
      (some ⟨[], true, ()⟩),
    by rfl⟩

end Database

namespace Resolvers

open Errors Database

/-- The connection store `Resolver.Workflows` makes holds list arguments built
from the arguments of the request. -/
theorem workflows_connection_store {σ A P C : Type} (r : Resolver σ A P C)
    (args : WorkflowsArgs A) (db : σ) (cs : workflowsConnectionStore)
    (hcs : Event.NewConnectionResolver cs ∈ (r.Workflows args db).2.2) :
    ∃ owner affiliatedUser, cs = ⟨workflowsListArgs args owner affiliatedUser⟩ := by
  rcases workflows_stages r args db with ⟨id2, db2, e, -, -, hW⟩ | ⟨db2, owner2, log1, hown, hrest⟩
  · rw [hW] at hcs
    simp at hcs
  · have hl : ∀ cs, Event.NewConnectionResolver cs ∉ log1 := by
      rcases hown with ⟨-, -, -, rfl⟩ | ⟨id2, -, -, rfl⟩ <;> simp
    rcases hrest with ⟨-, db3, e, -, hW⟩ | ⟨-, db3, -, hW⟩ | ⟨-, db3, u, -, hW⟩ | ⟨-, -, hW⟩
      | ⟨-, -, db3, e, -, hW⟩ | ⟨-, -, db3, -, hW⟩
    · rw [hW] at hcs
      simp [hl] at hcs
    · rw [hW] at hcs
      simp [hl] at hcs
    · rw [hW] at hcs
      simp [hl] at hcs
      exact ⟨_, _, hcs⟩
    · rw [hW] at hcs
      simp [hl] at hcs
      exact ⟨_, _, hcs⟩
    · rw [hW] at hcs
      simp [hl] at hcs
    · rw [hW] at hcs
      simp [hl] at hcs
      exact ⟨_, _, hcs⟩

/-- The state `ComputeNodes` leaves is the one the store's `List` leaves. -/
theorem computeNodes_state {σ A P C : Type} (cs : workflowsConnectionStore)
    (r : Resolver σ A P C) (pgArgs : Option P) (db : σ) :
    (cs.ComputeNodes r pgArgs db).1 = (r.db.Workflows.List cs.listArgs pgArgs db).1 := by
  simp only [workflowsConnectionStore.ComputeNodes]
  rcases r.db.Workflows.List cs.listArgs pgArgs db with ⟨db3, (e | ws)⟩ <;> rfl

/-- C25: every connection store `Resolver.Workflows` makes has `HideDrafts`
equal to the negation of `IncludeDrafts`; a successful `toSQL` has the
condition `NOT draft` in its where-list exactly when `HideDrafts` is set; so
for a request with `IncludeDrafts` false, the query `ComputeNodes` issues
through `workflowStore.List` is built on a where-list that holds
`NOT draft`, all conditions of which are joined by `AND`. -/
theorem C25_drafts_hidden_unless_included {σ A R QA C : Type} (pgn : PaginationOps R QA)
    (base : QueryStore σ) (r : Resolver (σ × List SqlfQuery) A (PaginationArgs R) C)
    (hstore : r.db.Workflows = workflowStore.toWorkflowStore pgn ⟨base.logged⟩)
    (args : WorkflowsArgs A) (st : σ × List SqlfQuery) :
    (∀ cs, Event.NewConnectionResolver cs ∈ (r.Workflows args st).2.2 →
      cs.listArgs.HideDrafts = !args.IncludeDrafts)
    ∧ (∀ a : WorkflowListArgs, a.toSQL.2.2 = none →
        (SqlfQuery.Sprintf "NOT draft" [] ∈ a.toSQL.1 ↔ a.HideDrafts = true))
    ∧ (∀ cs, Event.NewConnectionResolver cs ∈ (r.Workflows args st).2.2 →
        args.IncludeDrafts = false → cs.listArgs.toSQL.2.2 = none →
        ∀ (pgArgs : Option (PaginationArgs R)) (st2 : σ × List SqlfQuery),
          (cs.ComputeNodes r pgArgs st2).1.2
              = st2.2 ++ [workflowListQuery pgn cs.listArgs.toSQL.1
                  (listPaginationArgs pgn pgArgs cs.listArgs.toSQL.2.1)]
            ∧ SqlfQuery.Sprintf "NOT draft" [] ∈ cs.listArgs.toSQL.1) := by
  have h2 : ∀ a : WorkflowListArgs, a.toSQL.2.2 = none →
      (SqlfQuery.Sprintf "NOT draft" [] ∈ a.toSQL.1 ↔ a.HideDrafts = true) := by
    intro a h
    obtain ⟨-, order, -, e⟩ := workflow_toSQL_ok a h
    rw [e, ← not_draft_mem_filterConditions a]
    simp only [whereOf]
    cases hc : a.filterConditions with
    | nil => simp
    | cons c cs => simp
  have h1 : ∀ cs, Event.NewConnectionResolver cs ∈ (r.Workflows args st).2.2 →
      cs.listArgs.HideDrafts = !args.IncludeDrafts := by
    intro cs hcs
    obtain ⟨owner, aff, rfl⟩ := workflows_connection_store r args st cs hcs
    rfl
  refine ⟨h1, h2, ?_⟩
  intro cs hcs hinc hok pgArgs st2
  constructor
  · rw [computeNodes_state, hstore]
    simp only [workflowStore.toWorkflowStore, workflowStore.asWorkflowStore]
    rw [list_of_toSQL_ok pgn base.logged cs.listArgs pgArgs st2 hok]
    rfl
  · rw [h2 cs.listArgs hok, h1 cs hcs, hinc]
    rfl

end Resolvers

namespace Resolvers

open Errors Database

/-- C25 for a site admin who lists all workflows without `IncludeDrafts`: the
connection store hides drafts and the query of `ComputeNodes` is built on the
where-list `NOT draft`. -/
theorem C25_drafts_hidden_unless_included_witness :
    (testListResolver.db.Workflows
        = workflowStore.toWorkflowStore testPagination ⟨testQueryStore.logged⟩
      ∧ (testListResolver.Workflows (testWorkflowsArgs none none) (emptyTestDB, [])).2.2
        = [Event.CheckCurrentUserIsSiteAdmin,
            Event.NewConnectionResolver
              ⟨workflowsListArgs (testWorkflowsArgs none none) none none⟩]
      ∧ (testWorkflowsArgs none none).IncludeDrafts = false
      ∧ (workflowsListArgs (testWorkflowsArgs none none) none none).toSQL.2.2 = none)
    ∧ ((workflowsConnectionStore.ComputeNodes
            ⟨workflowsListArgs (testWorkflowsArgs none none) none none⟩ testListResolver none
            (emptyTestDB, [])).1.2
          = [] ++ [workflowListQuery testPagination
              (workflowsListArgs (testWorkflowsArgs none none) none none).toSQL.1
              (listPaginationArgs testPagination none
                (workflowsListArgs (testWorkflowsArgs none none) none none).toSQL.2.1)]
        ∧ SqlfQuery.Sprintf "NOT draft" []
          ∈ (workflowsListArgs (testWorkflowsArgs none none) none none).toSQL.1)
    ∧ (workflowsListArgs (testWorkflowsArgs none none) none none).toSQL.1
        = [SqlfQuery.Sprintf "NOT draft" []] :=
  ⟨⟨rfl, rfl, rfl, rfl⟩,
    (C25_drafts_hidden_unless_included testPagination testQueryStore testListResolver rfl
      (testWorkflowsArgs none none) (emptyTestDB, [])).2.2
      ⟨workflowsListArgs (testWorkflowsArgs none none) none none⟩
      (List.mem_cons_of_mem _ (List.mem_singleton.2 rfl)) rfl rfl none (emptyTestDB, []),
    rfl⟩

end Resolvers

namespace Resolvers

open Errors Database

/-- C23: the cursor `MarshalCursor` makes for a node is the GraphQL ID of the
node, `relay.MarshalID` of the kind `Workflow` and the id of the node, and
`UnmarshalCursor` hands a cursor to `relay.UnmarshalSpec`; so, `UnmarshalSpec`
decoding what `MarshalID` encoded for that id, `UnmarshalCursor` of the cursor
of the node returns the list of the one id of the node, whatever the order
arguments are. -/
theorem C23_cursor_round_trip {σ A P C : Type} (r : Resolver σ A P C)
    (MarshalID : String → Int → String) (cs : workflowsConnectionStore)
    (node : workflowResolver) (orderBy1 orderBy2 : List OrderByOption)
    (hrelay : r.UnmarshalSpec (MarshalID "Workflow" node.s.ID) = .ok node.s.ID) :
    cs.MarshalCursor MarshalID node orderBy1 = .ok (node.ID MarshalID)
    ∧ node.ID MarshalID = MarshalID "Workflow" node.s.ID
    ∧ (∀ cursor, cs.MarshalCursor MarshalID node orderBy1 = .ok cursor →
        cs.UnmarshalCursor r cursor orderBy2 = .ok [node.s.ID])
    ∧ (∀ cursor, cs.UnmarshalCursor r cursor orderBy2
        = (match r.UnmarshalSpec cursor with
          | .error err => .error err
          | .ok nodeID => .ok [nodeID])) := by
  refine ⟨rfl, rfl, ?_, ?_⟩
  · intro cursor hc
    have e : cursor = MarshalID "Workflow" node.s.ID := by
      simp only [workflowsConnectionStore.MarshalCursor, workflowResolver.ID, marshalWorkflowID,
        WorkflowKind] at hc
      exact (Except.ok.inj hc).symm
    subst e
    simp only [workflowsConnectionStore.UnmarshalCursor, unmarshalWorkflowID, hrelay]
  · intro cursor
    rfl

/-- C23 with base64 ids as the package relay makes them: the cursor of the
node of workflow 1 is `V29ya2Zsb3c6MQ==`, which decodes to the list of 1. -/
theorem C23_cursor_round_trip_witness :
    relayUnmarshalSpec (relayMarshalID "Workflow" 1) = .ok 1
    ∧ workflowsConnectionStore.MarshalCursor ⟨workflowsListArgs (testWorkflowsArgs none none)
          none none⟩ relayMarshalID (testNamedWorkflow (NamespaceUser 7)) []
        = .ok "V29ya2Zsb3c6MQ=="
    ∧ workflowsConnectionStore.UnmarshalCursor ⟨workflowsListArgs (testWorkflowsArgs none none)
          none none⟩ (testRelayResolver ⟨1, false⟩ testStore) "V29ya2Zsb3c6MQ==" [⟨"id"⟩]
        = .ok [1] :=
  ⟨by rfl, by rfl,
    (C23_cursor_round_trip (testRelayResolver ⟨1, false⟩ testStore) relayMarshalID
      ⟨workflowsListArgs (testWorkflowsArgs none none) none none⟩
      (testNamedWorkflow (NamespaceUser 7)) [] [⟨"id"⟩] (by rfl)).2.2.1 "V29ya2Zsb3c6MQ=="
      (by rfl)⟩

/-- C26: `NameWithOwner` is the name of the owner's namespace, a slash and the
name of the workflow; the owner is looked up by the user id whenever
`Owner.User` is not nil, whatever `Owner.Org` is, and by the org id when only
`Owner.Org` is not nil; an error of the lookup is returned as it is; and when
both are nil, `Owner` and `NameWithOwner` return the error `no owner` without
a lookup. -/
theorem C26_name_with_owner {σ N : Type} (ops : NamespaceOps σ N) (r : workflowResolver)
    (db : σ) :
    (∀ user db1 n, r.s.Owner.User = some user →
      ops.NamespaceByID (ops.MarshalUserID user) db = (db1, .ok n) →
      r.Owner ops db = (db1, .ok n)
        ∧ r.NameWithOwner ops db = (db1, .ok (ops.NamespaceName n ++ "/" ++ r.s.Name)))
    ∧ (∀ org db1 n, r.s.Owner.User = none → r.s.Owner.Org = some org →
        ops.NamespaceByID (ops.MarshalOrgID org) db = (db1, .ok n) →
        r.Owner ops db = (db1, .ok n)
          ∧ r.NameWithOwner ops db = (db1, .ok (ops.NamespaceName n ++ "/" ++ r.s.Name)))
    ∧ (r.s.Owner.User = none → r.s.Owner.Org = none →
        r.Owner ops db = (db, .error (Err.new "no owner"))
          ∧ r.NameWithOwner ops db = (db, .error (Err.new "no owner")))
    ∧ (∀ user db1 e, r.s.Owner.User = some user →
        ops.NamespaceByID (ops.MarshalUserID user) db = (db1, .error e) →
        r.Owner ops db = (db1, .error e) ∧ r.NameWithOwner ops db = (db1, .error e))
    ∧ (∀ org db1 e, r.s.Owner.User = none → r.s.Owner.Org = some org →
        ops.NamespaceByID (ops.MarshalOrgID org) db = (db1, .error e) →
        r.Owner ops db = (db1, .error e) ∧ r.NameWithOwner ops db = (db1, .error e)) := by
  refine ⟨?_, ?_, ?_, ?_, ?_⟩
  · intro user db1 n hu hn
    have e : r.Owner ops db = (db1, .ok n) := by
      simp only [workflowResolver.Owner, hu, hn]
    exact ⟨e, by simp only [workflowResolver.NameWithOwner, e]⟩
  · intro org db1 n hu ho hn
    have e : r.Owner ops db = (db1, .ok n) := by
      simp only [workflowResolver.Owner, hu, ho, hn]
    exact ⟨e, by simp only [workflowResolver.NameWithOwner, e]⟩
  · intro hu ho
    have e : r.Owner ops db = (db, .error (Err.new "no owner")) := by
      simp only [workflowResolver.Owner, hu, ho]
    exact ⟨e, by simp only [workflowResolver.NameWithOwner, e]⟩
  · intro user db1 err hu hn
    have e : r.Owner ops db = (db1, .error err) := by
      simp only [workflowResolver.Owner, hu, hn]
    exact ⟨e, by simp only [workflowResolver.NameWithOwner, e]⟩
  · intro org db1 err hu ho hn
    have e : r.Owner ops db = (db1, .error err) := by
      simp only [workflowResolver.Owner, hu, ho, hn]
    exact ⟨e, by simp only [workflowResolver.NameWithOwner, e]⟩

/-- C26 for the workflow `deploy`: owned by user 7 (`alice`) and org 2 at
once it is `alice/deploy`, owned by org 2 (`acme`) alone it is `acme/deploy`,
and with no owner the error is `no owner`. -/
theorem C26_name_with_owner_witness :
    ((testNamedWorkflow ⟨some 7, some 2⟩).s.Owner.User = some 7
      ∧ testNamespaceOps.NamespaceByID (testNamespaceOps.MarshalUserID 7) () = ((), .ok "alice"))
    ∧ (testNamedWorkflow ⟨some 7, some 2⟩).NameWithOwner testNamespaceOps ()
        = ((), .ok ("alice" ++ "/" ++ "deploy"))
    ∧ (testNamedWorkflow ⟨none, some 2⟩).NameWithOwner testNamespaceOps ()
        = ((), .ok ("acme" ++ "/" ++ "deploy"))
    ∧ (testNamedWorkflow ⟨none, none⟩).NameWithOwner testNamespaceOps ()
        = ((), .error (Err.new "no owner")) :=
  ⟨⟨rfl, rfl⟩,
    ((C26_name_with_owner testNamespaceOps (testNamedWorkflow ⟨some 7, some 2⟩) ()).1 7 ()
      "alice" rfl rfl).2,
    ((C26_name_with_owner testNamespaceOps (testNamedWorkflow ⟨none, some 2⟩) ()).2.1 2 ()
      "acme" rfl rfl rfl).2,
    ((C26_name_with_owner testNamespaceOps (testNamedWorkflow ⟨none, none⟩) ()).2.2.1 rfl
      rfl).2⟩

/-- The value of the character of a six-bit value is the value. -/
theorem base64Value_base64Char (k : Nat) (h : k < 64) : base64Value (base64Char k) = some k := by
  interval_cases k <;> rfl

/-- No character of the alphabet is the padding character. -/
theorem base64Char_ne_pad (k : Nat) (h : k < 64) : base64Char k ≠ '=' := by
  interval_cases k <;> decide

/-- Decoding a text whose fourth character is not padding: three bytes and
the bytes of the rest. -/
theorem base64Decode_quad (a b c d : Char) (rest : List Char) (hd : d ≠ '=') :
    base64Decode (a :: b :: c :: d :: rest)
      = match base64Value a, base64Value b, base64Value c, base64Value d, base64Decode rest with
        | some a, some b, some c, some d, some bytes =>
          some ([a * 4 + b / 16, b % 16 * 16 + c / 4, c % 4 * 64 + d] ++ bytes)
        | _, _, _, _, _ => none := by
  conv_lhs => unfold base64Decode
  split
  · simp_all
  · simp_all
  · simp_all
  · rename_i h
    simp only [List.cons.injEq] at h
    obtain ⟨rfl, rfl, rfl, rfl, rfl⟩ := h
    rfl
  · rename_i h
    exact absurd rfl (h a b c d rest)

/-- Decoding four characters of which the last alone is padding: two
bytes. -/
theorem base64Decode_pad1 (a b c : Char) (hc : c ≠ '=') :
    base64Decode [a, b, c, '=']
      = match base64Value a, base64Value b, base64Value c with
        | some a, some b, some c => some [a * 4 + b / 16, b % 16 * 16 + c / 4]
        | _, _, _ => none := by
  conv_lhs => unfold base64Decode
  split
  · simp_all
  · simp_all
  · rename_i h
    simp only [List.cons.injEq] at h
    obtain ⟨rfl, rfl, rfl, -⟩ := h
    rfl
  · rename_i hne heq
    simp only [List.cons.injEq] at heq
    exact (hne heq.2.2.2.1.symm heq.2.2.2.2.symm).elim
  · rename_i h
    exact absurd rfl (h a b c (Char.ofNat 61) [])

/-- Decoding four characters of which the last two are padding: one
byte. -/
theorem base64Decode_pad2 (a b : Char) :
    base64Decode [a, b, '=', '=']
      = match base64Value a, base64Value b with
        | some a, some b => some [a * 4 + b / 16]
        | _, _ => none := by
  conv_lhs => unfold base64Decode
  split
  · simp_all
  · rename_i h
    simp only [List.cons.injEq] at h
    obtain ⟨rfl, rfl, -⟩ := h
    rfl
  · simp_all
    rename_i hne heq
    exact absurd heq.2.2.symm hne
  · simp_all
    rename_i hne heq
    exact absurd heq.2.2.2.1.symm hne
  · simp_all

/-- Decoding undoes encoding on lists of bytes. -/
theorem base64Decode_encode (bs : List Nat) :
    (∀ b ∈ bs, b < 256) → base64Decode (base64Encode bs) = some bs := by
  induction bs using base64Encode.induct with
  | case1 a b c rest ih =>
    intro h
    have ha : a < 256 := h a (by simp)
    have hb : b < 256 := h b (by simp)
    have hc : c < 256 := h c (by simp)
    have hr : ∀ x ∈ rest, x < 256 := fun x hx => h x (by simp [hx])
    rw [base64Encode, base64Decode_quad _ _ _ _ _ (base64Char_ne_pad _ (by omega)),
      base64Value_base64Char _ (by omega), base64Value_base64Char _ (by omega),
      base64Value_base64Char _ (by omega), base64Value_base64Char _ (by omega), ih hr]
    simp only [List.cons_append, List.nil_append, Option.some.injEq, List.cons.injEq, and_true]
    omega
  | case2 a b =>
    intro h
    have ha : a < 256 := h a (by simp)
    have hb : b < 256 := h b (by simp)
    rw [base64Encode, base64Decode_pad1 _ _ _ (base64Char_ne_pad _ (by omega)),
      base64Value_base64Char _ (by omega), base64Value_base64Char _ (by omega),
      base64Value_base64Char _ (by omega)]
    simp only [Option.some.injEq, List.cons.injEq, and_true]
    omega
  | case3 a =>
    intro h
    have ha : a < 256 := h a (by simp)
    rw [base64Encode, base64Decode_pad2,
      base64Value_base64Char _ (by omega), base64Value_base64Char _ (by omega)]
    simp only [Option.some.injEq, List.cons.injEq, and_true]
    omega
  | case4 =>
    intro _
    rfl

/-- The character of a decimal digit is a digit and stands for it. -/
theorem digit_char (k : Nat) (h : k < 10) :
    ('0' ≤ ("0123456789".toList).getD k '0' ∧ ("0123456789".toList).getD k '0' ≤ '9')
    ∧ (("0123456789".toList).getD k '0').toNat - '0'.toNat = k
    ∧ ("0123456789".toList).getD k '0' ≠ '-'
    ∧ (("0123456789".toList).getD k '0').toNat < 128 := by
  interval_cases k <;> decide

/-- Reading digits goes on through an appended text. -/
theorem parseDigits_append (xs ys : List Char) :
    ∀ acc, parseDigits (xs ++ ys) acc = (parseDigits xs acc).bind (parseDigits ys) := by
  induction xs with
  | nil => intro acc; rfl
  | cons c xs ih =>
    intro acc
    simp only [List.cons_append, parseDigits]
    split
    · exact ih _
    · rfl

/-- Reading the decimal digits of a number gives the number. -/
theorem parseDigits_decimalDigits (fuel : Nat) :
    ∀ n, n < fuel → parseDigits (decimalDigits fuel n) 0 = some n := by
  induction fuel with
  | zero => intro n h; omega
  | succ fuel ih =>
    intro n h
    obtain ⟨hd, hv, -, -⟩ := digit_char (n % 10) (Nat.mod_lt _ (by decide))
    rw [decimalDigits, parseDigits_append]
    by_cases h10 : n < 10
    · simp only [h10, if_true, parseDigits, Option.bind, hd, and_self, hv]
      congr 1
      omega
    · simp only [h10, if_false, ih (n / 10) (by omega), Option.bind, parseDigits, hd, and_self,
        hv, if_true]
      congr 1
      omega

/-- The digits of a number are not empty, begin with a digit and are ASCII. -/
theorem decimalDigits_shape (fuel : Nat) :
    ∀ n, (∃ c rest, decimalDigits (fuel + 1) n = c :: rest ∧ c ≠ '-')
      ∧ ∀ c ∈ decimalDigits (fuel + 1) n, c.toNat < 128 := by
  induction fuel with
  | zero =>
    intro n
    obtain ⟨-, -, hm, ha⟩ := digit_char (n % 10) (Nat.mod_lt _ (by decide))
    by_cases h10 : n < 10
    · simp only [decimalDigits, h10, if_true, List.nil_append]
      exact ⟨⟨_, _, rfl, hm⟩, by simpa using ha⟩
    · simp only [decimalDigits, h10, if_false, List.nil_append]
      exact ⟨⟨_, _, rfl, hm⟩, by simpa using ha⟩
  | succ fuel ih =>
    intro n
    obtain ⟨-, -, hm, ha⟩ := digit_char (n % 10) (Nat.mod_lt _ (by decide))
    rw [decimalDigits]
    by_cases h10 : n < 10
    · simp only [h10, if_true, List.nil_append]
      exact ⟨⟨_, _, rfl, hm⟩, by simpa using ha⟩
    · simp only [h10, if_false]
      obtain ⟨⟨c, rest, e, hc⟩, hall⟩ := ih (n / 10)
      refine ⟨⟨c, rest ++ _, by rw [e]; rfl, hc⟩, ?_⟩
      intro x hx
      rcases List.mem_append.1 hx with hx | hx
      · exact hall x hx
      · simp only [List.mem_singleton] at hx
        rw [hx]
        exact ha

/-- Reading the JSON text of a 32-bit integer gives the integer. -/
theorem parseJSONInt_jsonInt (n : Int) (h : - 2 ^ 31 ≤ n ∧ n < 2 ^ 31) :
    parseJSONInt (jsonInt n) = some n := by
  cases n with
  | ofNat m =>
    obtain ⟨⟨c, rest, e, hc⟩, -⟩ := decimalDigits_shape m m
    have hp := parseDigits_decimalDigits (m + 1) m (by omega)
    simp only [jsonInt]
    rw [e] at hp ⊢
    unfold parseJSONInt
    have : (match c :: rest with
        | [] => none
        | '-' :: [] => none
        | '-' :: rest => (parseDigits rest 0).map (fun m => - (m : Int))
        | rest => (parseDigits rest 0).map (fun m => (m : Int))) = some (m : Int) := by
      split
      · simp_all
      · simp_all
      · simp_all
      · rw [hp]; rfl
    simp only [this]
    obtain ⟨ha, hb⟩ := h
    simp only [Int.ofNat_eq_coe] at ha hb
    norm_num at ha hb
    simp
    omega
  | negSucc m =>
    obtain ⟨⟨c, rest, e, hc⟩, -⟩ := decimalDigits_shape (m + 1) (m + 1)
    have hp := parseDigits_decimalDigits (m + 2) (m + 1) (by omega)
    simp only [jsonInt]
    rw [e] at hp ⊢
    unfold parseJSONInt
    have hneg : - ((m + 1 : Nat) : Int) = Int.negSucc m := rfl
    simp only [hp, Option.bind, hneg]
    obtain ⟨ha, hb⟩ := h
    rw [Int.negSucc_eq] at ha hb ⊢
    norm_num at ha hb
    simp
    refine ⟨?_, ?_⟩ <;> omega

/-- The JSON text of an integer is ASCII. -/
theorem jsonInt_ascii (n : Int) : ∀ c ∈ jsonInt n, c.toNat < 128 := by
  cases n with
  | ofNat m =>
    exact (decimalDigits_shape m m).2
  | negSucc m =>
    intro c hc
    simp only [jsonInt, List.mem_cons] at hc
    rcases hc with rfl | hc
    · decide
    · exact (decimalDigits_shape (m + 1) (m + 1)).2 c hc

/-- The bytes of a character are bytes, and none is the colon unless the
character is. -/
theorem utf8Bytes_spec (c : Char) :
    (∀ b ∈ utf8Bytes c, b < 256) ∧ (c ≠ ':' → 58 ∉ utf8Bytes c) := by
  have hv : c.toNat < 1114112 := by
    have := c.valid
    rcases this with h | h
    · exact lt_trans h (by decide)
    · exact h.2
  have hc : c.toNat = 58 → c = ':' := by
    intro h
    apply Char.ext
    apply UInt32.ext
    exact h
  unfold utf8Bytes
  simp only
  split_ifs with h1 h2 h3
  · refine ⟨by simp; omega, fun hne => ?_⟩
    simp only [List.mem_singleton]
    intro h
    exact hne (hc h.symm)
  · refine ⟨by simp; omega, fun _ => by simp; omega⟩
  · refine ⟨by simp; omega, fun _ => by simp; omega⟩
  · refine ⟨by simp; omega, fun _ => by simp; omega⟩

/-- The bytes of a text are bytes, and none is the colon when the text has
no colon. -/
theorem stringBytes_spec (s : List Char) :
    (∀ b ∈ s.flatMap utf8Bytes, b < 256)
    ∧ (':' ∉ s → 58 ∉ s.flatMap utf8Bytes) := by
  induction s with
  | nil => simp
  | cons c s ih =>
    obtain ⟨h1, h2⟩ := utf8Bytes_spec c
    refine ⟨?_, ?_⟩
    · intro b hb
      simp only [List.flatMap_cons, List.mem_append] at hb
      rcases hb with hb | hb
      · exact h1 b hb
      · exact ih.1 b hb
    · intro hs hb
      simp only [List.mem_cons, not_or] at hs
      simp only [List.flatMap_cons, List.mem_append] at hb
      rcases hb with hb | hb
      · exact h2 (fun e => hs.1 e.symm) hb
      · exact ih.2 hs.2 hb

/-- The text after the first colon, when no colon stands before it. -/
theorem afterColon_append (xs rest : List Nat) (h : 58 ∉ xs) :
    afterColon (xs ++ 58 :: rest) = some rest := by
  induction xs with
  | nil => simp [afterColon]
  | cons x xs ih =>
    simp only [List.mem_cons, not_or] at h
    have hx : x ≠ 58 := fun e => h.1 e.symm
    simp only [List.cons_append, afterColon, hx, if_false]
    exact ih h.2

/-- An ASCII text is the text of its bytes. -/
theorem map_ofNat_toNat (cs : List Char) :
    (cs.map Char.toNat).map Char.ofNat = cs := by
  induction cs with
  | nil => rfl
  | cons c cs ih =>
    simp only [List.map_cons, ih, List.cons.injEq, and_true]
    exact Char.ofNat_toNat c

/-- The text after the first colon ends in what was appended, when the
colon stands before it. -/
theorem afterColon_of_mem (xs ys : List Nat) (h : 58 ∈ xs) :
    ∃ rest, afterColon (xs ++ ys) = some (rest ++ ys) := by
  induction xs with
  | nil => simp at h
  | cons x xs ih =>
    by_cases hx : x = 58
    · exact ⟨xs, by simp [afterColon, hx]⟩
    · have hm : 58 ∈ xs := by
        rcases List.mem_cons.1 h with e | e
        · exact absurd e.symm hx
        · exact e
      obtain ⟨rest, e⟩ := ih hm
      refine ⟨rest, ?_⟩
      show afterColon (x :: (xs ++ ys)) = some (rest ++ ys)
      simp only [afterColon, hx, if_false]
      exact e

/-- The bytes of a text with a colon have the byte of the colon. -/
theorem colon_mem_stringBytes (s : List Char) (h : ':' ∈ s) : 58 ∈ s.flatMap utf8Bytes := by
  simp only [List.mem_flatMap]
  exact ⟨':', h, by decide⟩

/-- A text with a colon is not a text of digits. -/
theorem parseDigits_of_colon (xs : List Char) (h : ':' ∈ xs) :
    ∀ acc, parseDigits xs acc = none := by
  induction xs with
  | nil => simp at h
  | cons c xs ih =>
    intro acc
    by_cases hc : c = ':'
    · subst hc
      rfl
    · have hm : ':' ∈ xs := by
        rcases List.mem_cons.1 h with e | e
        · exact absurd e.symm hc
        · exact e
      simp only [parseDigits, ih hm, ite_self]

/-- A text with a colon is not the JSON text of a number. -/
theorem parseJSONInt_of_colon (text : List Char) (h : ':' ∈ text) : parseJSONInt text = none := by
  rcases text with _ | ⟨c, rest⟩
  · simp at h
  · have hp := parseDigits_of_colon (c :: rest) h 0
    unfold parseJSONInt
    have : (match c :: rest with
        | [] => none
        | '-' :: [] => none
        | '-' :: rest => (parseDigits rest 0).map (fun m => - (m : Int))
        | rest => (parseDigits rest 0).map (fun m => (m : Int))) = (none : Option Int) := by
      split
      · rfl
      · rfl
      · rename_i rest1 _ heq
        have hm : ':' ∈ rest1 := by
          rw [heq] at h
          rcases List.mem_cons.1 h with e | e
          · exact absurd e (by decide)
          · exact e
        rw [parseDigits_of_colon rest1 hm 0]
        rfl
      · rw [hp]
        rfl
    simp only [this]

/-- What `relay.UnmarshalSpec` makes of the id `relay.MarshalID` makes of a
kind without a colon and an `int32`: the number. -/
theorem relayUnmarshalSpec_marshalID (K : String) (n : Int) (hK : ':' ∉ K.toList)
    (hn : - 2 ^ 31 ≤ n ∧ n < 2 ^ 31) : relayUnmarshalSpec (relayMarshalID K n) = .ok n := by
  have hb : ∀ b ∈ K.data.flatMap utf8Bytes ++ 58 :: (jsonInt n).map Char.toNat, b < 256 := by
    intro b hb
    rcases List.mem_append.1 hb with hb | hb
    · exact (stringBytes_spec K.data).1 b hb
    · rcases List.mem_cons.1 hb with rfl | hb
      · decide
      · obtain ⟨c, hc, rfl⟩ := List.mem_map.1 hb
        exact lt_trans (jsonInt_ascii n c hc) (by decide)
  have hl : ∀ l : List Char, (String.mk l).toList = l := fun _ => rfl
  simp only [relayUnmarshalSpec, relayMarshalID, stringBytes, hl,
    base64Decode_encode _ hb, afterColon_append _ _ ((stringBytes_spec K.data).2 hK),
    map_ofNat_toNat, parseJSONInt_jsonInt n hn]

/-- What `relay.UnmarshalSpec` makes of the id `relay.MarshalID` makes of a
kind with a colon: an error, since what follows the first colon is not the
text of a number. -/
theorem relayUnmarshalSpec_colon (K : String) (n : Int) (hK : ':' ∈ K.toList) :
    relayUnmarshalSpec (relayMarshalID K n)
      = .error (Err.new "json: cannot unmarshal into Go value of type int32") := by
  have hb : ∀ b ∈ K.data.flatMap utf8Bytes ++ 58 :: (jsonInt n).map Char.toNat, b < 256 := by
    intro b hb
    rcases List.mem_append.1 hb with hb | hb
    · exact (stringBytes_spec K.data).1 b hb
    · rcases List.mem_cons.1 hb with rfl | hb
      · decide
      · obtain ⟨c, hc, rfl⟩ := List.mem_map.1 hb
        exact lt_trans (jsonInt_ascii n c hc) (by decide)
  obtain ⟨rest, hrest⟩ := afterColon_of_mem (K.data.flatMap utf8Bytes)
    (58 :: (jsonInt n).map Char.toNat) (colon_mem_stringBytes K.data hK)
  have hp : parseJSONInt ((rest ++ 58 :: (jsonInt n).map Char.toNat).map Char.ofNat) = none := by
    apply parseJSONInt_of_colon
    simp only [List.map_append, List.map_cons, List.mem_append, List.mem_cons]
    exact Or.inr (Or.inl (by decide))
  have hl : ∀ l : List Char, (String.mk l).toList = l := fun _ => rfl
  simp only [relayUnmarshalSpec, relayMarshalID, stringBytes, hl,
    base64Decode_encode _ hb, hrest, hp]

/-- C27 (as stated, refuted): the kind `Saved:Search` is a kind string, and
`unmarshalWorkflowID` does not return 52 for the id `relay.MarshalID` makes
of it and 52: the package splits the decoded text `Saved:Search:52` at the
first colon, and `Search:52` is not the text of a number; `DeleteWorkflow`
returns the error without a call to the store. -/
theorem C27_counterexample :
    relayMarshalID "Saved:Search" 52 = "U2F2ZWQ6U2VhcmNoOjUy"
    ∧ ¬ (unmarshalWorkflowID (testRelayResolver ⟨1, true⟩ testDeleteStore)
          (relayMarshalID "Saved:Search" 52) = .ok 52)
    ∧ (∃ e, unmarshalWorkflowID (testRelayResolver ⟨1, true⟩ testDeleteStore)
          (relayMarshalID "Saved:Search" 52) = .error e)
    ∧ (∃ e, (testRelayResolver ⟨1, true⟩ testDeleteStore).DeleteWorkflow
          ⟨relayMarshalID "Saved:Search" 52⟩ emptyTestDB = (emptyTestDB, .error e, [])) := by
  have h : unmarshalWorkflowID (testRelayResolver ⟨1, true⟩ testDeleteStore)
      (relayMarshalID "Saved:Search" 52)
        = .error (Err.new "json: cannot unmarshal into Go value of type int32") := by
    rfl
  refine ⟨by decide, ?_, ⟨Err.new "json: cannot unmarshal into Go value of type int32", h⟩,
    ⟨Err.new "json: cannot unmarshal into Go value of type int32", rfl⟩⟩
  rw [h]
  intro e
  cases e

/-- C27 (amended): `unmarshalWorkflowID` is `relay.UnmarshalSpec` on the id
and nothing else: the kind is not compared with `WorkflowKind`. With the
package relay, for every kind `K` that has no colon and every `int32` `n` it
returns `n` for the id `relay.MarshalID` makes of `K` and `n`, so
`WorkflowByID`, `UpdateWorkflow` and `DeleteWorkflow` go on with `GetByID(n)`,
and `DeleteWorkflow` deletes workflow `n` when the owner check passes; for a
kind with a colon the three methods return an error without a call. -/
theorem C27_kind_without_colon_accepted {σ A P C : Type} (r : Resolver σ A P C)
    (K : String) (n : Int) (db : σ)
    (hspec : r.UnmarshalSpec = relayUnmarshalSpec)
    (hn : - 2 ^ 31 ≤ n ∧ n < 2 ^ 31) :
    (∀ id, unmarshalWorkflowID r id = r.UnmarshalSpec id)
    ∧ (':' ∉ K.toList →
        unmarshalWorkflowID r (relayMarshalID K n) = .ok n
        ∧ (r.WorkflowByID (relayMarshalID K n) db).2.2.head? = some (Event.GetByID n)
        ∧ (∀ input, (r.UpdateWorkflow ⟨relayMarshalID K n, input⟩ db).2.2.head?
            = some (Event.GetByID n))
        ∧ (r.DeleteWorkflow ⟨relayMarshalID K n⟩ db).2.2.head? = some (Event.GetByID n)
        ∧ (∀ db1 old db2 db3, r.db.Workflows.GetByID n db = (db1, .ok old) →
            r.CheckAuthorizedForNamespaceByIDs old.Owner db1 = (db2, none) →
            r.db.Workflows.Delete n db2 = (db3, none) →
            r.DeleteWorkflow ⟨relayMarshalID K n⟩ db
              = (db3, .ok {},
                  [Event.GetByID n, Event.CheckAuthorizedForNamespaceByIDs old.Owner,
                    Event.Delete n])))
    ∧ (':' ∈ K.toList →
        ∃ e, unmarshalWorkflowID r (relayMarshalID K n) = .error e
          ∧ r.WorkflowByID (relayMarshalID K n) db = (db, .error e, [])
          ∧ (∀ input, r.UpdateWorkflow ⟨relayMarshalID K n, input⟩ db = (db, .error e, []))
          ∧ r.DeleteWorkflow ⟨relayMarshalID K n⟩ db = (db, .error e, [])) := by
  refine ⟨fun _ => rfl, ?_, ?_⟩
  · intro hK
    have hid : unmarshalWorkflowID r (relayMarshalID K n) = .ok n := by
      simp only [unmarshalWorkflowID, hspec]
      exact relayUnmarshalSpec_marshalID K n hK hn
    refine ⟨hid, ?_, ?_, ?_, ?_⟩
    · simp only [Resolver.WorkflowByID, hid]
      rcases r.db.Workflows.GetByID n db with ⟨db1, (e | ss)⟩
      · rfl
      · simp only
        rcases r.CheckAuthorizedForNamespaceByIDs ss.Owner db1 with ⟨db2, (_ | e)⟩ <;> rfl
    · intro input
      simp only [Resolver.UpdateWorkflow, hid]
      rcases r.db.Workflows.GetByID n db with ⟨db1, (e | old)⟩
      · rfl
      · simp only
        rcases r.CheckAuthorizedForNamespaceByIDs old.Owner db1 with ⟨db2, (_ | e)⟩
        · simp only
          rcases r.db.Workflows.Update (updateWorkflowValue n input old) r.ActorUID db2
            with ⟨db3, (e | ss)⟩ <;> rfl
        · rfl
    · simp only [Resolver.DeleteWorkflow, hid]
      rcases r.db.Workflows.GetByID n db with ⟨db1, (e | old)⟩
      · rfl
      · simp only
        rcases r.CheckAuthorizedForNamespaceByIDs old.Owner db1 with ⟨db2, (_ | e)⟩
        · simp only
          rcases r.db.Workflows.Delete n db2 with ⟨db3, (_ | e)⟩ <;> rfl
        · rfl
    · intro db1 old db2 db3 hg hc hd
      simp only [Resolver.DeleteWorkflow, hid, hg, hc, hd]
  · intro hK
    have hid : unmarshalWorkflowID r (relayMarshalID K n)
        = .error (Err.new "json: cannot unmarshal into Go value of type int32") := by
      simp only [unmarshalWorkflowID, hspec]
      exact relayUnmarshalSpec_colon K n hK
    refine ⟨_, hid, ?_, ?_, ?_⟩
    · simp only [Resolver.WorkflowByID, hid]
    · intro input
      simp only [Resolver.UpdateWorkflow, hid]
    · simp only [Resolver.DeleteWorkflow, hid]

/-- C27 as in `TestDeleteWorkflow`: the id `U2F2ZWRTZWFyY2g6NTI=` is the one
`MarshalID` makes of `SavedSearch` and 52, and `DeleteWorkflow` takes it for
workflow 52: it looks up 52, checks the owner and deletes 52. -/
theorem C27_kind_without_colon_accepted_witness :
    (relayMarshalID "SavedSearch" 52 = "U2F2ZWRTZWFyY2g6NTI="
      ∧ (testRelayResolver ⟨1, true⟩ testDeleteStore).UnmarshalSpec = relayUnmarshalSpec
      ∧ ':' ∉ "SavedSearch".toList ∧ (- 2 ^ 31 ≤ (52 : Int) ∧ (52 : Int) < 2 ^ 31))
    ∧ (testRelayResolver ⟨1, true⟩ testDeleteStore).DeleteWorkflow
          ⟨relayMarshalID "SavedSearch" 52⟩ emptyTestDB
        = (emptyTestDB, .ok {},
            [Event.GetByID 52, Event.CheckAuthorizedForNamespaceByIDs (NamespaceUser 1),
              Event.Delete 52]) :=
  ⟨⟨by decide, rfl, by decide, by decide⟩,
    ((C27_kind_without_colon_accepted (testRelayResolver ⟨1, true⟩ testDeleteStore)
      "SavedSearch" 52 emptyTestDB rfl (by decide)).2.1 (by decide)).2.2.2.2 emptyTestDB
      { testCreateInput with ID := 1, TemplateText := "", Owner := NamespaceUser 1 }
      emptyTestDB emptyTestDB rfl rfl rfl⟩

end Resolvers

namespace InsightsStore

/-- The history after a run of invocations: one record for each, in order,
with the argument and the results of the invocation. -/
theorem invokeAll_history {C : Type} (vs : List C) :
    ∀ (m : MockInsightPermissionStore C),
      (invokeAll m vs).1.GetUnauthorizedRepoIDsFunc.History
        = m.GetUnauthorizedRepoIDsFunc.History
          ++ List.zipWith (fun v r => ⟨v, r.1, r.2⟩) vs (invokeAll m vs).2 := by
  induction vs with
  | nil =>
    intro m
    simp [invokeAll]
  | cons v vs ih =>
    intro m
    have h := ih (m.GetUnauthorizedRepoIDs v).1
    simp only [invokeAll, List.zipWith_cons_cons]
    rw [h]
    simp only [MockInsightPermissionStore.GetUnauthorizedRepoIDs,
      InsightPermissionStoreGetUnauthorizedRepoIDsFunc.History,
      InsightPermissionStoreGetUnauthorizedRepoIDsFunc.appendCall]
    obtain ⟨⟨d, hooks, hist⟩⟩ := m
    rcases hooks with _ | ⟨hk, rest⟩ <;>
      simp [InsightPermissionStoreGetUnauthorizedRepoIDsFunc.nextHook]

/-- A slice whose elements are in memory is empty or has its array in
memory. -/
theorem slice_in_memory {α : Type} (mem : Memory α) (s : Slice)
    (hwf : s.len ≤ (mem.backing s.array).length) :
    s.len = 0 ∨ s.array < mem.arrays.length := by
  by_cases h : s.array < mem.arrays.length
  · exact Or.inr h
  · left
    have : mem.arrays[s.array]? = none := List.getElem?_eq_none (by omega)
    simp [Memory.backing, this] at hwf
    exact hwf

/-- The slice `History` returns holds the records of the history, in a new
array; the arrays that were in memory are as they were. -/
theorem historyInMemory_spec {α : Type} (mem : Memory α) (zero : α) (history : Slice)
    (hwf : history.len ≤ (mem.backing history.array).length) :
    (HistoryInMemory mem zero history).1.elements (HistoryInMemory mem zero history).2
        = mem.elements history
      ∧ (HistoryInMemory mem zero history).2 = ⟨mem.arrays.length, history.len, history.len⟩
      ∧ (HistoryInMemory mem zero history).1.arrays.length = mem.arrays.length + 1
      ∧ ∀ a, a < mem.arrays.length →
          (HistoryInMemory mem zero history).1.backing a = mem.backing a := by
  have hframe : ∀ a, a < mem.arrays.length →
      (HistoryInMemory mem zero history).1.backing a = mem.backing a := by
    intro a ha
    simp only [HistoryInMemory, Memory.make, Memory.copy, Memory.backing]
    rw [List.getElem?_set]
    have hne : mem.arrays.length ≠ a := by omega
    simp only [hne, if_false]
    rw [List.getElem?_append_left ha]
  refine ⟨?_, rfl, ?_, hframe⟩
  · have hpre : (Memory.mk (mem.arrays ++ [List.replicate history.len zero])).elements history
        = mem.elements history := by
      rcases slice_in_memory mem history hwf with h0 | hlt
      · simp [Memory.elements, h0]
      · simp only [Memory.elements, Memory.backing]
        rw [List.getElem?_append_left hlt]
    have hlen : (mem.elements history).length = history.len := by
      simp only [Memory.elements, List.length_take]
      omega
    simp only [HistoryInMemory, Memory.make, Memory.copy, min_self]
    rw [hpre]
    simp only [Memory.elements, Memory.backing]
    rw [List.getElem?_set]
    simp only [if_true, List.length_append, List.length_singleton,
      Nat.lt_succ_self, Option.getD_some]
    have e1 : ((mem.arrays ++ [List.replicate history.len zero])[mem.arrays.length]?).getD []
        = List.replicate history.len zero := by
      simp
    rw [e1]
    have e2 : List.drop history.len (List.replicate history.len zero) = [] := by
      simp
    rw [e2, List.append_nil]
    have hlen2 : (List.take history.len ((mem.arrays[history.array]?).getD [])).length
        = history.len := hlen
    rw [List.take_take, min_self, List.take_take, min_self]
  · simp [HistoryInMemory, Memory.make, Memory.copy]

/-- A write through a slice leaves the other arrays as they are. -/
theorem store_backing {α : Type} (mem : Memory α) (s : Slice) (i : Nat) (v : α) (a : Nat)
    (ha : a ≠ s.array) : (mem.store s i v).backing a = mem.backing a := by
  simp only [Memory.store]
  split
  · simp only [Memory.backing]
    rw [List.getElem?_set]
    simp [Ne.symm ha]
  · rfl

end InsightsStore

namespace InsightsStore

/-- C24: an invocation of the mocked method appends one record with its
argument and the results of the hook that served it, so after a run of
invocations the history is the earlier history followed by the records of the
run in order, and `History` of a new mock has as many records as there were
invocations.  On the memory of slices, `History` returns a slice of a new
array that holds the records of the history; writing to that slice leaves the
history as it is, and a later `History` returns the same records. -/
theorem C24_history_records_calls {C α : Type} (m : MockInsightPermissionStore C)
    (vs : List C) (mem : Memory α) (zero : α) (history : Slice)
    (hwf : history.len ≤ (mem.backing history.array).length) :
    (∀ v, (m.GetUnauthorizedRepoIDs v).1.GetUnauthorizedRepoIDsFunc.History
        = m.GetUnauthorizedRepoIDsFunc.History
          ++ [⟨v, (m.GetUnauthorizedRepoIDs v).2.1, (m.GetUnauthorizedRepoIDs v).2.2⟩])
    ∧ (invokeAll m vs).1.GetUnauthorizedRepoIDsFunc.History
        = m.GetUnauthorizedRepoIDsFunc.History
          ++ List.zipWith (fun v r => ⟨v, r.1, r.2⟩) vs (invokeAll m vs).2
    ∧ ((invokeAll m vs).1.GetUnauthorizedRepoIDsFunc.History).length
        = (m.GetUnauthorizedRepoIDsFunc.History).length + vs.length
    ∧ (∀ hs, ((invokeAll (pushAll (NewMockInsightPermissionStore C) hs)
        vs).1.GetUnauthorizedRepoIDsFunc.History).length = vs.length)
    ∧ (HistoryInMemory mem zero history).1.elements (HistoryInMemory mem zero history).2
        = mem.elements history
    ∧ (HistoryInMemory mem zero history).2.array = mem.arrays.length
    ∧ (∀ i v,
        ((HistoryInMemory mem zero history).1.store (HistoryInMemory mem zero history).2 i
            v).elements history
          = mem.elements history)
    ∧ (∀ i v,
        (HistoryInMemory
            ((HistoryInMemory mem zero history).1.store (HistoryInMemory mem zero history).2 i v)
            zero history).1.elements
          (HistoryInMemory
            ((HistoryInMemory mem zero history).1.store (HistoryInMemory mem zero history).2 i v)
            zero history).2
          = mem.elements history) := by
  have hlen : ∀ (m : MockInsightPermissionStore C),
      ((invokeAll m vs).1.GetUnauthorizedRepoIDsFunc.History).length
        = (m.GetUnauthorizedRepoIDsFunc.History).length + vs.length := by
    intro m
    have hr : (invokeAll m vs).2.length = vs.length := by
      rw [(invokeAll_spec vs m).1]
      simp [servingHooks]
      omega
    rw [invokeAll_history vs m, List.length_append, List.length_zipWith, hr, min_self]
  obtain ⟨h1, h2, h3, h4⟩ := historyInMemory_spec mem zero history hwf
  have hkeep : ∀ i v,
      (((HistoryInMemory mem zero history).1.store (HistoryInMemory mem zero history).2 i
          v).backing history.array).take history.len
        = (mem.backing history.array).take history.len := by
    intro i v
    rcases slice_in_memory mem history hwf with h0 | hlt
    · simp [h0]
    · rw [store_backing _ _ i v history.array (by rw [h2]; simp; omega), h4 _ hlt]
  refine ⟨?_, invokeAll_history vs m, hlen m, ?_, h1, by rw [h2], ?_, ?_⟩
  · intro v
    have := invokeAll_history [v] m
    simpa [invokeAll] using this
  · intro hs
    rw [hlen]
    have hp : (pushAll (NewMockInsightPermissionStore C) hs).GetUnauthorizedRepoIDsFunc.history
        = [] := (pushAll_spec hs (NewMockInsightPermissionStore C)).2.2
    simp only [InsightPermissionStoreGetUnauthorizedRepoIDsFunc.History]
    rw [hp]
    simp
  · intro i v
    exact hkeep i v
  · intro i v
    have hwf2 : history.len
        ≤ (((HistoryInMemory mem zero history).1.store (HistoryInMemory mem zero history).2 i
            v).backing history.array).length := by
      have := congrArg List.length (hkeep i v)
      simp only [List.length_take] at this
      omega
    rw [(historyInMemory_spec _ zero history hwf2).1]
    exact hkeep i v

/-- C24 for a history of the two records 1 and 2: the slice `History` returns
is in a new array, and after 9 is written to its first element a later
`History` still returns 1 and 2; had `History` returned the slice of the field
itself, the write would have changed the history; and two invocations of a new
mock leave a history of two records. -/
theorem C24_history_records_calls_witness :
    testHistory.len ≤ (testMemory.backing testHistory.array).length
    ∧ (HistoryInMemory
          ((HistoryInMemory testMemory 0 testHistory).1.store
            (HistoryInMemory testMemory 0 testHistory).2 0 9)
          0 testHistory).1.elements
        (HistoryInMemory
          ((HistoryInMemory testMemory 0 testHistory).1.store
            (HistoryInMemory testMemory 0 testHistory).2 0 9)
          0 testHistory).2
        = testMemory.elements testHistory
    ∧ testMemory.elements testHistory = [1, 2]
    ∧ ((HistoryInMemory testMemory 0 testHistory).1.store
          (HistoryInMemory testMemory 0 testHistory).2 0 9).elements
        (HistoryInMemory testMemory 0 testHistory).2 = [9, 2]
    ∧ ((HistoryShared testMemory testHistory).1.store (HistoryShared testMemory testHistory).2 0
          9).elements testHistory = [9, 2]
    ∧ ((invokeAll (pushAll (NewMockInsightPermissionStore Nat) [fun n => ([(n : Int)], none)])
          [5, 6]).1.GetUnauthorizedRepoIDsFunc.History).length = [5, 6].length :=
  ⟨by decide,
    (C24_history_records_calls (NewMockInsightPermissionStore Nat) [5, 6] testMemory 0
      testHistory (by decide)).2.2.2.2.2.2.2 0 9,
    rfl, rfl, rfl,
    (C24_history_records_calls (NewMockInsightPermissionStore Nat) [5, 6] testMemory 0
      testHistory (by decide)).2.2.2.1 [fun n => ([(n : Int)], none)]⟩

end InsightsStore
